import Mathlib

/-!
# ObjectRecognition: classification, region ranking, features and persistence

A shallow embedding of `classification.cpp`, of `analyzeRegions` from
`regionAnalysis.cpp`, of `computeRegionFeatures` and `drawRegionFeatures`
from `regionFeatures.cpp`, of the region loop of `main.cpp`, and of
`createTrainingSample`, `escapeJsonString` and `saveTrainingData` from
`trainingData.cpp`.

Modelling conventions

* The functions that compute with `double` or `float` are written once, over
  a number type `α` that has the operations they use, with `std::sqrt` as a
  parameter `sqrt : α → α`.  The arithmetic of the program is the
  instance `Binary64` (`double`) or `Binary32` (`float`) with `Fl.sqrt`:
  the IEEE 754 binary format with NaN, the infinities, overflow,
  subnormal numbers and rounding to nearest, ties to even, after each
  operation.  Statements that hold whatever the arithmetic is are proved
  for every linearly ordered field `α` (exact arithmetic).
* `std::vector` is `List`; `v[i]` is `v[i]?`, and a function that reads
  past the end of a vector returns `none` (undefined behaviour in C++).
* `int` is `Int`; `std::string` is `String`, one `Char` per `char`.
* Results of OpenCV and of the standard library (component statistics,
  moments, contours, `std::sort`, number formatting, the current time, the
  outcome of opening a file) are inputs of the functions that use them;
  `stdSort` is the algorithm of `std::sort` in GNU libstdc++.
-/

namespace ObjectRecognition

/-! ## IEEE 754 binary arithmetic (`double`, `float`)

The arithmetic of the compiled program: every operation is one IEEE 754
operation in the format of its operands, rounded to nearest, ties to even
(no wider intermediate precision and no fused multiply-add), and
`pow(x, 2)` is the rounded product `x * x`.  The sign of a zero is not
kept; it can show only in a division by zero, where the zero divisor is
taken as `+0`. -/

/-- A datum of the IEEE 754 binary format with precision `p` (significand
bits, hidden bit included) and largest exponent `emax`: a NaN, an
infinity with its sign, or a finite number, held as the rational it
denotes.  The two zeros are one value and so are all NaNs. -/
inductive Fl (p emax : ℕ) where
  | nan : Fl p emax
  | inf (neg : Bool) : Fl p emax
  | fin (q : ℚ) : Fl p emax
  deriving DecidableEq

/-- The format of `double`: binary64. -/
abbrev Binary64 : Type := Fl 53 1023

/-- The format of `float`: binary32. -/
abbrev Binary32 : Type := Fl 24 127

/-- Newton iteration for the integer square root, from a guess `x` that is
not below the root. -/
def sqrtIter : ℕ → ℕ → ℕ → ℕ
  | 0, _, x => x
  | fuel + 1, n, x =>
    let y := (x + n / x) / 2
    if y < x then sqrtIter fuel n y else x

/-- The number of binary digits of `n`, for `n` below `2 ^ fuel`. -/
def bitLength : ℕ → ℕ → ℕ
  | 0, _ => 0
  | fuel + 1, n => if n = 0 then 0 else bitLength fuel (n / 2) + 1

/-- The binary logarithm of a positive `n`, rounded down. -/
def natLog2 (n : ℕ) : ℕ := bitLength n n - 1

/-- The integer square root: the largest `r` with `r * r ≤ n`. -/
def natSqrt (n : ℕ) : ℕ :=
  if n = 0 then 0 else sqrtIter (natLog2 n + 2) n (2 ^ (natLog2 n / 2 + 1))

namespace Fl

variable {p emax : ℕ}

/-- The exponent of the positive rational `n / d`: the integer `e` with
`2 ^ e ≤ n / d < 2 ^ (e + 1)`. -/
def ilog2 (n d : ℕ) : ℤ :=
  let k : ℤ := (natLog2 n : ℤ) - (natLog2 d : ℤ)
  if (if 0 ≤ k then d * 2 ^ k.toNat ≤ n else d ≤ n * 2 ^ (-k).toNat) then k else k - 1

/-- The integer nearest to `num / den`, the even one of the two at a tie. -/
def roundHalfEven (num den : ℕ) : ℕ :=
  let m := num / den
  let r := num % den
  if den < 2 * r then m + 1
  else if 2 * r = den ∧ m % 2 = 1 then m + 1
  else m

/-- The exponent of the last place of a number of exponent `e`:
`e - (p - 1)`, and `emin - (p - 1)` for the subnormal numbers, where
`emin = 1 - emax`. -/
def quantum (p emax : ℕ) (e : ℤ) : ℤ := max e (1 - (emax : ℤ)) - ((p : ℤ) - 1)

/-- The magnitude `m * 2 ^ qe` is beyond the finite numbers of the format:
it is `2 ^ (emax + 1)` or more. -/
def overflows (emax : ℕ) (m : ℕ) (qe : ℤ) : Bool :=
  if 0 ≤ qe then decide (2 ^ (emax + 1) ≤ m * 2 ^ qe.toNat)
  else decide (2 ^ (emax + 1) * 2 ^ (-qe).toNat ≤ m)

/-- The datum for the magnitude `m * 2 ^ qe` reached by rounding: the
infinity on overflow. -/
def ofScaled (p emax : ℕ) (m : ℕ) (qe : ℤ) : Fl p emax :=
  if overflows emax m qe then inf false
  else fin (mkRat (m * 2 ^ qe.toNat) (2 ^ (-qe).toNat))

/-- Rounding of the positive rational `n / d` to nearest, ties to even. -/
def roundPos (p emax : ℕ) (n d : ℕ) : Fl p emax :=
  let qe := quantum p emax (ilog2 n d)
  let m := if 0 ≤ qe then roundHalfEven n (d * 2 ^ qe.toNat)
           else roundHalfEven (n * 2 ^ (-qe).toNat) d
  ofScaled p emax m qe

/-- Negation. -/
def neg : Fl p emax → Fl p emax
  | nan => nan
  | inf s => inf (!s)
  | fin q => fin (-q)

/-- Rounding of a rational to nearest, ties to even (the rounding of every
arithmetic operation in the default rounding mode). -/
def round (p emax : ℕ) (q : ℚ) : Fl p emax :=
  if q = 0 then fin 0
  else if q < 0 then neg (roundPos p emax q.num.natAbs q.den)
  else roundPos p emax q.num.natAbs q.den

/-- Addition. -/
def add : Fl p emax → Fl p emax → Fl p emax
  | nan, _ => nan
  | _, nan => nan
  | inf s, inf t => if s = t then inf s else nan
  | inf s, fin _ => inf s
  | fin _, inf t => inf t
  | fin a, fin b => round p emax (a + b)

/-- Subtraction. -/
def sub (x y : Fl p emax) : Fl p emax := add x (neg y)

/-- Multiplication. -/
def mul : Fl p emax → Fl p emax → Fl p emax
  | nan, _ => nan
  | _, nan => nan
  | inf s, inf t => inf (s != t)
  | inf s, fin b => if b = 0 then nan else inf (s != decide (b < 0))
  | fin a, inf t => if a = 0 then nan else inf (decide (a < 0) != t)
  | fin a, fin b => round p emax (a * b)

/-- Division.  A zero divisor is taken as `+0`. -/
def div : Fl p emax → Fl p emax → Fl p emax
  | nan, _ => nan
  | _, nan => nan
  | inf _, inf _ => nan
  | inf s, fin b => inf (s != decide (b < 0))
  | fin _, inf _ => fin 0
  | fin a, fin b =>
    if b = 0 then (if a = 0 then nan else inf (decide (a < 0)))
    else round p emax (a / b)

/-- The correctly rounded square root of the positive rational `n / d`. -/
def sqrtPos (p emax : ℕ) (n d : ℕ) : Fl p emax :=
  let qe := quantum p emax (ilog2 n d / 2)
  let num := if 0 ≤ qe then n else n * 4 ^ (-qe).toNat
  let den := if 0 ≤ qe then d * 4 ^ qe.toNat else d
  let m := natSqrt (num / den)
  let m := if (2 * m + 1) ^ 2 * den < 4 * num then m + 1
           else if (2 * m + 1) ^ 2 * den = 4 * num ∧ m % 2 = 1 then m + 1
           else m
  ofScaled p emax m qe

/-- The square root (`std::sqrt`). -/
def sqrt : Fl p emax → Fl p emax
  | nan => nan
  | inf s => if s then nan else inf false
  | fin q =>
    if q < 0 then nan
    else if q = 0 then fin 0
    else sqrtPos p emax q.num.natAbs q.den

/-- The comparison `a < b`: false as soon as one side is a NaN. -/
def lt : Fl p emax → Fl p emax → Prop
  | nan, _ => False
  | _, nan => False
  | inf s, inf t => s = true ∧ t = false
  | inf s, fin _ => s = true
  | fin _, inf t => t = false
  | fin a, fin b => a < b

instance : LT (Fl p emax) := ⟨lt⟩

instance decLt : (a b : Fl p emax) → Decidable (a < b)
  | nan, nan => isFalse (fun h => h)
  | nan, inf _ => isFalse (fun h => h)
  | nan, fin _ => isFalse (fun h => h)
  | inf _, nan => isFalse (fun h => h)
  | fin _, nan => isFalse (fun h => h)
  | inf s, inf t => inferInstanceAs (Decidable (s = true ∧ t = false))
  | inf s, fin _ => inferInstanceAs (Decidable (s = true))
  | fin _, inf t => inferInstanceAs (Decidable (t = false))
  | fin a, fin b => inferInstanceAs (Decidable (a < b))

/-- The comparison is a strict order: a NaN is comparable with nothing. -/
instance : IsStrictOrder (Fl p emax) (fun a b => a < b) where
  irrefl := by
    intro a
    cases a with
    | nan => exact fun h => h
    | inf s =>
      rintro ⟨h1, h2⟩
      rw [h1] at h2
      cases h2
    | fin q => exact lt_irrefl q
  trans := by
    intro a b c h1 h2
    change Fl.lt a b at h1
    change Fl.lt b c at h2
    change Fl.lt a c
    cases a <;> cases b <;> cases c <;> simp only [Fl.lt] at h1 h2 ⊢
    all_goals first
      | exact h1.elim
      | exact h2.elim
      | exact lt_trans h1 h2
      | simp_all

/-- The datum is not a NaN and not negative. -/
def NonNeg : Fl p emax → Prop
  | nan => False
  | inf s => s = false
  | fin q => 0 ≤ q

instance : Zero (Fl p emax) := ⟨fin 0⟩
instance : One (Fl p emax) := ⟨fin 1⟩
instance : NatCast (Fl p emax) := ⟨fun n => round p emax (n : ℚ)⟩
instance : Add (Fl p emax) := ⟨add⟩
instance : Sub (Fl p emax) := ⟨sub⟩
instance : Mul (Fl p emax) := ⟨mul⟩
instance : Div (Fl p emax) := ⟨div⟩
instance : Pow (Fl p emax) ℕ := ⟨fun x n => npowRec n x⟩
instance : Max (Fl p emax) := ⟨fun a b => if a < b then b else a⟩
instance : Min (Fl p emax) := ⟨fun a b => if b < a then b else a⟩


/-- The rational number a finite datum denotes (`0` for a NaN and for the
infinities). -/
def toRat : Fl p emax → ℚ
  | fin q => q
  | _ => 0

/-- The datum is a finite number: neither a NaN nor an infinity. -/
def IsFinite : Fl p emax → Prop
  | fin _ => True
  | _ => False

instance : DecidablePred (IsFinite : Fl p emax → Prop)
  | nan => isFalse (fun h => h)
  | inf _ => isFalse (fun h => h)
  | fin _ => isTrue trivial

/-- The real number a finite datum denotes (`0` for a NaN and for the
infinities). -/
def toReal (x : Fl p emax) : ℝ := (x.toRat : ℝ)

end Fl

/-! ## `std::sort` of GNU libstdc++ (`bits/stl_algo.h`, `bits/stl_heap.h`)

The algorithm `std::sort` runs in the GNU C++ library, on a vector held as
a list and iterators held as indices.  `comp` is the comparator. -/

section StdSort

variable {γ : Type} (comp : γ → γ → Bool)

/-- The call `std::iter_swap(a, b)`. -/
def iterSwap (v : List γ) (a b : ℕ) : List γ :=
  match v[a]?, v[b]? with
  | some x, some y => (v.set a y).set b x
  | _, _ => v

/-- The function `std::__move_median_to_first`. -/
def moveMedianToFirst (v : List γ) (result a b c : ℕ) : List γ :=
  match v[a]?, v[b]?, v[c]? with
  | some xa, some xb, some xc =>
    if comp xa xb then
      if comp xb xc then iterSwap v result b
      else if comp xa xc then iterSwap v result c
      else iterSwap v result a
    else if comp xa xc then iterSwap v result a
    else if comp xb xc then iterSwap v result c
    else iterSwap v result b
  | _, _, _ => v

/-- The loop `while (comp(first, pivot)) ++first;` of
`std::__unguarded_partition`: the index it stops at. -/
def scanUp (v : List γ) (pivot : γ) : ℕ → ℕ → ℕ
  | 0, first => first
  | fuel + 1, first =>
    match v[first]? with
    | some x => if comp x pivot then scanUp v pivot fuel (first + 1) else first
    | none => first

/-- The loop `while (comp(pivot, last)) --last;` of
`std::__unguarded_partition`: the index it stops at. -/
def scanDown (v : List γ) (pivot : γ) : ℕ → ℕ
  | 0 => 0
  | last + 1 =>
    match v[last + 1]? with
    | some x => if comp pivot x then scanDown v pivot last else last + 1
    | none => last + 1

/-- The function `std::__unguarded_partition`: the vector it leaves and the
index it returns. -/
def unguardedPartition : ℕ → List γ → ℕ → ℕ → ℕ → List γ × ℕ
  | 0, v, first, _, _ => (v, first)
  | fuel + 1, v, first, last, pivot =>
    match v[pivot]? with
    | none => (v, first)
    | some pv =>
      let first := scanUp comp v pv v.length first
      let last := scanDown comp v pv (last - 1)
      if first < last then
        unguardedPartition fuel (iterSwap v first last) (first + 1) last pivot
      else (v, first)

/-- The function `std::__unguarded_partition_pivot`. -/
def unguardedPartitionPivot (v : List γ) (first last : ℕ) : List γ × ℕ :=
  let mid := first + (last - first) / 2
  let v := moveMedianToFirst comp v first (first + 1) mid (last - 1)
  unguardedPartition comp v.length v (first + 1) last first

/-- The function `std::__push_heap` on the heap that starts at `first`. -/
def pushHeap (value : γ) (first topIndex : ℕ) : ℕ → List γ → ℕ → List γ
  | 0, v, holeIndex => v.set (first + holeIndex) value
  | fuel + 1, v, holeIndex =>
    let parent := (holeIndex - 1) / 2
    match v[first + parent]? with
    | some x =>
      if holeIndex > topIndex ∧ comp x value then
        pushHeap value first topIndex fuel (v.set (first + holeIndex) x) parent
      else v.set (first + holeIndex) value
    | none => v.set (first + holeIndex) value

/-- The first loop of `std::__adjust_heap`: the vector it leaves, the hole
and `secondChild`. -/
def siftDown (first len : ℕ) : ℕ → List γ → ℕ → ℕ → List γ × ℕ × ℕ
  | 0, v, holeIndex, secondChild => (v, holeIndex, secondChild)
  | fuel + 1, v, holeIndex, secondChild =>
    if secondChild < (len - 1) / 2 then
      let secondChild := 2 * (secondChild + 1)
      match v[first + secondChild]?, v[first + (secondChild - 1)]? with
      | some x, some y =>
        let secondChild := if comp x y then secondChild - 1 else secondChild
        match v[first + secondChild]? with
        | some z => siftDown first len fuel (v.set (first + holeIndex) z) secondChild secondChild
        | none => (v, holeIndex, secondChild)
      | _, _ => (v, holeIndex, secondChild)
    else (v, holeIndex, secondChild)

/-- The function `std::__adjust_heap`. -/
def adjustHeap (v : List γ) (first holeIndex len : ℕ) (value : γ) : List γ :=
  let topIndex := holeIndex
  match siftDown comp first len len v holeIndex holeIndex with
  | (v, holeIndex, secondChild) =>
    if len % 2 = 0 ∧ secondChild = (len - 2) / 2 then
      let secondChild := 2 * (secondChild + 1)
      match v[first + (secondChild - 1)]? with
      | some x =>
        pushHeap comp value first topIndex len (v.set (first + holeIndex) x) (secondChild - 1)
      | none => v
    else pushHeap comp value first topIndex len v holeIndex

/-- The loop of `std::__make_heap` from `parent` down to 0. -/
def makeHeapFrom (first len : ℕ) : ℕ → List γ → List γ
  | 0, v =>
    match v[first]? with
    | some value => adjustHeap comp v first 0 len value
    | none => v
  | parent + 1, v =>
    match v[first + (parent + 1)]? with
    | some value => makeHeapFrom first len parent (adjustHeap comp v first (parent + 1) len value)
    | none => v

/-- The function `std::__make_heap`. -/
def makeHeap (v : List γ) (first last : ℕ) : List γ :=
  if last - first < 2 then v else makeHeapFrom comp first (last - first) ((last - first - 2) / 2) v

/-- The function `std::__pop_heap`. -/
def popHeap (v : List γ) (first last result : ℕ) : List γ :=
  match v[result]?, v[first]? with
  | some value, some top => adjustHeap comp (v.set result top) first 0 (last - first) value
  | _, _ => v

/-- The function `std::__sort_heap`, from `last - first = len` on. -/
def sortHeap (first : ℕ) : ℕ → List γ → List γ
  | 0, v => v
  | len + 1, v =>
    if len + 1 > 1 then sortHeap first len (popHeap comp v first (first + len) (first + len))
    else v

/-- The call `std::__partial_sort(first, last, last)`: a heap sort. -/
def partialSort (v : List γ) (first last : ℕ) : List γ :=
  sortHeap comp first (last - first) (makeHeap comp v first last)

/-- The function `std::__introsort_loop`; the first argument is
`depth_limit`. -/
def introsortLoop : ℕ → List γ → ℕ → ℕ → List γ
  | 0, v, first, last => if last - first > 16 then partialSort comp v first last else v
  | depth + 1, v, first, last =>
    if last - first > 16 then
      match unguardedPartitionPivot comp v first last with
      | (v, cut) => introsortLoop depth (introsortLoop depth v cut last) first cut
    else v

/-- The function `std::__unguarded_linear_insert` for the value `val` taken
from index `last`. -/
def unguardedLinearInsert (val : γ) : List γ → ℕ → List γ
  | v, 0 => v.set 0 val
  | v, next + 1 =>
    match v[next]? with
    | some x =>
      if comp val x then unguardedLinearInsert val (v.set (next + 1) x) next
      else v.set (next + 1) val
    | none => v.set (next + 1) val

/-- One round of the loop of `std::__insertion_sort`, for the index `i`. -/
def insertionStep (first : ℕ) (v : List γ) (i : ℕ) : List γ :=
  match v[i]?, v[first]? with
  | some val, some x =>
    if comp val x then
      v.take first ++ val :: ((v.drop first).take (i - first) ++ v.drop (i + 1))
    else unguardedLinearInsert comp val v i
  | _, _ => v

/-- The function `std::__insertion_sort`. -/
def insertionSort (v : List γ) (first last : ℕ) : List γ :=
  if first = last then v
  else (List.range' (first + 1) (last - (first + 1))).foldl (insertionStep comp first) v

/-- The function `std::__unguarded_insertion_sort`. -/
def unguardedInsertionSort (v : List γ) (first last : ℕ) : List γ :=
  (List.range' first (last - first)).foldl
    (fun v i =>
      match v[i]? with
      | some val => unguardedLinearInsert comp val v i
      | none => v) v

/-- The function `std::__final_insertion_sort`. -/
def finalInsertionSort (v : List γ) (first last : ℕ) : List γ :=
  if last - first > 16 then
    unguardedInsertionSort comp (insertionSort comp v first (first + 16)) (first + 16) last
  else insertionSort comp v first last

/-- The call `std::sort(v.begin(), v.end(), comp)`. -/
def stdSort (v : List γ) : List γ :=
  if v.length = 0 then v
  else
    finalInsertionSort comp (introsortLoop comp (2 * natLog2 v.length) v 0 v.length)
      0 v.length

end StdSort

/-! ## Data model (`trainingData.h`, `classification.h`) -/

/-- The record `TrainingSample` of `trainingData.h`. -/
structure TrainingSample (α : Type) where
  label : String
  features : List α
  cnnEmbedding : List α
  timestamp : String
  deriving DecidableEq

/-- The record `ClassificationResult` of `classification.h`. -/
structure ClassificationResult (α : Type) where
  label : String
  distance : α
  isUnknown : Bool
  deriving DecidableEq

section Classifier

variable {α : Type} [Zero α] [One α] [NatCast α] [Add α] [Sub α] [Mul α] [Div α]
  [Pow α ℕ] [LT α] [DecidableRel ((· < ·) : α → α → Prop)]

/-- The value of `std::numeric_limits<double>::max()`, the largest finite
binary64 number `(2 - 2^(-52)) * 2^1023`. -/
def DBL_MAX : α := ((2 ^ 1024 - 2 ^ 971 : ℕ) : α)

/-- The value of `std::numeric_limits<float>::max()`, the largest finite
binary32 number `(2 - 2^(-23)) * 2^127`. -/
def FLT_MAX : α := ((2 ^ 128 - 2 ^ 104 : ℕ) : α)

/-- An accumulation loop `for (x : xs) acc += term(x);` in which computing
`term(x)` may read a vector element; `none` when a read is out of bounds. -/
def accumulate {β : Type} (term : β → Option α) : List β → α → Option α
  | [], acc => some acc
  | x :: rest, acc =>
    match term x with
    | none => none
    | some v => accumulate term rest (acc + v)

/-- The body of the loop of `classifyObject` lines 37-52 for one dimension `i`:
mean, population variance, standard deviation, and the replacement of a
standard deviation below `0.001` by `1.0`. -/
def stdDevAt (sqrt : α → α) (trainingData : List (TrainingSample α)) (i : Nat) :
    Option α :=
  match accumulate (fun sample => sample.features[i]?) trainingData 0 with
  | none => none
  | some total =>
    let mean := total / (trainingData.length : α)
    match accumulate (fun sample => (sample.features[i]?).map (fun v => (v - mean) ^ 2))
        trainingData 0 with
    | none => none
    | some sq =>
      let variance := sq / (trainingData.length : α)
      let sd := sqrt variance
      some (if sd < 1 / 1000 then 1 else sd)

/-- Runs `body i` for each index of the list in order and collects the
values; `none` as soon as one of them is `none`. -/
def forEachIndex (body : Nat → Option α) : List Nat → Option (List α)
  | [] => some []
  | i :: rest =>
    match body i with
    | none => none
    | some v =>
      match forEachIndex body rest with
      | none => none
      | some vs => some (v :: vs)

/-- The vector `stdDevs` of `classifyObject` (lines 34-53): `features.size()`
entries, all `1.0` unless the gallery has more than one sample. -/
def computeStdDevs (sqrt : α → α) (features : List α)
    (trainingData : List (TrainingSample α)) : Option (List α) :=
  if trainingData.length > 1 then
    forEachIndex (stdDevAt sqrt trainingData) (List.range features.length)
  else
    some (List.replicate features.length 1)

/-- The vector `weights` of `classifyObject` (line 55). -/
def weights : List α := [1, 1, 1, 2]

/-- One step `distance += weights[i] * diff * diff` of the inner loop of
`classifyObject` (lines 63-66), as the summand for index `i`. -/
def weightedTerm (features stdDevs sampleFeatures : List α) (i : Nat) : Option α :=
  match features[i]?, sampleFeatures[i]?, stdDevs[i]?, (weights : List α)[i]? with
  | some f, some s, some sd, some w => some (w * ((f - s) / sd) * ((f - s) / sd))
  | _, _, _, _ => none

/-- The distance of `classifyObject` to one sample (lines 61-67). -/
def sampleDistance (sqrt : α → α) (features stdDevs : List α)
    (sample : TrainingSample α) : Option α :=
  (accumulate (weightedTerm features stdDevs sample.features)
    (List.range features.length) 0).map sqrt

/-- The nearest-neighbour loop of `classifyObject` (lines 60-73) on the state
`(minDistance, bestLabel)`. -/
def nearestLoop (dist : TrainingSample α → Option α) :
    List (TrainingSample α) → α × String → Option (α × String)
  | [], best => some best
  | sample :: rest, (minDistance, bestLabel) =>
    match dist sample with
    | none => none
    | some distance =>
      if distance < minDistance then nearestLoop dist rest (distance, sample.label)
      else nearestLoop dist rest (minDistance, bestLabel)

/-- The function `classifyObject` of `classification.cpp`. -/
def classifyObject (sqrt : α → α) (features : List α)
    (trainingData : List (TrainingSample α)) (distanceThreshold : α) :
    Option (ClassificationResult α) :=
  if trainingData.isEmpty || features.isEmpty then
    some { label := "Unknown", distance := DBL_MAX, isUnknown := true }
  else
    match computeStdDevs sqrt features trainingData with
    | none => none
    | some stdDevs =>
      match nearestLoop (sampleDistance sqrt features stdDevs) trainingData
          (DBL_MAX, "Unknown") with
      | none => none
      | some (minDistance, bestLabel) =>
        let adjustedThreshold := distanceThreshold * (3 / 2)
        some { label := bestLabel, distance := minDistance,
               isUnknown := decide (minDistance > adjustedThreshold) }

/-- One step `distance += diff * diff` of the inner loop of `classifyObjectCNN`
(lines 111-114), as the summand for index `i`. -/
def squaredTerm (cnnEmbedding sampleEmbedding : List α) (i : Nat) : Option α :=
  match cnnEmbedding[i]?, sampleEmbedding[i]? with
  | some q, some s => some ((q - s) * (q - s))
  | _, _ => none

/-- The distance of `classifyObjectCNN` to one sample (lines 110-115). -/
def embeddingDistance (sqrt : α → α) (cnnEmbedding : List α)
    (sample : TrainingSample α) : Option α :=
  (accumulate (squaredTerm cnnEmbedding sample.cnnEmbedding)
    (List.range cnnEmbedding.length) 0).map sqrt

/-- The nearest-neighbour loop of `classifyObjectCNN` (lines 107-121) on the
state `(minDistance, bestLabel)`; samples without an embedding are skipped. -/
def nearestLoopCNN (sqrt : α → α) (cnnEmbedding : List α) :
    List (TrainingSample α) → α × String → Option (α × String)
  | [], best => some best
  | sample :: rest, (minDistance, bestLabel) =>
    if sample.cnnEmbedding.isEmpty then
      nearestLoopCNN sqrt cnnEmbedding rest (minDistance, bestLabel)
    else
      match embeddingDistance sqrt cnnEmbedding sample with
      | none => none
      | some distance =>
        if distance < minDistance then
          nearestLoopCNN sqrt cnnEmbedding rest (distance, sample.label)
        else nearestLoopCNN sqrt cnnEmbedding rest (minDistance, bestLabel)

/-- The function `classifyObjectCNN` of `classification.cpp`. -/
def classifyObjectCNN (sqrt : α → α) (cnnEmbedding : List α)
    (trainingData : List (TrainingSample α)) (distanceThreshold : α) :
    Option (ClassificationResult α) :=
  if trainingData.isEmpty || cnnEmbedding.isEmpty then
    some { label := "Unknown", distance := FLT_MAX, isUnknown := true }
  else
    match nearestLoopCNN sqrt cnnEmbedding trainingData (FLT_MAX, "Unknown") with
    | none => none
    | some (minDistance, bestLabel) =>
      some { label := bestLabel, distance := minDistance,
             isUnknown := decide (minDistance > distanceThreshold) }

/-! ## The distances of the specification, operation by operation

The formulas of the specification with every operation carried out in the
number type at hand, in the order in which the source applies them: a sum
is accumulated from the left, starting at `0`, and `w * d ^ 2` is
`(w * d) * d`.  At `Binary64` and `Binary32` each operation rounds. -/

/-- Specification: the weight vector `[1, 1, 1, 2]`. -/
def specWeight (i : Nat) : α := if i = 3 then 2 else 1

/-- The sum of a list, accumulated from the left, starting at `0`. -/
def sumLeft (xs : List α) : α := xs.foldl (fun acc x => acc + x) 0

/-- The mean of feature `i` over the gallery, operation by operation. -/
def computedMean (gallery : List (TrainingSample α)) (i : Nat) : α :=
  sumLeft (gallery.map (fun e => e.features.getD i 0)) / (gallery.length : α)

/-- The population standard deviation of feature `i` over the gallery,
operation by operation. -/
def computedStdDev (sqrt : α → α) (gallery : List (TrainingSample α)) (i : Nat) : α :=
  sqrt (sumLeft (gallery.map (fun e => (e.features.getD i 0 - computedMean gallery i) ^ 2))
    / (gallery.length : α))

/-- The divisor `sigma_i`, operation by operation: `1` for a gallery of exactly
one entry, and otherwise the computed standard deviation, replaced by `1`
when it compares below `0.001`. -/
def computedSigma (sqrt : α → α) (gallery : List (TrainingSample α)) (i : Nat) : α :=
  if gallery.length = 1 then 1
  else if computedStdDev sqrt gallery i < 1 / 1000 then 1
  else computedStdDev sqrt gallery i

/-- The distance of a 4-element query to the gallery entry `e`, operation by
operation: `sqrt (((0 + t_0) + t_1) + t_2) + t_3)` with
`t_i = (w_i * d_i) * d_i` and `d_i = (query_i - e_i) / sigma_i`. -/
def computedDistance (sqrt : α → α) (query : List α) (gallery : List (TrainingSample α))
    (e : TrainingSample α) : α :=
  sqrt (sumLeft ((List.range 4).map (fun i =>
    specWeight i * ((query.getD i 0 - e.features.getD i 0) / computedSigma sqrt gallery i)
      * ((query.getD i 0 - e.features.getD i 0) / computedSigma sqrt gallery i))))

/-- The Euclidean distance between a query and an embedding, operation by
operation: the square root of the sum, from the left, of the squared
differences. -/
def computedL2 (sqrt : α → α) (query : List α) (e : TrainingSample α) : α :=
  sqrt (sumLeft ((List.range query.length).map (fun i =>
    (query.getD i 0 - e.cnnEmbedding.getD i 0) * (query.getD i 0 - e.cnnEmbedding.getD i 0))))

/-- Specification: `(label, x)` are the label and distance of the first entry of
least distance `d` under the comparison `<`, among the entries closer than
`bound`: the distance of `e` is below `bound`, no entry has a distance
below that of `e`, and no entry before `e` has the distance of `e`.  (A
NaN compares below nothing and nothing compares below it, so an entry at
a NaN distance is never this entry.) -/
def IsFirstLeast (d : TrainingSample α → α) (bound : α) (gallery : List (TrainingSample α))
    (label : String) (x : α) : Prop :=
  ∃ pre e post, gallery = pre ++ e :: post ∧ label = e.label ∧ x = d e ∧ d e < bound ∧
    (∀ y ∈ pre, ¬ d y < d e ∧ d y ≠ d e) ∧ (∀ y ∈ post, ¬ d y < d e)

/-- An entry takes part in embedding matching when it has a stored embedding. -/
def hasEmbedding (e : TrainingSample α) : Bool := !e.cnnEmbedding.isEmpty

/-- The sample with every number mapped by `f`. -/
def TrainingSample.map {β : Type} (f : α → β) (s : TrainingSample α) : TrainingSample β :=
  { label := s.label, features := s.features.map f, cnnEmbedding := s.cnnEmbedding.map f,
    timestamp := s.timestamp }

end Classifier

section ClassifierSpec

variable {α : Type} [LinearOrderedField α]

/-! ## The distance of the specification, in exact arithmetic

The definitions of this section follow the specification's formula for the
classic-feature distance as a formula over an ordered field. -/

/-- Specification: the mean of feature `i` over the gallery. -/
def specMean (gallery : List (TrainingSample α)) (i : Nat) : α :=
  (gallery.map (fun e => e.features.getD i 0)).sum / (gallery.length : α)

/-- Specification: the population standard deviation of feature `i` over the
gallery (sum of squared deviations from the mean, divided by `N`). -/
def specPopStdDev (sqrt : α → α) (gallery : List (TrainingSample α)) (i : Nat) : α :=
  sqrt ((gallery.map (fun e => (e.features.getD i 0 - specMean gallery i) ^ 2)).sum
    / (gallery.length : α))

/-- Specification: `sigma_i` is `1` for a gallery of exactly one entry, and
otherwise the population standard deviation, replaced by `1` when it is
below `0.001`. -/
def specSigma (sqrt : α → α) (gallery : List (TrainingSample α)) (i : Nat) : α :=
  if gallery.length = 1 then 1
  else if specPopStdDev sqrt gallery i < 1 / 1000 then 1
  else specPopStdDev sqrt gallery i

/-- Specification: the distance of a 4-element query to the gallery entry `e`,
`sqrt (sum over i = 0..3 of w_i * ((query_i - e_i) / sigma_i)^2)`. -/
def specDistance (sqrt : α → α) (query : List α) (gallery : List (TrainingSample α))
    (e : TrainingSample α) : α :=
  sqrt (∑ i ∈ Finset.range 4,
    specWeight i * ((query.getD i 0 - e.features.getD i 0) / specSigma sqrt gallery i) ^ 2)

/-- Specification: the unweighted Euclidean distance between a query and an
embedding of the same length. -/
def specL2 (sqrt : α → α) (query : List α) (e : TrainingSample α) : α :=
  sqrt (∑ i ∈ Finset.range query.length, (query.getD i 0 - e.cnnEmbedding.getD i 0) ^ 2)

/-- Specification: `x` is the minimum over the gallery entries of the distance
`d`: some entry has distance `x`, and no entry has a smaller one. -/
def IsMinimumOver (d : TrainingSample α → α) (gallery : List (TrainingSample α))
    (x : α) : Prop :=
  (∃ e ∈ gallery, x = d e) ∧ ∀ e ∈ gallery, x ≤ d e

/-- Specification: `(label, x)` are the label and distance of the lowest-indexed
entry of least distance `d`: the entries before it are strictly farther and
the entries after it are not closer. -/
def IsFirstNearest (d : TrainingSample α → α) (gallery : List (TrainingSample α))
    (label : String) (x : α) : Prop :=
  ∃ pre e post, gallery = pre ++ e :: post ∧ label = e.label ∧ x = d e ∧
    (∀ y ∈ pre, d e < d y) ∧ (∀ y ∈ post, d e ≤ d y)

end ClassifierSpec

/-! ## Region extraction (`regionAnalysis.h`, `regionAnalysis.cpp`) -/

/-- The type `cv::Point` (integer coordinates). -/
structure Point where
  x : Int
  y : Int
  deriving DecidableEq

/-- The type `cv::Rect`: top-left corner, width and height. -/
structure Rect where
  x : Int
  y : Int
  width : Int
  height : Int
  deriving DecidableEq

/-- The type `cv::Scalar`, used as a display colour. -/
structure Scalar where
  v0 : Int
  v1 : Int
  v2 : Int
  deriving DecidableEq

/-- The record `Region` of `regionAnalysis.h`. -/
structure Region where
  id : Int
  area : Int
  centroid : Point
  boundingBox : Rect
  color : Scalar
  deriving DecidableEq

/-- What `analyzeRegions` reads for one label `i`: row `i` of `stats`
(`CC_STAT_AREA`, `CC_STAT_LEFT`, `CC_STAT_TOP`, `CC_STAT_WIDTH`,
`CC_STAT_HEIGHT`), row `i` of `centroids` converted to a `cv::Point`, and
the colour `colors[i]` drawn for the label.  The labelling itself
(`connectedComponentsWithStats`) is an OpenCV routine. -/
structure ComponentStats where
  area : Int
  left : Int
  top : Int
  width : Int
  height : Int
  centroid : Point
  color : Scalar
  deriving DecidableEq

/-- The loop of lines 44-58 from label `i` on: one `Region` per row, with the
label as its `id`. -/
def collectRegions : List ComponentStats → Int → List Region
  | [], _ => []
  | row :: rest, i =>
    { id := i, area := row.area, centroid := row.centroid,
      boundingBox := { x := row.left, y := row.top, width := row.width,
                       height := row.height },
      color := row.color } :: collectRegions rest (i + 1)

/-- The vector `allRegions` (lines 43-58): the loop starts at label 1, so
row 0 (the background) is skipped. -/
def allRegions (stats : List ComponentStats) : List Region :=
  collectRegions (stats.drop 1) 1

/-- The test of lines 62-74 that decides whether a region is pushed to
`filteredRegions`. -/
def keepRegion (cols rows minArea : Int) (ignoreBoundaryRegions : Bool)
    (region : Region) : Bool :=
  if region.area >= minArea then
    if ignoreBoundaryRegions then
      decide (region.boundingBox.x > 0 ∧
        region.boundingBox.y > 0 ∧
        region.boundingBox.x + region.boundingBox.width < cols - 1 ∧
        region.boundingBox.y + region.boundingBox.height < rows - 1)
    else true
  else false

/-- The comparator of line 78, `a.area > b.area`. -/
def areaGreater (a b : Region) : Prop := a.area > b.area

instance : DecidableRel areaGreater := fun a b => inferInstanceAs (Decidable (a.area > b.area))

/-- The contract of `std::sort(first, last, comp)` with the comparator of
line 78: the result is a rearrangement of the input in which no element
compares before an element placed ahead of it.  `std::sort` is not a
stable sort, so the relative order of regions of equal area is left open. -/
structure AreaSort where
  sort : List Region → List Region
  perm : ∀ l, (sort l).Perm l
  ordered : ∀ l, (sort l).Pairwise (fun a b => ¬ areaGreater b a)

/-- The loop of lines 84-86 from index `i` on: `regions[i].id = i + 1`. -/
def reassignIds : List Region → Int → List Region
  | [], _ => []
  | region :: rest, i => { region with id := i + 1 } :: reassignIds rest (i + 1)

/-- The function `analyzeRegions` of `regionAnalysis.cpp`, from the output of
the connected-component labelling on, with the call of `std::sort` on
`filteredRegions` (line 77) as the parameter `sort`.  `cols` and `rows`
are the dimensions of `binaryImage`. -/
def analyzeRegionsWith (sort : List Region → List Region) (stats : List ComponentStats)
    (cols rows : Int) (minArea maxRegions : Int) (ignoreBoundaryRegions : Bool) :
    List Region :=
  let filteredRegions :=
    (allRegions stats).filter (keepRegion cols rows minArea ignoreBoundaryRegions)
  let filteredRegions := sort filteredRegions
  let count := min maxRegions (filteredRegions.length : Int)
  let regions := if count > 0 then filteredRegions.take count.toNat else []
  reassignIds regions 0

/-- The function `analyzeRegions` run with a sort that meets the contract of
`std::sort`. -/
def analyzeRegions (S : AreaSort) (stats : List ComponentStats) (cols rows : Int)
    (minArea maxRegions : Int) (ignoreBoundaryRegions : Bool) : List Region :=
  analyzeRegionsWith S.sort stats cols rows minArea maxRegions ignoreBoundaryRegions

/-- The call of `std::sort` of line 77 as GNU libstdc++ runs it: `stdSort` with
the comparator `a.area > b.area`. -/
def libstdcxxSort (l : List Region) : List Region :=
  stdSort (fun a b => decide (areaGreater a b)) l

/-- Insertion of a region into a list ordered by decreasing area, before the
first region that is not larger. -/
def insertByArea (r : Region) : List Region → List Region
  | [] => [r]
  | x :: rest => if areaGreater x r then x :: insertByArea r rest else r :: x :: rest

/-- An insertion sort by decreasing area; regions of equal area keep their
order. -/
def sortByArea : List Region → List Region
  | [] => []
  | r :: rest => insertByArea r (sortByArea rest)

/-- The insertion sort by decreasing area meets the contract of `std::sort`. -/
def insertionAreaSort : AreaSort where
  sort := sortByArea
  perm := by
    have hins : ∀ (r : Region) (l : List Region), (insertByArea r l).Perm (r :: l) := by
      intro r l
      induction l with
      | nil => exact List.Perm.refl _
      | cons x rest ih =>
        by_cases h : areaGreater x r
        · simp only [insertByArea, h, if_true]
          exact (List.Perm.cons x ih).trans (List.Perm.swap r x rest)
        · simp [insertByArea, h]
    intro l
    induction l with
    | nil => exact List.Perm.refl _
    | cons r rest ih => exact (hins r (sortByArea rest)).trans (List.Perm.cons r ih)
  ordered := by
    have hmem : ∀ (r y : Region) (l : List Region),
        y ∈ insertByArea r l → y = r ∨ y ∈ l := by
      intro r y l
      induction l with
      | nil => intro hy; simpa [insertByArea] using hy
      | cons x rest ih =>
        intro hy
        by_cases h : areaGreater x r
        · simp only [insertByArea, h, if_true, List.mem_cons] at hy
          rcases hy with hy | hy
          · exact Or.inr (by simp [hy])
          · rcases ih hy with h1 | h1
            · exact Or.inl h1
            · exact Or.inr (by simp [h1])
        · simpa [insertByArea, h] using hy
    have hins : ∀ (r : Region) (l : List Region),
        l.Pairwise (fun a b => ¬ areaGreater b a) →
        (insertByArea r l).Pairwise (fun a b => ¬ areaGreater b a) := by
      intro r l
      induction l with
      | nil => intro _; simp [insertByArea]
      | cons x rest ih =>
        intro hl
        have hx := (List.pairwise_cons.mp hl).1
        have hrest := (List.pairwise_cons.mp hl).2
        by_cases h : areaGreater x r
        · simp only [insertByArea, h, if_true]
          refine List.pairwise_cons.mpr ⟨?_, ih hrest⟩
          intro y hy
          rcases hmem r y rest hy with rfl | hy
          · simp only [areaGreater] at h ⊢
            omega
          · exact hx y hy
        · simp only [insertByArea, h, if_false]
          refine List.pairwise_cons.mpr ⟨?_, hl⟩
          intro y hy
          simp only [areaGreater] at h ⊢
          rcases List.mem_cons.mp hy with rfl | hy
          · exact h
          · have := hx y hy
            simp only [areaGreater] at this
            omega
    intro l
    induction l with
    | nil => simp [sortByArea]
    | cons r rest ih => exact hins r (sortByArea rest) ih

/-- The vector `regions` of `analyzeRegions` after line 82, before the ids are
reassigned: its elements still carry the connected-component label as `id`. -/
def selectRegionsWith (sort : List Region → List Region) (stats : List ComponentStats)
    (cols rows : Int) (minArea maxRegions : Int) (ignoreBoundaryRegions : Bool) :
    List Region :=
  let filteredRegions :=
    (allRegions stats).filter (keepRegion cols rows minArea ignoreBoundaryRegions)
  let filteredRegions := sort filteredRegions
  let count := min maxRegions (filteredRegions.length : Int)
  if count > 0 then filteredRegions.take count.toNat else []

/-- The vector `regions` before the ids are reassigned, for a sort that meets
the contract of `std::sort`. -/
def selectRegions (S : AreaSort) (stats : List ComponentStats) (cols rows : Int)
    (minArea maxRegions : Int) (ignoreBoundaryRegions : Bool) : List Region :=
  selectRegionsWith S.sort stats cols rows minArea maxRegions ignoreBoundaryRegions

/-- The statistics of a 1000 x 1000 mask with 17 components, each a filled
40 x 25 rectangle of area 1000: the component of label `k + 1` has its
left edge at column `50 * (k + 1)` and its top edge at row 10.  Row 0 is
the background. -/
def seventeenComponents : List ComponentStats :=
  ⟨983000, 0, 0, 1000, 1000, ⟨501, 504⟩, ⟨0, 0, 0⟩⟩ ::
    (List.range 17).map (fun (k : Nat) =>
      ⟨1000, 50 * ((k : Int) + 1), 10, 40, 25, ⟨50 * ((k : Int) + 1) + 19, 22⟩,
        ⟨(k : Int) + 1, 0, 0⟩⟩)

/-- Specification: the bounding box `box` (columns `x .. x + width - 1`, rows
`y .. y + height - 1`) contains a pixel of row 0, column 0, the last row or
the last column of a mask with `cols` columns and `rows` rows. -/
def touchesBorder (cols rows : Int) (box : Rect) : Prop :=
  ∃ c r : Int, box.x ≤ c ∧ c < box.x + box.width ∧ box.y ≤ r ∧ r < box.y + box.height ∧
    (c = 0 ∨ c = cols - 1 ∨ r = 0 ∨ r = rows - 1)

/-! ## Region features (`regionFeatures.h`, `regionFeatures.cpp`) -/

/-- The type `cv::Point2f`. -/
structure Point2f (α : Type) where
  x : α
  y : α

/-- The type `cv::Size2f`. -/
structure Size2f (α : Type) where
  width : α
  height : α

/-- The type `cv::RotatedRect`: centre, size and angle. -/
structure RotatedRect (α : Type) where
  center : Point2f α
  size : Size2f α
  angle : α

/-- The record `RegionFeatures` of `regionFeatures.h`. -/
structure RegionFeatures (α : Type) where
  regionId : Int
  area : α
  percentFilled : α
  aspectRatio : α
  elongation : α
  huMoments : List α
  centroidX : α
  centroidY : α
  orientedBoundingBox : RotatedRect α

/-- The fields of `cv::Moments` that `computeRegionFeatures` reads. -/
structure Moments (α : Type) where
  m00 : α
  m10 : α
  m01 : α
  mu20 : α
  mu11 : α
  mu02 : α

/-- What the OpenCV routines called by `computeRegionFeatures` return for
`regionMask`: `countNonZero(regionMask)`, `moments(regionMask, true)`, the
values `HuMoments` writes, the contours `findContours` finds, and
`minAreaRect` on a contour. -/
structure MaskAnalysis (α : Type) where
  countNonZero : Nat
  moments : Moments α
  huMoments : List α
  contours : List (List Point)
  minAreaRect : List Point → RotatedRect α

/-- The contents of the `int` and `double` members of a `RegionFeatures` right
after the declaration `RegionFeatures features;` (line 27).  The struct has
no constructor and no member initialisers, so the declaration leaves these
members uninitialised; this record stands for whatever they hold. -/
structure Uninitialized (α : Type) where
  regionId : Int
  area : α
  percentFilled : α
  aspectRatio : α
  elongation : α
  centroidX : α
  centroidY : α

section Features

variable {α : Type} [Zero α] [One α] [NatCast α] [Add α] [Sub α] [Mul α] [Div α]
  [Pow α ℕ] [LT α] [DecidableRel ((· < ·) : α → α → Prop)] [Max α] [Min α] [DecidableEq α]

/-- The value of the default constructor `cv::RotatedRect()`. -/
def RotatedRect.default : RotatedRect α :=
  { center := { x := 0, y := 0 }, size := { width := 0, height := 0 }, angle := 0 }

/-- The function `computeRegionFeatures` of `regionFeatures.cpp`, from the
results of the OpenCV calls on `regionMask`. -/
def computeRegionFeatures (sqrt : α → α) (u : Uninitialized α) (mask : MaskAnalysis α)
    (regionId : Int) : RegionFeatures α :=
  let features : RegionFeatures α :=
    { regionId := u.regionId, area := u.area, percentFilled := u.percentFilled,
      aspectRatio := u.aspectRatio, elongation := u.elongation, huMoments := [],
      centroidX := u.centroidX, centroidY := u.centroidY,
      orientedBoundingBox := RotatedRect.default }
  let features := { features with regionId := regionId }
  let features := { features with area := (mask.countNonZero : α) }
  let m := mask.moments
  let features :=
    if m.m00 ≠ 0 then
      { features with centroidX := m.m10 / m.m00, centroidY := m.m01 / m.m00 }
    else features
  let features := { features with huMoments := mask.huMoments }
  match mask.contours with
  | [] => features
  | contour :: _ =>
    let features := { features with orientedBoundingBox := mask.minAreaRect contour }
    let obbSize := features.orientedBoundingBox.size
    let width := max obbSize.width obbSize.height
    let height := min obbSize.width obbSize.height
    let features :=
      { features with aspectRatio := if height > 0 then width / height else 0 }
    let obbArea := width * height
    let features :=
      { features with percentFilled := if obbArea > 0 then features.area / obbArea else 0 }
    let mu20 := m.mu20 / m.m00
    let mu02 := m.mu02 / m.m00
    let mu11 := m.mu11 / m.m00
    let common := sqrt (4 * mu11 * mu11 + (mu20 - mu02) * (mu20 - mu02))
    let lambda1 := 1 / 2 * ((mu20 + mu02) + common)
    let lambda2 := 1 / 2 * ((mu20 + mu02) - common)
    { features with elongation := if lambda1 > 0 then 1 - sqrt (lambda2 / lambda1) else 0 }

/-- One drawing call on an image, tagged with the region it is made for: the
four edges of the oriented bounding box, the two centroid circles and
the caption of `drawRegionFeatures`, and the two texts `main` writes
after a classification. -/
inductive Drawing where
  | obbEdge (regionId : Int) (i : Nat)
  | centroidDisc (regionId : Int)
  | centroidRing (regionId : Int)
  | caption (regionId : Int)
  | classText (regionId : Int)
  | distText (regionId : Int)
  deriving DecidableEq

/-- The function `drawRegionFeatures` of `regionFeatures.cpp`; the image is the
list of drawing calls made on it. -/
def drawRegionFeatures (image : List Drawing) (features : RegionFeatures α) :
    List Drawing :=
  if features.area = 0 then image
  else
    image ++ [Drawing.obbEdge features.regionId 0, Drawing.obbEdge features.regionId 1,
      Drawing.obbEdge features.regionId 2, Drawing.obbEdge features.regionId 3,
      Drawing.centroidDisc features.regionId, Drawing.centroidRing features.regionId,
      Drawing.caption features.regionId]

/-- What the body of the region loop of `main` leaves behind for one region. -/
structure RegionOutcome (α : Type) where
  features : RegionFeatures α
  regionMap : List Drawing
  classified : Option (List α × ClassificationResult α)

/-- The matrix `labels` that `connectedComponentsWithStats` fills
(`main.cpp` line 120): `cols` columns, `rows` rows, and the label
`labels.at<int>(y, x)` of the pixel in row `y` and column `x`. -/
structure LabelImage where
  cols : Nat
  rows : Nat
  label : Nat → Nat → Int

/-- A single-channel 8-bit matrix such as `regionMask`: the value of the pixel
in row `y` and column `x` is `pixel y x`. -/
structure Mask where
  cols : Nat
  rows : Nat
  pixel : Nat → Nat → Nat

/-- The matrix `Mat::zeros(size, CV_8UC1)`. -/
def Mask.zeros (cols rows : Nat) : Mask :=
  { cols := cols, rows := rows, pixel := fun _ _ => 0 }

/-- The matrix `labels == originalLabel`: 255 where the label is
`originalLabel`, 0 elsewhere. -/
def labelsEqual (labels : LabelImage) (originalLabel : Int) : Mask :=
  { cols := labels.cols, rows := labels.rows,
    pixel := fun y x => if labels.label y x = originalLabel then 255 else 0 }

/-- The OpenCV routine `countNonZero`. -/
def countNonZero (mask : Mask) : Nat :=
  ((List.range mask.rows).map (fun y =>
    ((List.range mask.cols).filter (fun x => mask.pixel y x ≠ 0)).length)).sum

/-- The matrix `regionMask` of `main.cpp` lines 117-126: all zeros, and when the
centroid lies inside `labels`, the pixels that carry the label found at
the centroid. -/
def regionMaskOf (labels : LabelImage) (centroid : Point) : Mask :=
  if centroid.x ≥ 0 ∧ centroid.x < (labels.cols : Int) ∧
      centroid.y ≥ 0 ∧ centroid.y < (labels.rows : Int) then
    labelsEqual labels (labels.label centroid.y.toNat centroid.x.toNat)
  else Mask.zeros labels.cols labels.rows

/-- The OpenCV routines `moments`, `HuMoments`, `findContours` and `minAreaRect`
that `computeRegionFeatures` calls, as functions of their arguments. -/
structure OpenCV (α : Type) where
  moments : Mask → Moments α
  huMoments : Moments α → List α
  findContours : Mask → List (List Point)
  minAreaRect : List Point → RotatedRect α

/-- What the OpenCV routines return for the matrix `mask`. -/
def analyseMask (cv : OpenCV α) (mask : Mask) : MaskAnalysis α :=
  { countNonZero := countNonZero mask,
    moments := cv.moments mask,
    huMoments := cv.huMoments (cv.moments mask),
    contours := cv.findContours mask,
    minAreaRect := cv.minAreaRect }

/-- The body of the region loop of `main` (`main.cpp` lines 117-150) for one
region: `regionMask` is built from `labels` and the centroid of the
region, the features are computed and drawn, and outside training mode
with a non-empty gallery the vector `currentFeatures` is built and passed
to `classifyObject`.  The embedding branch of lines 152-184 is nested in
the same test and is not modelled.  `none` when a vector is read out of
bounds. -/
def processRegion (sqrt : α → α) (u : Uninitialized α) (cv : OpenCV α) (labels : LabelImage)
    (region : Region) (trainingMode : Bool) (trainingSamples : List (TrainingSample α))
    (classificationThreshold : α) (regionMap : List Drawing) :
    Option (RegionOutcome α) :=
  let regionMask := regionMaskOf labels region.centroid
  let features := computeRegionFeatures sqrt u (analyseMask cv regionMask) region.id
  let regionMap := drawRegionFeatures regionMap features
  if !trainingMode && !trainingSamples.isEmpty then
    match features.huMoments[0]? with
    | none => none
    | some hu =>
      let currentFeatures :=
        [features.percentFilled, features.aspectRatio, features.elongation, hu]
      match classifyObject sqrt currentFeatures trainingSamples classificationThreshold with
      | none => none
      | some result =>
        some { features := features,
               regionMap := regionMap ++ [Drawing.classText features.regionId,
                 Drawing.distText features.regionId],
               classified := some (currentFeatures, result) }
  else
    some { features := features, regionMap := regionMap, classified := none }

/-- The function `createTrainingSample` of `trainingData.cpp`; `timestamp` is the
string `getCurrentTimestamp()` returns.  `none` when `features.huMoments[0]`
is read from an empty vector. -/
def createTrainingSample (timestamp : String) (label : String)
    (features : RegionFeatures α) : Option (TrainingSample α) :=
  match features.huMoments[0]? with
  | none => none
  | some hu =>
    some { label := label, timestamp := timestamp,
           features := [features.percentFilled, features.aspectRatio,
             features.elongation, hu],
           cnnEmbedding := [] }

/-- Specification: the larger eigenvalue
`0.5 * ((mu20 + mu02) + sqrt (4 * mu11^2 + (mu20 - mu02)^2))`. -/
def specLambda1 (sqrt : α → α) (mu20 mu02 mu11 : α) : α :=
  1 / 2 * ((mu20 + mu02) + sqrt (4 * mu11 ^ 2 + (mu20 - mu02) ^ 2))

/-- Specification: the smaller eigenvalue
`0.5 * ((mu20 + mu02) - sqrt (4 * mu11^2 + (mu20 - mu02)^2))`. -/
def specLambda2 (sqrt : α → α) (mu20 mu02 mu11 : α) : α :=
  1 / 2 * ((mu20 + mu02) - sqrt (4 * mu11 ^ 2 + (mu20 - mu02) ^ 2))

/-- Specification: `elongation = 1 - sqrt (lambda2 / lambda1)` when
`lambda1 > 0`, else `0`. -/
def specElongation (sqrt : α → α) (mu20 mu02 mu11 : α) : α :=
  if specLambda1 sqrt mu20 mu02 mu11 > 0 then
    1 - sqrt (specLambda2 sqrt mu20 mu02 mu11 / specLambda1 sqrt mu20 mu02 mu11)
  else 0

end Features

/-! ## Persistence (`trainingData.cpp`) -/

/-- The text the `switch` of `escapeJsonString` (lines 61-70) appends for the
character `c`.  The characters are given by their codes: 34 is the double
quote, 92 the backslash, 8 backspace, 12 form feed, 10 newline, 13 carriage
return and 9 tab. -/
def escapeChar (c : Char) : String :=
  if c = Char.ofNat 34 then String.mk [Char.ofNat 92, Char.ofNat 34]
  else if c = Char.ofNat 92 then String.mk [Char.ofNat 92, Char.ofNat 92]
  else if c = Char.ofNat 8 then String.mk [Char.ofNat 92, 'b']
  else if c = Char.ofNat 12 then String.mk [Char.ofNat 92, 'f']
  else if c = Char.ofNat 10 then String.mk [Char.ofNat 92, 'n']
  else if c = Char.ofNat 13 then String.mk [Char.ofNat 92, 'r']
  else if c = Char.ofNat 9 then String.mk [Char.ofNat 92, 't']
  else String.singleton c

/-- The function `escapeJsonString` of `trainingData.cpp`: the loop over the
characters of `input` appends to `output`. -/
def escapeJsonString (input : String) : String :=
  input.data.foldl (fun output c => output ++ escapeChar c) ""

/-- Specification: the seven escaped characters, each with the character that
follows the backslash in its image: double quote, backslash, backspace,
form feed, newline, carriage return, tab. -/
def specEscapeTable : List (Char × Char) :=
  [(Char.ofNat 34, Char.ofNat 34), (Char.ofNat 92, Char.ofNat 92), (Char.ofNat 8, 'b'),
   (Char.ofNat 12, 'f'), (Char.ofNat 10, 'n'), (Char.ofNat 13, 'r'), (Char.ofNat 9, 't')]

/-- Specification: the image of one character: backslash and the table entry for
a character of the table, the character itself otherwise. -/
def specEscapeImage (c : Char) : List Char :=
  match specEscapeTable.lookup c with
  | some k => [Char.ofNat 92, k]
  | none => [c]

/-- The double-quote character as a string. -/
def dquote : String := String.singleton (Char.ofNat 34)

/-- The loop of lines 102-107 (and 110-115) from index `j` on: each value in the
text `fmt` gives it, followed by `", "` unless it is the last; `size` is
the `size()` of the whole vector. -/
def writeValuesFrom {α : Type} (fmt : α → String) (size : Nat) : List α → Nat → String
  | [], _ => ""
  | v :: rest, j =>
    fmt v ++ (if j < size - 1 then ", " else "") ++ writeValuesFrom fmt size rest (j + 1)

/-- The body of the sample loop (lines 97-122) for the sample at index `i`. -/
def writeSample {α : Type} (fmt : α → String) (size : Nat) (sample : TrainingSample α)
    (i : Nat) : String :=
  "    \x7b\n"
  ++ ("      " ++ dquote ++ "label" ++ dquote ++ ": " ++ dquote
      ++ escapeJsonString sample.label ++ dquote ++ ",\n")
  ++ ("      " ++ dquote ++ "timestamp" ++ dquote ++ ": " ++ dquote
      ++ escapeJsonString sample.timestamp ++ dquote ++ ",\n")
  ++ ("      " ++ dquote ++ "features" ++ dquote ++ ": ["
      ++ writeValuesFrom fmt sample.features.length sample.features 0 ++ "],\n")
  ++ ("      " ++ dquote ++ "cnn_embedding" ++ dquote ++ ": ["
      ++ writeValuesFrom fmt sample.cnnEmbedding.length sample.cnnEmbedding 0 ++ "]\n")
  ++ (if i < size - 1 then "    \x7d,\n" else "    \x7d\n")

/-- The sample loop of lines 96-123 from index `i` on. -/
def writeSamplesFrom {α : Type} (fmt : α → String) (size : Nat) :
    List (TrainingSample α) → Nat → String
  | [], _ => ""
  | sample :: rest, i =>
    writeSample fmt size sample i ++ writeSamplesFrom fmt size rest (i + 1)

/-- The lines 90-95 of `saveTrainingData`: everything before the samples. -/
def writeHeader (created : String) (count : Nat) : String :=
  "\x7b\n"
  ++ ("  " ++ dquote ++ "version" ++ dquote ++ ": " ++ dquote ++ "1.0" ++ dquote ++ ",\n")
  ++ ("  " ++ dquote ++ "created" ++ dquote ++ ": " ++ dquote ++ created ++ dquote ++ ",\n")
  ++ ("  " ++ dquote ++ "feature_names" ++ dquote ++ ": ["
      ++ dquote ++ "percent_filled" ++ dquote ++ ", "
      ++ dquote ++ "aspect_ratio" ++ dquote ++ ", "
      ++ dquote ++ "elongation" ++ dquote ++ ", "
      ++ dquote ++ "hu_moment_1" ++ dquote ++ "],\n")
  ++ ("  " ++ dquote ++ "total_samples" ++ dquote ++ ": " ++ toString count ++ ",\n")
  ++ ("  " ++ dquote ++ "samples" ++ dquote ++ ": [\n")

/-- The function `saveTrainingData` of `trainingData.cpp`: `none` when the file
cannot be opened (the function returns `false` and writes nothing),
otherwise the text written to the file (the function returns `true`).
`fmt` is the text `file << fixed << setprecision(6) << x` writes for a
number `x`, `created` the string `getCurrentTimestamp()` returns, and
`isOpen` the outcome of `file.is_open()`. -/
def saveTrainingData {α : Type} (fmt : α → String) (created : String) (isOpen : Bool)
    (samples : List (TrainingSample α)) : Option String :=
  if !isOpen then none
  else
    some (writeHeader created samples.length
      ++ writeSamplesFrom fmt samples.length samples 0
      ++ "  ]\n"
      ++ "\x7d\n")

/-- Specification: one object of the `samples` list of the persisted document,
with its fields as they stand in the text. -/
structure SampleObject where
  label : String
  timestamp : String
  features : List String
  cnn_embedding : List String

/-- Specification: the persisted gallery document with the fields `version`,
`created`, `feature_names`, `total_samples` and `samples`. -/
structure GalleryDocument where
  version : String
  created : String
  feature_names : List String
  total_samples : Nat
  samples : List SampleObject

/-- Specification: the items of a list separated by `sep`. -/
def joinWith (sep : String) : List String → String
  | [] => ""
  | [x] => x
  | x :: y :: rest => x ++ sep ++ joinWith sep (y :: rest)

/-- Specification: the text of one sample object, without what follows its
closing brace. -/
def renderSampleObject (o : SampleObject) : String :=
  "    \x7b\n"
  ++ ("      " ++ dquote ++ "label" ++ dquote ++ ": " ++ dquote ++ o.label ++ dquote ++ ",\n")
  ++ ("      " ++ dquote ++ "timestamp" ++ dquote ++ ": " ++ dquote ++ o.timestamp ++ dquote
      ++ ",\n")
  ++ ("      " ++ dquote ++ "features" ++ dquote ++ ": [" ++ joinWith ", " o.features ++ "],\n")
  ++ ("      " ++ dquote ++ "cnn_embedding" ++ dquote ++ ": ["
      ++ joinWith ", " o.cnn_embedding ++ "]\n")
  ++ "    \x7d"

/-- Specification: the text of a document: its head fields one per line, then
the sample objects separated by commas, each on lines of its own. -/
def renderDocument (d : GalleryDocument) : String :=
  "\x7b\n"
  ++ ("  " ++ dquote ++ "version" ++ dquote ++ ": " ++ dquote ++ d.version ++ dquote ++ ",\n")
  ++ ("  " ++ dquote ++ "created" ++ dquote ++ ": " ++ dquote ++ d.created ++ dquote ++ ",\n")
  ++ ("  " ++ dquote ++ "feature_names" ++ dquote ++ ": ["
      ++ joinWith ", " (d.feature_names.map (fun n => dquote ++ n ++ dquote)) ++ "],\n")
  ++ ("  " ++ dquote ++ "total_samples" ++ dquote ++ ": " ++ toString d.total_samples ++ ",\n")
  ++ ("  " ++ dquote ++ "samples" ++ dquote ++ ": [\n")
  ++ (match d.samples with
      | [] => ""
      | o :: rest => joinWith ",\n" ((o :: rest).map renderSampleObject) ++ "\n")
  ++ "  ]\n"
  ++ "\x7d\n"

/-- Specification: the document that holds the gallery `samples`: one object per
sample, in gallery order, with the escaped label and timestamp and the
formatted feature and embedding values. -/
def documentOf {α : Type} (fmt : α → String) (created : String)
    (samples : List (TrainingSample α)) : GalleryDocument :=
  { version := "1.0", created := created,
    feature_names := ["percent_filled", "aspect_ratio", "elongation", "hu_moment_1"],
    total_samples := samples.length,
    samples := samples.map (fun s =>
      { label := escapeJsonString s.label, timestamp := escapeJsonString s.timestamp,
        features := s.features.map fmt, cnn_embedding := s.cnnEmbedding.map fmt }) }

/-- Auxiliary: the character an escape sequence stands for, from the character
that follows its backslash. -/
def unescapeKey (k : Char) : Char :=
  if k = 'b' then Char.ofNat 8
  else if k = 'f' then Char.ofNat 12
  else if k = 'n' then Char.ofNat 10
  else if k = 'r' then Char.ofNat 13
  else if k = 't' then Char.ofNat 9
  else k

/-- Auxiliary: reading an escaped text back, one escape sequence or plain
character at a time.  The repository has no such function; it is used to
show that `escapeJsonString` loses no information. -/
def unescapeChars : List Char → List Char
  | [] => []
  | [c] => [c]
  | c :: k :: rest =>
    if c = Char.ofNat 92 then unescapeKey k :: unescapeChars rest
    else c :: unescapeChars (k :: rest)

/-! ## Proofs -/

section Proofs

variable {α : Type} [LinearOrderedField α]


theorem accumulate_of_forall {β : Type} (term : β → Option α) (g : β → α) :
    ∀ (xs : List β) (acc : α), (∀ x ∈ xs, term x = some (g x)) →
      accumulate term xs acc = some (acc + (xs.map g).sum)
  | [], acc, _ => by simp [accumulate]
  | x :: rest, acc, h => by
    have hx : term x = some (g x) := h x (List.mem_cons_self x rest)
    have hrest : ∀ y ∈ rest, term y = some (g y) :=
      fun y hy => h y (List.mem_cons_of_mem x hy)
    simp only [accumulate, hx, List.map_cons, List.sum_cons]
    rw [accumulate_of_forall term g rest (acc + g x) hrest, add_assoc]

theorem accumulate_none_of_mem {β : Type} (term : β → Option α) :
    ∀ (xs : List β) (acc : α), (∃ x ∈ xs, term x = none) → accumulate term xs acc = none
  | [], _, h => by simp at h
  | x :: rest, acc, h => by
    cases hx : term x with
    | none => simp [accumulate, hx]
    | some v =>
      simp only [accumulate, hx]
      apply accumulate_none_of_mem term rest
      obtain ⟨y, hy, hny⟩ := h
      rcases List.mem_cons.mp hy with rfl | hy
      · rw [hx] at hny; cases hny
      · exact ⟨y, hy, hny⟩

theorem forEachIndex_of_forall {γ : Type} (body : Nat → Option γ) (g : Nat → γ) :
    ∀ idx : List Nat, (∀ i ∈ idx, body i = some (g i)) →
      forEachIndex body idx = some (idx.map g)
  | [], _ => by simp [forEachIndex]
  | i :: rest, h => by
    have hi : body i = some (g i) := h i (List.mem_cons_self i rest)
    have hrest : ∀ j ∈ rest, body j = some (g j) :=
      fun j hj => h j (List.mem_cons_of_mem i hj)
    simp [forEachIndex, hi, forEachIndex_of_forall body g rest hrest]

/-- The nearest-neighbour loop computes the running minimum: either no sample
is strictly closer than the initial bound and the state is unchanged, or
the state holds the first sample of least distance. -/
theorem nearestLoop_spec (dist : TrainingSample α → Option α) (d : TrainingSample α → α) :
    ∀ (data : List (TrainingSample α)) (m0 : α) (l0 : String),
      (∀ s ∈ data, dist s = some (d s)) →
      ∃ m l, nearestLoop dist data (m0, l0) = some (m, l) ∧
        ((m = m0 ∧ l = l0 ∧ ∀ s ∈ data, m0 ≤ d s) ∨
         (∃ pre e post, data = pre ++ e :: post ∧ m = d e ∧ l = e.label ∧ d e < m0 ∧
            (∀ x ∈ pre, d e < d x) ∧ (∀ x ∈ post, d e ≤ d x)))
  | [], m0, l0, _ => ⟨m0, l0, by simp [nearestLoop]⟩
  | s :: rest, m0, l0, h => by
    have hs : dist s = some (d s) := h s (List.mem_cons_self s rest)
    have hrest : ∀ y ∈ rest, dist y = some (d y) :=
      fun y hy => h y (List.mem_cons_of_mem s hy)
    by_cases hlt : d s < m0
    · obtain ⟨m, l, hrun, hcase⟩ := nearestLoop_spec dist d rest (d s) s.label hrest
      refine ⟨m, l, by simp [nearestLoop, hs, hlt, hrun], Or.inr ?_⟩
      rcases hcase with ⟨hm, hl, hall⟩ | ⟨pre, e, post, hsplit, hm, hl, hlt2, hpre, hpost⟩
      · exact ⟨[], s, rest, rfl, hm, hl, hlt, by simp, hall⟩
      · refine ⟨s :: pre, e, post, by simp [hsplit], hm, hl, lt_trans hlt2 hlt, ?_, hpost⟩
        intro x hx
        rcases List.mem_cons.mp hx with rfl | hx
        · exact hlt2
        · exact hpre x hx
    · obtain ⟨m, l, hrun, hcase⟩ := nearestLoop_spec dist d rest m0 l0 hrest
      refine ⟨m, l, by simp [nearestLoop, hs, hlt, hrun], ?_⟩
      rcases hcase with ⟨hm, hl, hall⟩ | ⟨pre, e, post, hsplit, hm, hl, hlt2, hpre, hpost⟩
      · refine Or.inl ⟨hm, hl, ?_⟩
        intro x hx
        rcases List.mem_cons.mp hx with rfl | hx
        · exact not_lt.mp hlt
        · exact hall x hx
      · refine Or.inr ⟨s :: pre, e, post, by simp [hsplit], hm, hl, hlt2, ?_, hpost⟩
        intro x hx
        rcases List.mem_cons.mp hx with rfl | hx
        · exact lt_of_lt_of_le hlt2 (not_lt.mp hlt)
        · exact hpre x hx

/-- The embedding loop is the classic loop run on the samples that have an
embedding. -/
theorem nearestLoopCNN_eq_filter (sqrt : α → α) (q : List α) :
    ∀ (data : List (TrainingSample α)) (best : α × String),
      nearestLoopCNN sqrt q data best =
        nearestLoop (embeddingDistance sqrt q) (data.filter hasEmbedding) best
  | [], best => by simp [nearestLoopCNN, nearestLoop]
  | s :: rest, (m, l) => by
    by_cases he : s.cnnEmbedding.isEmpty = true
    · simp [nearestLoopCNN, hasEmbedding, he, nearestLoopCNN_eq_filter sqrt q rest]
    · simp only [Bool.not_eq_true] at he
      simp only [nearestLoopCNN, hasEmbedding, he, List.filter_cons, Bool.not_false,
        if_true, nearestLoop, Bool.false_eq_true, if_false]
      cases embeddingDistance sqrt q s with
      | none => rfl
      | some dv =>
        simp only
        split <;> exact nearestLoopCNN_eq_filter sqrt q rest _

/-! ## `classifyObject` on 4-feature data -/

theorem getElem?_eq_some_getD {γ : Type} (l : List γ) (i : Nat) (dflt : γ)
    (h : i < l.length) : l[i]? = some (l.getD i dflt) := by
  simp [List.getD, List.getElem?_eq_getElem h]

theorem stdDevAt_spec (sqrt : α → α) (gallery : List (TrainingSample α)) (i : Nat)
    (hlen : ∀ e ∈ gallery, i < e.features.length) (hN : gallery.length ≠ 1) :
    stdDevAt sqrt gallery i = some (specSigma sqrt gallery i) := by
  have h1 : accumulate (fun sample : TrainingSample α => sample.features[i]?) gallery 0
      = some (0 + (gallery.map (fun e => e.features.getD i 0)).sum) :=
    accumulate_of_forall _ _ gallery 0
      (fun e he => getElem?_eq_some_getD e.features i 0 (hlen e he))
  have h2 : ∀ mean : α,
      accumulate (fun sample : TrainingSample α =>
        (sample.features[i]?).map (fun v => (v - mean) ^ 2)) gallery 0
      = some (0 + (gallery.map (fun e => (e.features.getD i 0 - mean) ^ 2)).sum) := by
    intro mean
    refine accumulate_of_forall _ _ gallery 0 (fun e he => ?_)
    simp only [getElem?_eq_some_getD e.features i 0 (hlen e he), Option.map_some']
  simp only [stdDevAt, h1, h2, zero_add, specSigma, specPopStdDev, specMean, hN, if_false]

theorem computeStdDevs_spec (sqrt : α → α) (features : List α)
    (gallery : List (TrainingSample α)) (hg : gallery ≠ [])
    (hlen : ∀ e ∈ gallery, features.length ≤ e.features.length) :
    computeStdDevs sqrt features gallery
      = some ((List.range features.length).map (specSigma sqrt gallery)) := by
  unfold computeStdDevs
  by_cases hN : gallery.length > 1
  · rw [if_pos hN]
    refine forEachIndex_of_forall _ _ _ (fun i hi => ?_)
    have hi4 : i < features.length := List.mem_range.mp hi
    exact stdDevAt_spec sqrt gallery i (fun e he => lt_of_lt_of_le hi4 (hlen e he))
      (by omega)
  · rw [if_neg hN]
    have hpos : 0 < gallery.length := List.length_pos.mpr hg
    have h1 : gallery.length = 1 := by omega
    congr 1
    apply List.ext_getElem
    · simp
    · intro n hn1 hn2
      simp [specSigma, h1]

theorem list_length_four {γ : Type} (l : List γ) (h : l.length = 4) :
    ∃ a b c d, l = [a, b, c, d] := by
  match l, h with
  | [a, b, c, d], _ => exact ⟨a, b, c, d, rfl⟩

section Limits

set_option exponentiation.threshold 1100

/-- In exact arithmetic `DBL_MAX` is `2 ^ 1024 - 2 ^ 971`. -/
theorem DBL_MAX_eq : (DBL_MAX : α) = 2 ^ 1024 - 2 ^ 971 := by
  have h : (2 : ℕ) ^ 971 ≤ 2 ^ 1024 := Nat.pow_le_pow_right Nat.zero_lt_two (by omega)
  unfold DBL_MAX
  rw [Nat.cast_sub h, Nat.cast_pow, Nat.cast_pow, Nat.cast_ofNat]

/-- In exact arithmetic `FLT_MAX` is `2 ^ 128 - 2 ^ 104`. -/
theorem FLT_MAX_eq : (FLT_MAX : α) = 2 ^ 128 - 2 ^ 104 := by
  have h : (2 : ℕ) ^ 104 ≤ 2 ^ 128 := Nat.pow_le_pow_right Nat.zero_lt_two (by omega)
  unfold FLT_MAX
  rw [Nat.cast_sub h, Nat.cast_pow, Nat.cast_pow, Nat.cast_ofNat]

end Limits

theorem FLT_MAX_pos : (0 : α) < FLT_MAX := by
  have h : (2 : α) ^ 104 < 2 ^ 128 := pow_lt_pow_right₀ (by norm_num) (by norm_num)
  rw [FLT_MAX_eq]
  linarith

/-- The specification's distance for a gallery of one entry: all `sigma_i`
are `1`. -/
theorem specDistance_singleton (sqrt : α → α) (a b c d a' b' c' d' : α) (l ts : String)
    (emb : List α) :
    specDistance sqrt [a, b, c, d]
        [{ label := l, features := [a', b', c', d'], cnnEmbedding := emb, timestamp := ts }]
        { label := l, features := [a', b', c', d'], cnnEmbedding := emb, timestamp := ts }
      = sqrt ((a - a') ^ 2 + (b - b') ^ 2 + (c - c') ^ 2 + 2 * (d - d') ^ 2) := by
  simp [specDistance, specSigma, specWeight, Finset.sum_range_succ]

theorem weightedTerm_in_bounds (features stdDevs sampleFeatures : List α) (i : Nat)
    (h1 : i < features.length) (h2 : i < sampleFeatures.length)
    (h3 : i < stdDevs.length) (h4 : i < 4) :
    weightedTerm features stdDevs sampleFeatures i
      = some ((weights : List α).getD i 0
          * ((features.getD i 0 - sampleFeatures.getD i 0) / stdDevs.getD i 0)
          * ((features.getD i 0 - sampleFeatures.getD i 0) / stdDevs.getD i 0)) := by
  have h4' : i < (weights : List α).length := by simpa [weights] using h4
  simp only [weightedTerm, getElem?_eq_some_getD features i 0 h1,
    getElem?_eq_some_getD sampleFeatures i 0 h2, getElem?_eq_some_getD stdDevs i 0 h3,
    getElem?_eq_some_getD (weights : List α) i 0 h4']

/-- When every index the loops use is within bounds, `classifyObject` returns a
result. -/
theorem classifyObject_returns (sqrt : α → α) (features : List α)
    (gallery : List (TrainingSample α)) (t : α) (hg : gallery ≠ [])
    (hq : features.length ≤ 4)
    (hlen : ∀ e ∈ gallery, features.length ≤ e.features.length) :
    ∃ r, classifyObject sqrt features gallery t = some r := by
  by_cases hf : features = []
  · exact ⟨{ label := "Unknown", distance := DBL_MAX, isUnknown := true },
      by simp [classifyObject, hf]⟩
  · have hsd := computeStdDevs_spec sqrt features gallery hg hlen
    have hdist : ∀ e ∈ gallery, ∃ v,
        sampleDistance sqrt features
          ((List.range features.length).map (specSigma sqrt gallery)) e = some v := by
      intro e he
      have hacc := accumulate_of_forall
        (weightedTerm features ((List.range features.length).map (specSigma sqrt gallery))
          e.features)
        (fun i => (weights : List α).getD i 0
          * ((features.getD i 0 - e.features.getD i 0)
              / ((List.range features.length).map (specSigma sqrt gallery)).getD i 0)
          * ((features.getD i 0 - e.features.getD i 0)
              / ((List.range features.length).map (specSigma sqrt gallery)).getD i 0))
        (List.range features.length) 0
        (fun i hi => by
          have hi' : i < features.length := List.mem_range.mp hi
          exact weightedTerm_in_bounds _ _ _ i hi' (lt_of_lt_of_le hi' (hlen e he))
            (by simpa using hi') (lt_of_lt_of_le hi' hq))
      exact ⟨_, by rw [sampleDistance, hacc, Option.map_some']⟩
    obtain ⟨m, l, hrun, -⟩ := nearestLoop_spec
      (sampleDistance sqrt features
        ((List.range features.length).map (specSigma sqrt gallery)))
      (fun e => (sampleDistance sqrt features
        ((List.range features.length).map (specSigma sqrt gallery)) e).getD 0)
      gallery DBL_MAX "Unknown"
      (fun e he => by obtain ⟨v, hv⟩ := hdist e he; simp [hv])
    exact ⟨{ label := l, distance := m, isUnknown := decide (m > t * (3 / 2)) },
      by simp [classifyObject, hg, hf, hsd, hrun]⟩

/-! ## Claims on `classifyObject` -/

/-- C4 (counterexample): on an empty gallery and an empty query `classifyObject`
reports the distance `2^1024 - 2^971` and `classifyObjectCNN` the distance
`2^128 - 2^104`; both are finite numbers, not `+infinity`. -/
theorem classify_empty_distance_not_infinite :
    ∃ r r' : ClassificationResult ℝ,
      classifyObject Real.sqrt [] [] 1 = some r ∧
      classifyObjectCNN Real.sqrt [] [] 1 = some r' ∧
      r.distance = 2 ^ 1024 - 2 ^ 971 ∧ r'.distance = 2 ^ 128 - 2 ^ 104 ∧
      ((r.distance : ℝ) : EReal) ≠ ⊤ ∧ ((r'.distance : ℝ) : EReal) ≠ ⊤ :=
  ⟨{ label := "Unknown", distance := DBL_MAX, isUnknown := true },
   { label := "Unknown", distance := FLT_MAX, isUnknown := true },
   by simp [classifyObject], by simp [classifyObjectCNN], DBL_MAX_eq, FLT_MAX_eq,
   EReal.coe_ne_top _, EReal.coe_ne_top _⟩

/-- C4 (amended): for every threshold, whenever the gallery is empty or the
query is empty, `classifyObject` returns label `Unknown`, distance `DBL_MAX`
(the largest finite double) and `isUnknown = true`, and `classifyObjectCNN`
returns label `Unknown`, distance `FLT_MAX` (the largest finite float) and
`isUnknown = true`. -/
theorem classify_empty_returns_unknown (sqrt : α → α) (query : List α)
    (gallery : List (TrainingSample α)) (t : α) (h : gallery = [] ∨ query = []) :
    classifyObject sqrt query gallery t
      = some { label := "Unknown", distance := DBL_MAX, isUnknown := true } ∧
    classifyObjectCNN sqrt query gallery t
      = some { label := "Unknown", distance := FLT_MAX, isUnknown := true } := by
  have hcond : (gallery.isEmpty || query.isEmpty) = true := by
    rcases h with h | h <;> simp [h]
  exact ⟨by rw [classifyObject, if_pos hcond], by rw [classifyObjectCNN, if_pos hcond]⟩

/-- C4 (witness): an empty query against a gallery of one entry. -/
theorem classify_empty_returns_unknown_witness :
    classifyObject Real.sqrt [] [TrainingSample.mk "a" [1, 2, 3, 4] [5] ""] 2
      = some { label := "Unknown", distance := DBL_MAX, isUnknown := true } ∧
    classifyObjectCNN Real.sqrt [] [TrainingSample.mk "a" [1, 2, 3, 4] [5] ""] 2
      = some { label := "Unknown", distance := FLT_MAX, isUnknown := true } :=
  classify_empty_returns_unknown Real.sqrt []
    [TrainingSample.mk "a" [1, 2, 3, 4] [5] ""] 2 (Or.inr rfl)

/-! ## `classifyObjectCNN` -/

theorem sum_map_range_eq (g : Nat → α) (n : Nat) :
    ((List.range n).map g).sum = ∑ i ∈ Finset.range n, g i := by
  induction n with
  | zero => simp
  | succ n ih => rw [List.sum_range_succ, Finset.sum_range_succ, ih]

/-- The embedding distance is the Euclidean distance when the sample's
embedding is at least as long as the query. -/
theorem embeddingDistance_spec (sqrt : α → α) (q : List α) (e : TrainingSample α)
    (hlen : q.length ≤ e.cnnEmbedding.length) :
    embeddingDistance sqrt q e = some (specL2 sqrt q e) := by
  have hacc := accumulate_of_forall (squaredTerm q e.cnnEmbedding)
    (fun i => (q.getD i 0 - e.cnnEmbedding.getD i 0) ^ 2) (List.range q.length) 0
    (fun i hi => by
      have hi' : i < q.length := List.mem_range.mp hi
      simp only [squaredTerm, getElem?_eq_some_getD q i 0 hi',
        getElem?_eq_some_getD e.cnnEmbedding i 0 (lt_of_lt_of_le hi' hlen), sq])
  rw [embeddingDistance, hacc, Option.map_some', zero_add, sum_map_range_eq, specL2]

/-- A sample whose embedding is shorter than the query makes the inner loop read
past the end of that embedding. -/
theorem embeddingDistance_out_of_bounds (sqrt : α → α) (q : List α) (e : TrainingSample α)
    (hlen : e.cnnEmbedding.length < q.length) :
    embeddingDistance sqrt q e = none := by
  have hacc := accumulate_none_of_mem (squaredTerm q e.cnnEmbedding)
    (List.range q.length) 0
    ⟨e.cnnEmbedding.length, List.mem_range.mpr hlen, by
      have h1 : e.cnnEmbedding[e.cnnEmbedding.length]? = none :=
        List.getElem?_eq_none (le_refl _)
      simp only [squaredTerm, h1]
      split <;> simp_all⟩
  rw [embeddingDistance, hacc, Option.map_none']

/-- The result of `classifyObjectCNN` on a non-empty query depends on the gallery
only through the entries that have an embedding, provided one of them
exists. -/
theorem classifyObjectCNN_eq_filter_of_exists (sqrt : α → α) (q : List α)
    (gallery : List (TrainingSample α)) (t : α) (hq : q ≠ [])
    (hfil : gallery.filter hasEmbedding ≠ []) :
    classifyObjectCNN sqrt q gallery t
      = classifyObjectCNN sqrt q (gallery.filter hasEmbedding) t := by
  have hg : gallery ≠ [] := by
    intro h; rw [h] at hfil; exact hfil rfl
  have hcond : ¬ ((gallery.isEmpty || q.isEmpty) = true) := by
    simp [List.isEmpty_iff, hg, hq]
  have hcond' : ¬ (((gallery.filter hasEmbedding).isEmpty || q.isEmpty) = true) := by
    simp only [List.isEmpty_iff, Bool.or_eq_true, decide_eq_true_eq, not_or]
    exact ⟨hfil, hq⟩
  simp only [classifyObjectCNN, if_neg hcond, if_neg hcond', nearestLoopCNN_eq_filter,
    List.filter_filter, Bool.and_self]

/-- A gallery without any embedding leaves the loop of `classifyObjectCNN` at its
initial state. -/
theorem classifyObjectCNN_no_embedding (sqrt : α → α) (q : List α)
    (gallery : List (TrainingSample α)) (t : α) (hq : q ≠ []) (hg : gallery ≠ [])
    (hfil : gallery.filter hasEmbedding = []) :
    classifyObjectCNN sqrt q gallery t
      = some { label := "Unknown", distance := FLT_MAX, isUnknown := decide (FLT_MAX > t) } := by
  have hcond : ¬ ((gallery.isEmpty || q.isEmpty) = true) := by
    simp [List.isEmpty_iff, hg, hq]
  simp only [classifyObjectCNN, if_neg hcond, nearestLoopCNN_eq_filter, hfil, nearestLoop]

/-! ## Claims on `classifyObjectCNN` -/

/-- C5 (the code at the failing inputs): with the query `[1, 2]` and a gallery
entry whose embedding `[1]` is shorter, `classifyObjectCNN` reads
`sample.cnnEmbedding[1]` past the end of the embedding (no result); with the
query `[1]` and an entry whose embedding `[1, 5]` is longer, the entry is not
excluded: it supplies the label `a` and the distance `0`. -/
theorem classifyObjectCNN_length_mismatch :
    classifyObjectCNN Real.sqrt [1, 2] [TrainingSample.mk "a" [] [1] ""] 1 = none ∧
    classifyObjectCNN Real.sqrt [1] [TrainingSample.mk "a" [] [1, 5] ""] 1
      = some { label := "a", distance := 0, isUnknown := false } := by
  constructor
  · have h := embeddingDistance_out_of_bounds Real.sqrt [1, 2]
      (TrainingSample.mk "a" [] [1] "") (by simp)
    simp [classifyObjectCNN, nearestLoopCNN, h]
  · have h := embeddingDistance_spec Real.sqrt [1]
      (TrainingSample.mk "a" [] [1, 5] "") (by simp)
    have hd : specL2 Real.sqrt [1] (TrainingSample.mk "a" [] [1, 5] "") = 0 := by
      simp [specL2]
    have hpos : (0 : ℝ) < FLT_MAX := FLT_MAX_pos
    rw [hd] at h
    simp [classifyObjectCNN, nearestLoopCNN, h, hpos]

/-- C7 (counterexample): with the threshold `FLT_MAX`, the query `[0]` and a
gallery whose only entry has no embedding, `classifyObjectCNN` returns
`isUnknown = false`, but on the gallery with that entry removed (the empty
gallery) it returns `isUnknown = true`. -/
theorem classifyObjectCNN_skip_changes_result :
    classifyObjectCNN Real.sqrt [0] [TrainingSample.mk "a" [] [] ""] FLT_MAX
      = some { label := "Unknown", distance := FLT_MAX, isUnknown := false } ∧
    classifyObjectCNN Real.sqrt [0]
        (List.filter hasEmbedding [TrainingSample.mk "a" [] [] ""]) FLT_MAX
      = some { label := "Unknown", distance := FLT_MAX, isUnknown := true } ∧
    classifyObjectCNN Real.sqrt [0] [TrainingSample.mk "a" [] [] ""] FLT_MAX
      ≠ classifyObjectCNN Real.sqrt [0]
          (List.filter hasEmbedding [TrainingSample.mk "a" [] [] ""]) FLT_MAX := by
  have h1 : classifyObjectCNN Real.sqrt [0] [TrainingSample.mk "a" [] [] ""] FLT_MAX
      = some { label := "Unknown", distance := FLT_MAX, isUnknown := false } := by
    rw [classifyObjectCNN_no_embedding Real.sqrt [0] _ FLT_MAX (by simp) (by simp)
      (by simp [hasEmbedding])]
    simp
  have h2 : classifyObjectCNN Real.sqrt [0]
      (List.filter hasEmbedding [TrainingSample.mk "a" [] [] ""]) FLT_MAX
      = some { label := "Unknown", distance := FLT_MAX, isUnknown := true } := by
    simp [classifyObjectCNN, hasEmbedding]
  refine ⟨h1, h2, ?_⟩
  rw [h1, h2]
  simp

/-- C7 (amended): for every non-empty query and every gallery, whenever the
threshold is below `FLT_MAX` or some entry has an embedding,
`classifyObjectCNN` returns the same result as on the gallery with every
entry whose embedding is empty removed; so for a threshold below `FLT_MAX`
a non-empty gallery in which no entry has an embedding gives the same
result as an empty gallery. -/
theorem classifyObjectCNN_skips_missing_embeddings (sqrt : α → α) (q : List α)
    (gallery : List (TrainingSample α)) (t : α) (hq : q ≠ [])
    (h : t < FLT_MAX ∨ ∃ e ∈ gallery, hasEmbedding e = true) :
    classifyObjectCNN sqrt q gallery t
      = classifyObjectCNN sqrt q (gallery.filter hasEmbedding) t ∧
    ((∀ e ∈ gallery, hasEmbedding e = false) →
      classifyObjectCNN sqrt q gallery t = classifyObjectCNN sqrt q [] t) := by
  have key : classifyObjectCNN sqrt q gallery t
      = classifyObjectCNN sqrt q (gallery.filter hasEmbedding) t := by
    by_cases hfil : gallery.filter hasEmbedding = []
    · by_cases hg : gallery = []
      · rw [hg]; rfl
      · have ht : t < FLT_MAX := by
          rcases h with ht | ⟨e, he, hemb⟩
          · exact ht
          · have hmem : e ∈ gallery.filter hasEmbedding := List.mem_filter.mpr ⟨he, hemb⟩
            rw [hfil] at hmem
            cases hmem
        rw [classifyObjectCNN_no_embedding sqrt q gallery t hq hg hfil, hfil]
        simp [classifyObjectCNN, ht]
    · exact classifyObjectCNN_eq_filter_of_exists sqrt q gallery t hq hfil
  refine ⟨key, fun hnone => ?_⟩
  have hfil : gallery.filter hasEmbedding = [] := by
    rw [List.filter_eq_nil_iff]
    intro e he
    simp [hnone e he]
  rw [key, hfil]

/-- C7 (witness): threshold `100000`, one entry without and one with an
embedding. -/
theorem classifyObjectCNN_skips_missing_embeddings_witness :
    classifyObjectCNN Real.sqrt [1, 2]
        [TrainingSample.mk "a" [] [] "", TrainingSample.mk "b" [] [1, 2] ""] 100000
      = classifyObjectCNN Real.sqrt [1, 2]
          (List.filter hasEmbedding
            [TrainingSample.mk "a" [] [] "", TrainingSample.mk "b" [] [1, 2] ""]) 100000 :=
  (classifyObjectCNN_skips_missing_embeddings Real.sqrt [1, 2]
    [TrainingSample.mk "a" [] [] "", TrainingSample.mk "b" [] [1, 2] ""] 100000 (by simp)
    (Or.inr ⟨TrainingSample.mk "b" [] [1, 2] "", by simp, by simp [hasEmbedding]⟩)).1

end Proofs

/-! ## `analyzeRegions` -/

theorem reassignIds_length : ∀ (l : List Region) (i : Int), (reassignIds l i).length = l.length
  | [], _ => rfl
  | _ :: rest, i => by simp [reassignIds, reassignIds_length rest (i + 1)]

theorem reassignIds_area_of_mem : ∀ (l : List Region) (i : Int) (a : Region),
    a ∈ reassignIds l i → ∃ b ∈ l, a.area = b.area
  | [], _, a, h => by simp [reassignIds] at h
  | r :: rest, i, a, h => by
    simp only [reassignIds, List.mem_cons] at h
    rcases h with rfl | h
    · exact ⟨r, by simp, rfl⟩
    · obtain ⟨b, hb, hab⟩ := reassignIds_area_of_mem rest (i + 1) a h
      exact ⟨b, by simp [hb], hab⟩

/-- The shape of the result of `analyzeRegions`: the first `count` regions of the
sorted survivors, renumbered. -/
theorem analyzeRegions_eq (S : AreaSort) (stats : List ComponentStats) (cols rows : Int)
    (minArea maxRegions : Int) (ignoreBoundaryRegions : Bool) :
    analyzeRegions S stats cols rows minArea maxRegions ignoreBoundaryRegions
      = reassignIds
          (if min maxRegions
              ((S.sort ((allRegions stats).filter
                (keepRegion cols rows minArea ignoreBoundaryRegions))).length : Int) > 0
           then (S.sort ((allRegions stats).filter
                  (keepRegion cols rows minArea ignoreBoundaryRegions))).take
                (min maxRegions
                  ((S.sort ((allRegions stats).filter
                    (keepRegion cols rows minArea ignoreBoundaryRegions))).length : Int)).toNat
           else []) 0 := rfl

/-- The insertion sort on five qualifying components and `maxRegions = 2`: the
two largest regions come back, with ids `1` and `2`. -/
theorem analyzeRegions_two_largest :
    (analyzeRegions insertionAreaSort
        [⟨9000, 0, 0, 100, 100, ⟨50, 50⟩, ⟨0, 0, 0⟩⟩,
         ⟨50, 10, 10, 5, 10, ⟨12, 15⟩, ⟨1, 1, 1⟩⟩,
         ⟨80, 20, 10, 8, 10, ⟨24, 15⟩, ⟨2, 2, 2⟩⟩,
         ⟨60, 30, 10, 6, 10, ⟨33, 15⟩, ⟨3, 3, 3⟩⟩,
         ⟨90, 40, 10, 9, 10, ⟨44, 15⟩, ⟨4, 4, 4⟩⟩,
         ⟨70, 50, 10, 7, 10, ⟨53, 15⟩, ⟨5, 5, 5⟩⟩]
        100 100 10 2 true).map (fun r => (r.id, r.area))
      = [(1, 90), (2, 80)] := by
  decide

/-! ## Claims on `analyzeRegions` -/

/-- C10: for every list of labelled components and every `minArea`, `maxRegions`
and `ignoreBoundary`, `analyzeRegions` returns exactly
`max 0 (min maxRegions s)` regions, where `s` is the number of components
that pass the area and boundary filters (so none when `maxRegions <= 0` or
when nothing survives): the survivors split into the returned regions (up
to their ids) and the rest, and the area of every returned region is
greater than or equal to the area of every survivor that is not returned. -/
theorem analyzeRegions_count_and_largest (S : AreaSort) (stats : List ComponentStats)
    (cols rows minArea maxRegions : Int) (ignoreBoundaryRegions : Bool) :
    ((analyzeRegions S stats cols rows minArea maxRegions ignoreBoundaryRegions).length : Int)
      = max 0 (min maxRegions
          (((allRegions stats).filter
            (keepRegion cols rows minArea ignoreBoundaryRegions)).length : Int)) ∧
    (maxRegions ≤ 0 →
      analyzeRegions S stats cols rows minArea maxRegions ignoreBoundaryRegions = []) ∧
    ((allRegions stats).filter (keepRegion cols rows minArea ignoreBoundaryRegions) = [] →
      analyzeRegions S stats cols rows minArea maxRegions ignoreBoundaryRegions = []) ∧
    ∃ kept dropped : List Region,
      (kept ++ dropped).Perm
        ((allRegions stats).filter (keepRegion cols rows minArea ignoreBoundaryRegions)) ∧
      analyzeRegions S stats cols rows minArea maxRegions ignoreBoundaryRegions
        = reassignIds kept 0 ∧
      ∀ a ∈ analyzeRegions S stats cols rows minArea maxRegions ignoreBoundaryRegions,
        ∀ b ∈ dropped, a.area ≥ b.area := by
  have hperm := S.perm ((allRegions stats).filter
    (keepRegion cols rows minArea ignoreBoundaryRegions))
  have hord := S.ordered ((allRegions stats).filter
    (keepRegion cols rows minArea ignoreBoundaryRegions))
  have hlen := hperm.length_eq
  rw [analyzeRegions_eq]
  generalize S.sort ((allRegions stats).filter
    (keepRegion cols rows minArea ignoreBoundaryRegions)) = sorted at hperm hord hlen ⊢
  generalize (allRegions stats).filter
    (keepRegion cols rows minArea ignoreBoundaryRegions) = survivors at hperm hlen ⊢
  by_cases hc : min maxRegions (sorted.length : Int) > 0
  · rw [if_pos hc]
    have hmax : 0 < maxRegions := lt_of_lt_of_le hc (min_le_left _ _)
    have hpos : 0 < sorted.length := by
      have := lt_of_lt_of_le hc (min_le_right _ _)
      omega
    refine ⟨?_, fun h => absurd hmax (not_lt.mpr h), fun h => ?_, ?_⟩
    · rw [reassignIds_length, List.length_take, ← hlen]
      omega
    · rw [h] at hlen
      simp only [List.length_nil] at hlen
      omega
    · refine ⟨sorted.take (min maxRegions (sorted.length : Int)).toNat,
        sorted.drop (min maxRegions (sorted.length : Int)).toNat, ?_, rfl, ?_⟩
      · rw [List.take_append_drop]; exact hperm
      · intro a ha b hb
        obtain ⟨a', ha', haa⟩ := reassignIds_area_of_mem _ _ a ha
        rw [← List.take_append_drop (min maxRegions (sorted.length : Int)).toNat sorted,
          List.pairwise_append] at hord
        have h := hord.2.2 a' ha' b hb
        simp only [areaGreater, gt_iff_lt, not_lt] at h
        rw [haa]
        exact h
  · rw [if_neg hc]
    refine ⟨?_, fun _ => rfl, fun _ => rfl, [], sorted, by simpa using hperm, rfl, ?_⟩
    · simp only [reassignIds, List.length_nil, Nat.cast_zero]
      rw [← hlen]
      omega
    · intro a ha
      simp [reassignIds] at ha

/-! ## Order, filter and ids of `analyzeRegions` -/

theorem analyzeRegions_eq_reassign (S : AreaSort) (stats : List ComponentStats)
    (cols rows minArea maxRegions : Int) (ignoreBoundaryRegions : Bool) :
    analyzeRegions S stats cols rows minArea maxRegions ignoreBoundaryRegions
      = reassignIds
          (selectRegions S stats cols rows minArea maxRegions ignoreBoundaryRegions) 0 :=
  rfl

theorem reassignIds_map_area : ∀ (l : List Region) (i : Int),
    (reassignIds l i).map Region.area = l.map Region.area
  | [], _ => rfl
  | _ :: rest, i => by simp [reassignIds, reassignIds_map_area rest (i + 1)]

theorem reassignIds_map_box : ∀ (l : List Region) (i : Int),
    (reassignIds l i).map Region.boundingBox = l.map Region.boundingBox
  | [], _ => rfl
  | _ :: rest, i => by simp [reassignIds, reassignIds_map_box rest (i + 1)]

theorem reassignIds_map_id : ∀ (l : List Region) (i : Int),
    (reassignIds l i).map Region.id
      = (List.range l.length).map (fun (k : Nat) => i + (k : Int) + 1)
  | [], _ => rfl
  | r :: rest, i => by
    simp only [reassignIds, List.map_cons, List.length_cons, List.range_succ_eq_map,
      List.map_map, reassignIds_map_id rest (i + 1)]
    refine congrArg₂ List.cons (by simp) (List.map_congr_left (fun k _ => ?_))
    simp only [Function.comp_apply, Nat.cast_succ]
    ring

/-- Every selected region is one of the components and passes the filter. -/
theorem mem_selectRegions (S : AreaSort) (stats : List ComponentStats)
    (cols rows minArea maxRegions : Int) (ignoreBoundaryRegions : Bool) (r : Region)
    (h : r ∈ selectRegions S stats cols rows minArea maxRegions ignoreBoundaryRegions) :
    r ∈ allRegions stats ∧ keepRegion cols rows minArea ignoreBoundaryRegions r = true := by
  unfold selectRegions selectRegionsWith at h
  simp only at h
  split at h
  · have h1 := List.mem_of_mem_take h
    have h2 := (S.perm _).mem_iff.mp h1
    exact List.mem_filter.mp h2
  · cases h

/-- The selected regions are in order of non-increasing area. -/
theorem selectRegions_ordered (S : AreaSort) (stats : List ComponentStats)
    (cols rows minArea maxRegions : Int) (ignoreBoundaryRegions : Bool) :
    (selectRegions S stats cols rows minArea maxRegions ignoreBoundaryRegions).Pairwise
      (fun a b => a.area ≥ b.area) := by
  unfold selectRegions selectRegionsWith
  simp only
  split
  · refine List.Pairwise.sublist (List.take_sublist _ _) ?_
    refine List.Pairwise.imp ?_ (S.ordered _)
    intro a b h
    simpa [areaGreater] using h
  · exact List.Pairwise.nil

/-- A region of the result has the area and bounding box of a selected region. -/
theorem mem_analyzeRegions (S : AreaSort) (stats : List ComponentStats)
    (cols rows minArea maxRegions : Int) (ignoreBoundaryRegions : Bool) (r : Region)
    (h : r ∈ analyzeRegions S stats cols rows minArea maxRegions ignoreBoundaryRegions) :
    ∃ r0 ∈ selectRegions S stats cols rows minArea maxRegions ignoreBoundaryRegions,
      r.area = r0.area ∧ r.boundingBox = r0.boundingBox := by
  rw [analyzeRegions_eq_reassign] at h
  generalize selectRegions S stats cols rows minArea maxRegions ignoreBoundaryRegions = l at h
  generalize (0 : Int) = i at h
  induction l generalizing i with
  | nil => simp [reassignIds] at h
  | cons x rest ih =>
    simp only [reassignIds, List.mem_cons] at h
    rcases h with rfl | h
    · exact ⟨x, by simp, rfl, rfl⟩
    · obtain ⟨r0, hr0, hh⟩ := ih (i + 1) h
      exact ⟨r0, by simp [hr0], hh⟩

/-- The test of lines 62-69 with `ignoreBoundaryRegions` set, spelled out. -/
theorem keepRegion_boundary_iff (cols rows minArea : Int) (r : Region) :
    keepRegion cols rows minArea true r = true ↔
      r.area ≥ minArea ∧ r.boundingBox.x > 0 ∧ r.boundingBox.y > 0 ∧
        r.boundingBox.x + r.boundingBox.width < cols - 1 ∧
        r.boundingBox.y + r.boundingBox.height < rows - 1 := by
  unfold keepRegion
  by_cases h : r.area ≥ minArea
  · simp [h]
  · simp [h]

theorem keepRegion_area (cols rows minArea : Int) (b : Bool) (r : Region)
    (h : keepRegion cols rows minArea b r = true) : r.area ≥ minArea := by
  unfold keepRegion at h
  by_cases h1 : r.area ≥ minArea
  · exact h1
  · simp [h1] at h

/-- C11 (amended): for every input and every sort that meets the contract of
`std::sort`, the regions `analyzeRegions` returns are ordered by area
descending (each region's area is at least the area of every later one);
the order among regions of equal area is whatever the sort leaves. -/
theorem analyzeRegions_area_descending (S : AreaSort) (stats : List ComponentStats)
    (cols rows minArea maxRegions : Int) (ignoreBoundaryRegions : Bool) :
    (analyzeRegions S stats cols rows minArea maxRegions ignoreBoundaryRegions).Pairwise
      (fun a b => a.area ≥ b.area) := by
  have h := selectRegions_ordered S stats cols rows minArea maxRegions ignoreBoundaryRegions
  have h1 : ((selectRegions S stats cols rows minArea maxRegions
      ignoreBoundaryRegions).map Region.area).Pairwise (fun x y => x ≥ y) :=
    List.pairwise_map.mpr h
  rw [← reassignIds_map_area _ 0, ← analyzeRegions_eq_reassign] at h1
  exact List.pairwise_map.mp h1

/-- C12 (the code at the failing input): in a 100 x 100 mask with
`ignoreBoundaryRegions` set, a component of area 500 whose bounding box
covers columns 10..98 and rows 10..14 has no pixel on row 0, column 0,
row 99 or column 99 and meets `x > 0`, `y > 0`, `x + width - 1 < cols - 1`,
`y + height - 1 < rows - 1`, yet the test of lines 64-67 rejects it. -/
theorem keepRegion_rejects_one_short_of_border :
    keepRegion 100 100 10 true ⟨1, 500, ⟨54, 12⟩, ⟨10, 10, 89, 5⟩, ⟨0, 0, 0⟩⟩ = false ∧
    ((500 : Int) ≥ 10 ∧ (10 : Int) > 0 ∧ (10 : Int) > 0 ∧
      (10 : Int) + 89 - 1 < 100 - 1 ∧ (10 : Int) + 5 - 1 < 100 - 1) ∧
    ¬ touchesBorder 100 100 ⟨10, 10, 89, 5⟩ := by
  refine ⟨by decide, by decide, ?_⟩
  rintro ⟨c, r, h1, h2, h3, h4, h5⟩
  simp only at h1 h2 h3 h4
  omega

/-- C13: with `ignoreBoundaryRegions = true`, for every mask size and component
list, no region `analyzeRegions` returns has a bounding box that contains a
pixel of row 0, column 0, the last row or the last column of the mask. -/
theorem analyzeRegions_inside_border (S : AreaSort) (stats : List ComponentStats)
    (cols rows minArea maxRegions : Int) (r : Region)
    (h : r ∈ analyzeRegions S stats cols rows minArea maxRegions true) :
    ¬ touchesBorder cols rows r.boundingBox := by
  obtain ⟨r0, hr0, -, hbox⟩ := mem_analyzeRegions S stats cols rows minArea maxRegions true r h
  have hkeep := (mem_selectRegions S stats cols rows minArea maxRegions true r0 hr0).2
  rw [keepRegion_boundary_iff] at hkeep
  obtain ⟨-, hx, hy, hw, hh⟩ := hkeep
  rw [hbox]
  rintro ⟨c, row, h1, h2, h3, h4, h5⟩
  omega

/-- C13 (witness): the largest of five components in a 100 x 100 mask. -/
theorem analyzeRegions_inside_border_witness :
    ¬ touchesBorder 100 100 ⟨40, 10, 9, 10⟩ :=
  analyzeRegions_inside_border insertionAreaSort
    [⟨9000, 0, 0, 100, 100, ⟨50, 50⟩, ⟨0, 0, 0⟩⟩,
     ⟨50, 10, 10, 5, 10, ⟨12, 15⟩, ⟨1, 1, 1⟩⟩,
     ⟨80, 20, 10, 8, 10, ⟨24, 15⟩, ⟨2, 2, 2⟩⟩,
     ⟨60, 30, 10, 6, 10, ⟨33, 15⟩, ⟨3, 3, 3⟩⟩,
     ⟨90, 40, 10, 9, 10, ⟨44, 15⟩, ⟨4, 4, 4⟩⟩,
     ⟨70, 50, 10, 7, 10, ⟨53, 15⟩, ⟨5, 5, 5⟩⟩]
    100 100 10 2 ⟨1, 90, ⟨44, 15⟩, ⟨40, 10, 9, 10⟩, ⟨4, 4, 4⟩⟩ (by decide)

/-- Without the boundary test the filter keeps exactly the regions of area at
least `minArea`. -/
theorem keepRegion_false_eq (cols rows minArea : Int) :
    keepRegion cols rows minArea false = fun r => decide (r.area ≥ minArea) := by
  funext r
  unfold keepRegion
  by_cases h : r.area ≥ minArea <;> simp [h]

/-- When `maxRegions` is at least the number of survivors, every survivor is
selected. -/
theorem selectRegions_all (S : AreaSort) (stats : List ComponentStats)
    (cols rows minArea maxRegions : Int) (ignoreBoundaryRegions : Bool)
    (hmax : maxRegions ≥ ((allRegions stats).length : Int)) :
    (selectRegions S stats cols rows minArea maxRegions ignoreBoundaryRegions).Perm
      ((allRegions stats).filter (keepRegion cols rows minArea ignoreBoundaryRegions)) := by
  have hperm := S.perm ((allRegions stats).filter
    (keepRegion cols rows minArea ignoreBoundaryRegions))
  have hlen := hperm.length_eq
  have hle := List.length_filter_le (keepRegion cols rows minArea ignoreBoundaryRegions)
    (allRegions stats)
  unfold selectRegions selectRegionsWith
  simp only
  generalize S.sort ((allRegions stats).filter
    (keepRegion cols rows minArea ignoreBoundaryRegions)) = sorted at hperm hlen ⊢
  have hcount : min maxRegions (sorted.length : Int) = (sorted.length : Int) := by
    apply min_eq_right
    omega
  rw [hcount]
  split
  · simpa using hperm
  · rename_i hpos
    have h0 : sorted.length = 0 := by omega
    have hnil : sorted = [] := List.length_eq_zero.mp h0
    rw [hnil] at hperm
    exact hperm

/-- C14: every region `analyzeRegions` returns has area `>= minArea`; with
`ignoreBoundaryRegions = false` and `maxRegions` at least the number of
components, the returned regions are exactly the components whose area is
`>= minArea` (in the sorted order, with new ids); and with `minArea <= 0`
the area filter removes no component (component areas are pixel counts,
so non-negative). -/
theorem analyzeRegions_area_filter (S : AreaSort) (stats : List ComponentStats)
    (cols rows minArea maxRegions : Int) (ignoreBoundaryRegions : Bool) :
    (∀ r ∈ analyzeRegions S stats cols rows minArea maxRegions ignoreBoundaryRegions,
      r.area ≥ minArea) ∧
    (maxRegions ≥ ((allRegions stats).length : Int) →
      ∃ kept : List Region,
        kept.Perm ((allRegions stats).filter (fun r => decide (r.area ≥ minArea))) ∧
        analyzeRegions S stats cols rows minArea maxRegions false = reassignIds kept 0) ∧
    (minArea ≤ 0 → (∀ r ∈ allRegions stats, 0 ≤ r.area) →
      (allRegions stats).filter (fun r => decide (r.area ≥ minArea)) = allRegions stats) := by
  refine ⟨fun r hr => ?_, fun hmax => ?_, fun hmin hnn => ?_⟩
  · obtain ⟨r0, hr0, harea, -⟩ := mem_analyzeRegions S stats cols rows minArea maxRegions
      ignoreBoundaryRegions r hr
    have hkeep := (mem_selectRegions S stats cols rows minArea maxRegions
      ignoreBoundaryRegions r0 hr0).2
    rw [harea]
    exact keepRegion_area cols rows minArea ignoreBoundaryRegions r0 hkeep
  · refine ⟨selectRegions S stats cols rows minArea maxRegions false, ?_,
      analyzeRegions_eq_reassign S stats cols rows minArea maxRegions false⟩
    have h := selectRegions_all S stats cols rows minArea maxRegions false hmax
    rw [keepRegion_false_eq] at h
    exact h
  · rw [List.filter_eq_self]
    intro r hr
    have := hnn r hr
    simp only [ge_iff_le, decide_eq_true_eq]
    omega

/-- C14 (witness): three components of areas 50, 80 and 60 with `minArea = 60`,
`maxRegions = 5` and the boundary test off: the regions of areas 80 and 60
are returned. -/
theorem analyzeRegions_area_filter_witness :
    (∀ r ∈ analyzeRegions insertionAreaSort
        [⟨9000, 0, 0, 100, 100, ⟨50, 50⟩, ⟨0, 0, 0⟩⟩,
         ⟨50, 0, 10, 5, 10, ⟨2, 15⟩, ⟨1, 1, 1⟩⟩,
         ⟨80, 20, 10, 8, 10, ⟨24, 15⟩, ⟨2, 2, 2⟩⟩,
         ⟨60, 30, 10, 6, 10, ⟨33, 15⟩, ⟨3, 3, 3⟩⟩]
        100 100 60 5 false, r.area ≥ 60) ∧
    ∃ kept : List Region,
      kept.Perm ((allRegions
        [⟨9000, 0, 0, 100, 100, ⟨50, 50⟩, ⟨0, 0, 0⟩⟩,
         ⟨50, 0, 10, 5, 10, ⟨2, 15⟩, ⟨1, 1, 1⟩⟩,
         ⟨80, 20, 10, 8, 10, ⟨24, 15⟩, ⟨2, 2, 2⟩⟩,
         ⟨60, 30, 10, 6, 10, ⟨33, 15⟩, ⟨3, 3, 3⟩⟩]).filter
        (fun r => decide (r.area ≥ 60))) ∧
      analyzeRegions insertionAreaSort
        [⟨9000, 0, 0, 100, 100, ⟨50, 50⟩, ⟨0, 0, 0⟩⟩,
         ⟨50, 0, 10, 5, 10, ⟨2, 15⟩, ⟨1, 1, 1⟩⟩,
         ⟨80, 20, 10, 8, 10, ⟨24, 15⟩, ⟨2, 2, 2⟩⟩,
         ⟨60, 30, 10, 6, 10, ⟨33, 15⟩, ⟨3, 3, 3⟩⟩]
        100 100 60 5 false = reassignIds kept 0 :=
  ⟨(analyzeRegions_area_filter insertionAreaSort _ 100 100 60 5 false).1,
   (analyzeRegions_area_filter insertionAreaSort _ 100 100 60 5 false).2.1 (by decide)⟩

/-- C15: for every input, the `k`-th region (counting from 1) of the sequence
`analyzeRegions` returns has `id = k`: the ids of the `N` returned regions
are `1, ..., N` in the returned order, whatever the component labels
were. -/
theorem analyzeRegions_ids_dense (S : AreaSort) (stats : List ComponentStats)
    (cols rows minArea maxRegions : Int) (ignoreBoundaryRegions : Bool) :
    (analyzeRegions S stats cols rows minArea maxRegions ignoreBoundaryRegions).map Region.id
      = (List.range (analyzeRegions S stats cols rows minArea maxRegions
          ignoreBoundaryRegions).length).map (fun (k : Nat) => (k : Int) + 1) ∧
    ∀ (k : Nat) (r : Region),
      (analyzeRegions S stats cols rows minArea maxRegions ignoreBoundaryRegions)[k]? = some r →
      r.id = (k : Int) + 1 := by
  have hmap : (analyzeRegions S stats cols rows minArea maxRegions
      ignoreBoundaryRegions).map Region.id
      = (List.range (analyzeRegions S stats cols rows minArea maxRegions
          ignoreBoundaryRegions).length).map (fun (k : Nat) => (k : Int) + 1) := by
    rw [analyzeRegions_eq_reassign, reassignIds_map_id, reassignIds_length]
    simp
  refine ⟨hmap, fun k r hk => ?_⟩
  have h1 : ((analyzeRegions S stats cols rows minArea maxRegions
      ignoreBoundaryRegions).map Region.id)[k]? = some r.id := by
    rw [List.getElem?_map, hk]
    rfl
  rw [hmap, List.getElem?_map] at h1
  have hklt : k < (analyzeRegions S stats cols rows minArea maxRegions
      ignoreBoundaryRegions).length := by
    by_contra hge
    rw [List.getElem?_eq_none (by simpa using hge)] at hk
    cases hk
  rw [List.getElem?_range hklt] at h1
  simpa using h1.symm

/-- C15 (witness): the first of the two regions returned for five components
has id 1; its component label was 4. -/
theorem analyzeRegions_ids_dense_witness :
    (⟨1, 90, ⟨44, 15⟩, ⟨40, 10, 9, 10⟩, ⟨4, 4, 4⟩⟩ : Region).id = ((0 : Nat) : Int) + 1 :=
  (analyzeRegions_ids_dense insertionAreaSort
    [⟨9000, 0, 0, 100, 100, ⟨50, 50⟩, ⟨0, 0, 0⟩⟩,
     ⟨50, 10, 10, 5, 10, ⟨12, 15⟩, ⟨1, 1, 1⟩⟩,
     ⟨80, 20, 10, 8, 10, ⟨24, 15⟩, ⟨2, 2, 2⟩⟩,
     ⟨60, 30, 10, 6, 10, ⟨33, 15⟩, ⟨3, 3, 3⟩⟩,
     ⟨90, 40, 10, 9, 10, ⟨44, 15⟩, ⟨4, 4, 4⟩⟩,
     ⟨70, 50, 10, 7, 10, ⟨53, 15⟩, ⟨5, 5, 5⟩⟩]
    100 100 10 2 true).2 0 _ (by decide)

/-! ## `computeRegionFeatures` -/

section FeatureProofs

variable {α : Type} [LinearOrderedField α]

/-- The record returned for a mask without contour (the early return of line
40): only `regionId`, `area`, the centroid (when `m00` is not 0) and
`huMoments` have been assigned. -/
theorem computeRegionFeatures_no_contour (sqrt : α → α) (u : Uninitialized α)
    (mask : MaskAnalysis α) (regionId : Int) (hc : mask.contours = []) :
    computeRegionFeatures sqrt u mask regionId
      = { regionId := regionId, area := (mask.countNonZero : α),
          percentFilled := u.percentFilled, aspectRatio := u.aspectRatio,
          elongation := u.elongation, huMoments := mask.huMoments,
          centroidX := if mask.moments.m00 ≠ 0 then mask.moments.m10 / mask.moments.m00
            else u.centroidX,
          centroidY := if mask.moments.m00 ≠ 0 then mask.moments.m01 / mask.moments.m00
            else u.centroidY,
          orientedBoundingBox := RotatedRect.default } := by
  unfold computeRegionFeatures
  simp only [hc]
  by_cases h : mask.moments.m00 = 0 <;> simp [h]

/-- The fields assigned after line 43 for a mask with a contour. -/
theorem computeRegionFeatures_contour (sqrt : α → α) (u : Uninitialized α)
    (mask : MaskAnalysis α) (regionId : Int) (contour : List Point)
    (rest : List (List Point)) (hc : mask.contours = contour :: rest) :
    (computeRegionFeatures sqrt u mask regionId).orientedBoundingBox
        = mask.minAreaRect contour ∧
    (computeRegionFeatures sqrt u mask regionId).aspectRatio
        = (if min (mask.minAreaRect contour).size.width (mask.minAreaRect contour).size.height > 0
           then max (mask.minAreaRect contour).size.width (mask.minAreaRect contour).size.height
             / min (mask.minAreaRect contour).size.width (mask.minAreaRect contour).size.height
           else 0) ∧
    (computeRegionFeatures sqrt u mask regionId).percentFilled
        = (if max (mask.minAreaRect contour).size.width (mask.minAreaRect contour).size.height
              * min (mask.minAreaRect contour).size.width (mask.minAreaRect contour).size.height > 0
           then (mask.countNonZero : α)
             / (max (mask.minAreaRect contour).size.width (mask.minAreaRect contour).size.height
              * min (mask.minAreaRect contour).size.width (mask.minAreaRect contour).size.height)
           else 0) ∧
    (computeRegionFeatures sqrt u mask regionId).elongation
        = specElongation sqrt (mask.moments.mu20 / mask.moments.m00)
            (mask.moments.mu02 / mask.moments.m00) (mask.moments.mu11 / mask.moments.m00) := by
  have h : ∀ a b c : α, 4 * c * c + (a - b) * (a - b) = 4 * c ^ 2 + (a - b) ^ 2 := by
    intro a b c; ring
  unfold computeRegionFeatures
  simp only [hc, specElongation, specLambda1, specLambda2, h]
  by_cases hm : mask.moments.m00 = 0
  · simp only [hm, ne_eq, not_true_eq_false, if_false, and_self]
  · simp only [hm, ne_eq, not_false_eq_true, if_true, and_self]

/-- The record returned for the all-zero mask: no pixel, all moments 0, no
contour. -/
theorem computeRegionFeatures_zero_mask (sqrt : α → α) (u : Uninitialized α)
    (hu : List α) (rect : List Point → RotatedRect α) (regionId : Int) :
    computeRegionFeatures sqrt u
        { countNonZero := 0, moments := ⟨0, 0, 0, 0, 0, 0⟩, huMoments := hu,
          contours := [], minAreaRect := rect } regionId
      = { regionId := regionId, area := 0, percentFilled := u.percentFilled,
          aspectRatio := u.aspectRatio, elongation := u.elongation, huMoments := hu,
          centroidX := u.centroidX, centroidY := u.centroidY,
          orientedBoundingBox := RotatedRect.default } := by
  rw [computeRegionFeatures_no_contour sqrt u _ regionId rfl]
  simp

/-! ## Claims on `computeRegionFeatures` and `createTrainingSample` -/

/-- C16 (counterexample): for the mask of a horizontal run of 6 pixels, whose
contour is the segment from (0, 0) to (5, 0) and whose oriented bounding box
has width 5 and height 0, `computeRegionFeatures` returns `aspectRatio = 0`,
which is not `>= 1`. -/
theorem computeRegionFeatures_aspectRatio_zero :
    (computeRegionFeatures Real.sqrt ⟨0, 0, 0, 0, 0, 0, 0⟩
        { countNonZero := 6, moments := ⟨6, 15, 0, 35 / 2, 0, 0⟩,
          huMoments := [35 / 72, 1225 / 5184, 0, 0, 0, 0, 0],
          contours := [[⟨0, 0⟩, ⟨5, 0⟩]],
          minAreaRect := fun _ => ⟨⟨5 / 2, 0⟩, ⟨5, 0⟩, 0⟩ } 1).aspectRatio = 0 ∧
    ¬ (computeRegionFeatures Real.sqrt ⟨0, 0, 0, 0, 0, 0, 0⟩
        { countNonZero := 6, moments := ⟨6, 15, 0, 35 / 2, 0, 0⟩,
          huMoments := [35 / 72, 1225 / 5184, 0, 0, 0, 0, 0],
          contours := [[⟨0, 0⟩, ⟨5, 0⟩]],
          minAreaRect := fun _ => ⟨⟨5 / 2, 0⟩, ⟨5, 0⟩, 0⟩ } 1).aspectRatio ≥ 1 := by
  have h := (computeRegionFeatures_contour Real.sqrt ⟨0, 0, 0, 0, 0, 0, 0⟩
    { countNonZero := 6, moments := ⟨6, 15, 0, 35 / 2, 0, 0⟩,
      huMoments := [35 / 72, 1225 / 5184, 0, 0, 0, 0, 0],
      contours := [[⟨0, 0⟩, ⟨5, 0⟩]],
      minAreaRect := fun _ => ⟨⟨5 / 2, 0⟩, ⟨5, 0⟩, 0⟩ } 1 [⟨0, 0⟩, ⟨5, 0⟩] [] rfl).2.1
  have h0 : (computeRegionFeatures Real.sqrt ⟨0, 0, 0, 0, 0, 0, 0⟩
      { countNonZero := 6, moments := ⟨6, 15, 0, 35 / 2, 0, 0⟩,
        huMoments := [35 / 72, 1225 / 5184, 0, 0, 0, 0, 0],
        contours := [[⟨0, 0⟩, ⟨5, 0⟩]],
        minAreaRect := fun _ => ⟨⟨5 / 2, 0⟩, ⟨5, 0⟩, 0⟩ } 1).aspectRatio = 0 := by
    rw [h]
    norm_num
  rw [h0]
  norm_num

/-- C16 (amended): for every region mask that has a contour, the record
`computeRegionFeatures` returns satisfies `percentFilled >= 0`, and
`aspectRatio >= 1` when the smaller side of the oriented bounding box is
positive; when the smaller side is 0 (or less), `aspectRatio = 0`. -/
theorem computeRegionFeatures_aspect_fill (sqrt : α → α) (u : Uninitialized α)
    (mask : MaskAnalysis α) (regionId : Int) (hc : mask.contours ≠ []) :
    (0 < min (computeRegionFeatures sqrt u mask regionId).orientedBoundingBox.size.width
          (computeRegionFeatures sqrt u mask regionId).orientedBoundingBox.size.height →
      (computeRegionFeatures sqrt u mask regionId).aspectRatio ≥ 1) ∧
    (min (computeRegionFeatures sqrt u mask regionId).orientedBoundingBox.size.width
          (computeRegionFeatures sqrt u mask regionId).orientedBoundingBox.size.height ≤ 0 →
      (computeRegionFeatures sqrt u mask regionId).aspectRatio = 0) ∧
    (computeRegionFeatures sqrt u mask regionId).percentFilled ≥ 0 := by
  obtain ⟨contour, rest, hcons⟩ := List.exists_cons_of_ne_nil hc
  obtain ⟨hobb, har, hpf, -⟩ := computeRegionFeatures_contour sqrt u mask regionId
    contour rest hcons
  rw [hobb, har, hpf]
  refine ⟨fun hpos => ?_, fun hle => ?_, ?_⟩
  · rw [if_pos hpos, ge_iff_le, one_le_div hpos]
    exact min_le_max
  · rw [if_neg (not_lt.mpr hle)]
  · split
    · rename_i hpos
      exact div_nonneg (Nat.cast_nonneg _) (le_of_lt hpos)
    · exact le_refl _

/-- C16 (witness): a 3 x 4 block of pixels; the oriented bounding box of its
contour is 2 by 3. -/
theorem computeRegionFeatures_aspect_fill_witness :
    (computeRegionFeatures Real.sqrt ⟨0, 0, 0, 0, 0, 0, 0⟩
        { countNonZero := 12, moments := ⟨12, 18, 12, 15, 0, 8⟩,
          huMoments := [23 / 144, 0, 0, 0, 0, 0, 0],
          contours := [[⟨0, 0⟩, ⟨0, 2⟩, ⟨3, 2⟩, ⟨3, 0⟩]],
          minAreaRect := fun _ => ⟨⟨3 / 2, 1⟩, ⟨2, 3⟩, 90⟩ } 1).percentFilled ≥ 0 :=
  (computeRegionFeatures_aspect_fill Real.sqrt ⟨0, 0, 0, 0, 0, 0, 0⟩
    { countNonZero := 12, moments := ⟨12, 18, 12, 15, 0, 8⟩,
      huMoments := [23 / 144, 0, 0, 0, 0, 0, 0],
      contours := [[⟨0, 0⟩, ⟨0, 2⟩, ⟨3, 2⟩, ⟨3, 0⟩]],
      minAreaRect := fun _ => ⟨⟨3 / 2, 1⟩, ⟨2, 3⟩, 90⟩ } 1 (by simp)).2.2

/-- C17 (the code at the failing input): for the all-zero mask (no non-zero
pixel, all moments 0, no contour) and a record whose uninitialised members
hold 3, 5, 7, 11 and 13, `computeRegionFeatures` returns `area = 0` but
leaves `percentFilled`, `aspectRatio`, `elongation` and the centroid at
those values: they are never assigned, so they are not zero. -/
theorem computeRegionFeatures_empty_mask_unassigned :
    computeRegionFeatures Real.sqrt
        { regionId := 42, area := 2, percentFilled := 3, aspectRatio := 5,
          elongation := 7, centroidX := 11, centroidY := 13 }
        { countNonZero := 0, moments := ⟨0, 0, 0, 0, 0, 0⟩,
          huMoments := [0, 0, 0, 0, 0, 0, 0], contours := [],
          minAreaRect := fun _ => RotatedRect.default } 1
      = { regionId := 1, area := 0, percentFilled := 3, aspectRatio := 5,
          elongation := 7, huMoments := [0, 0, 0, 0, 0, 0, 0],
          centroidX := 11, centroidY := 13,
          orientedBoundingBox := RotatedRect.default } := by
  rw [computeRegionFeatures_zero_mask]

/-- C20: for every label and every feature record with at least one Hu moment,
`createTrainingSample` returns a sample whose label is the given label,
whose classic feature vector has exactly the 4 elements `percentFilled`,
`aspectRatio`, `elongation` and `huMoments[0]` in this order, and whose
embedding is empty. -/
theorem createTrainingSample_fields {β : Type} (timestamp label : String)
    (features : RegionFeatures β) (hu : β) (rest : List β)
    (h : features.huMoments = hu :: rest) :
    ∃ sample, createTrainingSample timestamp label features = some sample ∧
      sample.label = label ∧
      sample.features
        = [features.percentFilled, features.aspectRatio, features.elongation, hu] ∧
      sample.features.length = 4 ∧
      sample.cnnEmbedding = [] := by
  refine ⟨{ label := label, timestamp := timestamp,
            features := [features.percentFilled, features.aspectRatio,
              features.elongation, hu],
            cnnEmbedding := [] }, ?_, rfl, rfl, rfl, rfl⟩
  simp [createTrainingSample, h]

/-- C20 (witness): a record with seven Hu moments and the label `mug`. -/
theorem createTrainingSample_fields_witness :
    ∃ sample : TrainingSample ℝ,
      createTrainingSample "2024-01-01 10:00:00" "mug"
        (RegionFeatures.mk 1 12 2 (3 / 2) (1 / 4) [23 / 144, 0, 0, 0, 0, 0, 0] (3 / 2) 1
          ⟨⟨3 / 2, 1⟩, ⟨2, 3⟩, 90⟩) = some sample ∧
      sample.label = "mug" ∧
      sample.features = [2, 3 / 2, 1 / 4, 23 / 144] ∧
      sample.features.length = 4 ∧
      sample.cnnEmbedding = [] :=
  createTrainingSample_fields "2024-01-01 10:00:00" "mug"
    (RegionFeatures.mk 1 12 2 (3 / 2) (1 / 4) [23 / 144, 0, 0, 0, 0, 0, 0] (3 / 2) 1
      ⟨⟨3 / 2, 1⟩, ⟨2, 3⟩, 90⟩) (23 / 144) [0, 0, 0, 0, 0, 0] rfl

end FeatureProofs

/-! ## `escapeJsonString` -/

theorem escapeChar_data (c : Char) : (escapeChar c).data = specEscapeImage c := by
  unfold escapeChar specEscapeImage specEscapeTable
  split_ifs with h1 h2 h3 h4 h5 h6 h7
  · subst h1; rfl
  · subst h2; rfl
  · subst h3; rfl
  · subst h4; rfl
  · subst h5; rfl
  · subst h6; rfl
  · subst h7; rfl
  · have e1 : (c == Char.ofNat 34) = false := beq_eq_false_iff_ne.mpr h1
    have e2 : (c == Char.ofNat 92) = false := beq_eq_false_iff_ne.mpr h2
    have e3 : (c == Char.ofNat 8) = false := beq_eq_false_iff_ne.mpr h3
    have e4 : (c == Char.ofNat 12) = false := beq_eq_false_iff_ne.mpr h4
    have e5 : (c == Char.ofNat 10) = false := beq_eq_false_iff_ne.mpr h5
    have e6 : (c == Char.ofNat 13) = false := beq_eq_false_iff_ne.mpr h6
    have e7 : (c == Char.ofNat 9) = false := beq_eq_false_iff_ne.mpr h7
    simp only [List.lookup, e1, e2, e3, e4, e5, e6, e7]
    rfl

theorem escape_foldl_data : ∀ (l : List Char) (acc : String),
    (l.foldl (fun output c => output ++ escapeChar c) acc).data
      = acc.data ++ (l.map specEscapeImage).flatten
  | [], acc => by simp
  | c :: rest, acc => by
    rw [List.foldl_cons, escape_foldl_data rest, String.data_append, escapeChar_data]
    simp

theorem escapeJsonString_data (s : String) :
    (escapeJsonString s).data = (s.data.map specEscapeImage).flatten := by
  unfold escapeJsonString
  rw [escape_foldl_data]
  simp

theorem unescapeChars_image (c : Char) (x : List Char) :
    unescapeChars ((escapeChar c).data ++ x) = c :: unescapeChars x := by
  unfold escapeChar
  split_ifs with h1 h2 h3 h4 h5 h6 h7
  · subst h1; simp [unescapeChars]; decide
  · subst h2; simp [unescapeChars]; decide
  · subst h3; simp [unescapeChars]; decide
  · subst h4; simp [unescapeChars]; decide
  · subst h5; simp [unescapeChars]; decide
  · subst h6; simp [unescapeChars]; decide
  · subst h7; simp [unescapeChars]; decide
  · cases x with
    | nil => simp [unescapeChars, String.singleton]
    | cons k rest => simp [unescapeChars, String.singleton, h2]

theorem unescapeChars_flatten : ∀ l : List Char,
    unescapeChars ((l.map specEscapeImage).flatten) = l
  | [] => by simp [unescapeChars]
  | c :: rest => by
    rw [List.map_cons, List.flatten_cons, ← escapeChar_data, unescapeChars_image,
      unescapeChars_flatten rest]

/-- A string without any of the seven escaped characters is left as it is. -/
theorem escapeJsonString_of_plain (s : String)
    (h : ∀ c ∈ s.data, specEscapeTable.lookup c = none) : escapeJsonString s = s := by
  apply String.ext
  rw [escapeJsonString_data]
  have hmap : ∀ l : List Char, (∀ c ∈ l, specEscapeTable.lookup c = none) →
      (l.map specEscapeImage).flatten = l := by
    intro l
    induction l with
    | nil => intro _; rfl
    | cons c rest ih =>
      intro hl
      have hc : specEscapeImage c = [c] := by
        unfold specEscapeImage
        rw [hl c (by simp)]
      rw [List.map_cons, List.flatten_cons, hc, ih (fun d hd => hl d (by simp [hd]))]
      rfl
  exact hmap s.data h

/-- C21: for every input string, `escapeJsonString` returns the concatenation, in
order, of the images of its characters, where double quote, backslash,
backspace, form feed, newline, carriage return and tab map to a backslash
followed by the double quote, the backslash, `b`, `f`, `n`, `r`, `t`
respectively, and every other character maps to itself. -/
theorem escapeJsonString_concat_images (input : String) :
    escapeJsonString input = String.mk ((input.data.map specEscapeImage).flatten) ∧
    specEscapeImage (Char.ofNat 34) = [Char.ofNat 92, Char.ofNat 34] ∧
    specEscapeImage (Char.ofNat 92) = [Char.ofNat 92, Char.ofNat 92] ∧
    specEscapeImage (Char.ofNat 8) = [Char.ofNat 92, 'b'] ∧
    specEscapeImage (Char.ofNat 12) = [Char.ofNat 92, 'f'] ∧
    specEscapeImage (Char.ofNat 10) = [Char.ofNat 92, 'n'] ∧
    specEscapeImage (Char.ofNat 13) = [Char.ofNat 92, 'r'] ∧
    specEscapeImage (Char.ofNat 9) = [Char.ofNat 92, 't'] ∧
    ∀ c : Char, c ∉ [Char.ofNat 34, Char.ofNat 92, Char.ofNat 8, Char.ofNat 12,
        Char.ofNat 10, Char.ofNat 13, Char.ofNat 9] → specEscapeImage c = [c] := by
  refine ⟨String.ext (escapeJsonString_data input), rfl, rfl, rfl, rfl, rfl, rfl, rfl, ?_⟩
  intro c hc
  simp only [List.mem_cons, List.mem_singleton, List.not_mem_nil, or_false, not_or] at hc
  obtain ⟨h1, h2, h3, h4, h5, h6, h7⟩ := hc
  rw [← escapeChar_data]
  unfold escapeChar
  rw [if_neg h1, if_neg h2, if_neg h3, if_neg h4, if_neg h5, if_neg h6, if_neg h7]
  rfl

/-- C25: `escapeJsonString` is injective: two strings with the same escaped text
are equal, so a saved label determines the original label. -/
theorem escapeJsonString_injective : Function.Injective escapeJsonString := by
  intro a b h
  have h1 := congrArg String.data h
  rw [escapeJsonString_data, escapeJsonString_data] at h1
  have h2 := congrArg unescapeChars h1
  rw [unescapeChars_flatten, unescapeChars_flatten] at h2
  exact String.ext h2

/-! ## `saveTrainingData` -/

theorem writeValuesFrom_eq {α : Type} (fmt : α → String) :
    ∀ (l : List α) (j size : Nat), size = j + l.length →
      writeValuesFrom fmt size l j = joinWith ", " (l.map fmt)
  | [], _, _, _ => rfl
  | [v], j, size, h => by
    have hlt : ¬ j < size - 1 := by
      simp only [List.length_cons, List.length_nil] at h
      omega
    simp [writeValuesFrom, joinWith, hlt]
  | v :: w :: rest, j, size, h => by
    have hlt : j < size - 1 := by
      simp only [List.length_cons] at h
      omega
    have hrec := writeValuesFrom_eq fmt (w :: rest) (j + 1) size (by
      simp only [List.length_cons] at h ⊢
      omega)
    rw [writeValuesFrom, if_pos hlt, hrec]
    simp [joinWith, String.append_assoc]

/-- The object the specification's document holds for a sample. -/
theorem documentOf_samples {α : Type} (fmt : α → String) (created : String)
    (samples : List (TrainingSample α)) :
    (documentOf fmt created samples).samples
      = samples.map (fun s =>
          { label := escapeJsonString s.label, timestamp := escapeJsonString s.timestamp,
            features := s.features.map fmt, cnn_embedding := s.cnnEmbedding.map fmt }) :=
  rfl

theorem writeSample_eq {α : Type} (fmt : α → String) (size : Nat)
    (sample : TrainingSample α) (i : Nat) :
    writeSample fmt size sample i
      = renderSampleObject
          { label := escapeJsonString sample.label,
            timestamp := escapeJsonString sample.timestamp,
            features := sample.features.map fmt,
            cnn_embedding := sample.cnnEmbedding.map fmt }
        ++ (if i < size - 1 then ",\n" else "\n") := by
  have e1 : ("    \x7d,\n" : String) = "    \x7d" ++ ",\n" := by decide
  have e2 : ("    \x7d\n" : String) = "    \x7d" ++ "\n" := by decide
  unfold writeSample renderSampleObject
  rw [writeValuesFrom_eq fmt sample.features 0 _ (by simp),
    writeValuesFrom_eq fmt sample.cnnEmbedding 0 _ (by simp)]
  by_cases h : i < size - 1
  · simp only [if_pos h, e1, String.append_assoc]
  · simp only [if_neg h, e2, String.append_assoc]

theorem writeSamplesFrom_eq {α : Type} (fmt : α → String) :
    ∀ (l : List (TrainingSample α)) (i size : Nat), size = i + l.length →
      writeSamplesFrom fmt size l i
        = (match l.map (fun s =>
              ({ label := escapeJsonString s.label,
                 timestamp := escapeJsonString s.timestamp,
                 features := s.features.map fmt,
                 cnn_embedding := s.cnnEmbedding.map fmt } : SampleObject)) with
           | [] => ""
           | o :: rest => joinWith ",\n" ((o :: rest).map renderSampleObject) ++ "\n")
  | [], _, _, _ => rfl
  | [s], i, size, h => by
    have hlt : ¬ i < size - 1 := by
      simp only [List.length_cons, List.length_nil] at h
      omega
    simp [writeSamplesFrom, writeSample_eq, joinWith, hlt]
  | s :: t :: rest, i, size, h => by
    have hlt : i < size - 1 := by
      simp only [List.length_cons] at h
      omega
    have hrec := writeSamplesFrom_eq fmt (t :: rest) (i + 1) size (by
      simp only [List.length_cons] at h ⊢
      omega)
    rw [writeSamplesFrom, hrec, writeSample_eq, if_pos hlt]
    simp [joinWith, String.append_assoc]

/-- The text `saveTrainingData` writes is the rendering of the document that
holds the gallery. -/
theorem saveTrainingData_eq_render {α : Type} (fmt : α → String) (created : String)
    (samples : List (TrainingSample α)) :
    saveTrainingData fmt created true samples
      = some (renderDocument (documentOf fmt created samples)) := by
  unfold saveTrainingData renderDocument
  rw [writeSamplesFrom_eq fmt samples 0 samples.length (by simp), documentOf_samples]
  simp [writeHeader, documentOf, joinWith, String.append_assoc]

/-- C22: for every gallery of `N` samples that `saveTrainingData` writes
successfully, the text written is the document whose `total_samples` field
is `N` and whose `samples` list holds exactly `N` objects in gallery order,
each carrying that sample's escaped label, its timestamp (escaped the same
way, so unchanged when it has none of the seven escaped characters), its
formatted feature values and its formatted embedding values; for `N = 0`
`total_samples` is 0 and the `samples` list is empty. -/
theorem saveTrainingData_document {α : Type} (fmt : α → String) (created : String)
    (isOpen : Bool) (samples : List (TrainingSample α)) (text : String)
    (h : saveTrainingData fmt created isOpen samples = some text) :
    text = renderDocument (documentOf fmt created samples) ∧
    (documentOf fmt created samples).total_samples = samples.length ∧
    (documentOf fmt created samples).samples.length = samples.length ∧
    (documentOf fmt created samples).samples
      = samples.map (fun s =>
          { label := escapeJsonString s.label, timestamp := escapeJsonString s.timestamp,
            features := s.features.map fmt, cnn_embedding := s.cnnEmbedding.map fmt }) ∧
    (∀ s ∈ samples, (∀ c ∈ s.timestamp.data, specEscapeTable.lookup c = none) →
      escapeJsonString s.timestamp = s.timestamp) ∧
    (samples = [] →
      (documentOf fmt created samples).total_samples = 0 ∧
      (documentOf fmt created samples).samples = []) := by
  have hopen : isOpen = true := by
    cases isOpen
    · simp [saveTrainingData] at h
    · rfl
  subst hopen
  rw [saveTrainingData_eq_render] at h
  refine ⟨(Option.some.inj h).symm, rfl, ?_, rfl,
    fun s _ hs => escapeJsonString_of_plain s.timestamp hs, ?_⟩
  · simp [documentOf]
  · intro hnil
    subst hnil
    exact ⟨rfl, rfl⟩

/-- C22 (witness): a gallery of one sample whose label holds a double quote,
with whole numbers written with six zero decimals. -/
theorem saveTrainingData_document_witness :
    (documentOf (fun n : Nat => toString n ++ ".000000") "2024-01-01 10:00:00"
        [TrainingSample.mk (String.mk ['a', Char.ofNat 34, 'b']) [1, 2, 3, 4] []
          "2024-01-01 09:59:00"]).total_samples = 1 ∧
    (documentOf (fun n : Nat => toString n ++ ".000000") "2024-01-01 10:00:00"
        [TrainingSample.mk (String.mk ['a', Char.ofNat 34, 'b']) [1, 2, 3, 4] []
          "2024-01-01 09:59:00"]).samples.length = 1 :=
  ⟨(saveTrainingData_document (fun n : Nat => toString n ++ ".000000")
      "2024-01-01 10:00:00" true
      [TrainingSample.mk (String.mk ['a', Char.ofNat 34, 'b']) [1, 2, 3, 4] []
        "2024-01-01 09:59:00"] _ rfl).2.1,
   (saveTrainingData_document (fun n : Nat => toString n ++ ".000000")
      "2024-01-01 10:00:00" true
      [TrainingSample.mk (String.mk ['a', Char.ofNat 34, 'b']) [1, 2, 3, 4] []
        "2024-01-01 09:59:00"] _ rfl).2.2.1⟩

/-! ## Index bounds of `classifyObject` -/

/-- C24: for every non-empty query of length at most 4 and every non-empty
gallery whose entries each hold at least as many classic features as the
query has elements, `classifyObject` runs to a result without reading out
of bounds: every index `i` its loops use (`i < features.size()`) is within
the query, within each entry's feature vector, within the
standard-deviation vector and within the 4-element weight vector. -/
theorem classifyObject_reads_in_bounds {α : Type} [LinearOrderedField α] (sqrt : α → α)
    (features : List α) (gallery : List (TrainingSample α)) (t : α)
    (_hf : features ≠ []) (hq : features.length ≤ 4) (hg : gallery ≠ [])
    (hlen : ∀ e ∈ gallery, features.length ≤ e.features.length) :
    ∃ stdDevs r,
      computeStdDevs sqrt features gallery = some stdDevs ∧
      classifyObject sqrt features gallery t = some r ∧
      ∀ i, i < features.length →
        (features[i]?).isSome ∧ (∀ e ∈ gallery, (e.features[i]?).isSome) ∧
        (stdDevs[i]?).isSome ∧ ((weights : List α)[i]?).isSome := by
  obtain ⟨r, hr⟩ := classifyObject_returns sqrt features gallery t hg hq hlen
  refine ⟨_, r, computeStdDevs_spec sqrt features gallery hg hlen, hr, fun i hi => ?_⟩
  refine ⟨?_, fun e he => ?_, ?_, ?_⟩
  · rw [getElem?_eq_some_getD features i 0 hi]; rfl
  · rw [getElem?_eq_some_getD e.features i 0 (lt_of_lt_of_le hi (hlen e he))]; rfl
  · rw [getElem?_eq_some_getD _ i 0 (by simpa using hi)]; rfl
  · rw [getElem?_eq_some_getD (weights : List α) i 0
      (by simp only [weights, List.length_cons, List.length_nil]; omega)]; rfl

/-- C24 (witness): a 3-element query against two 4-feature entries. -/
theorem classifyObject_reads_in_bounds_witness :
    ∃ (stdDevs : List ℝ) (r : ClassificationResult ℝ),
      computeStdDevs Real.sqrt [1, 2, 3]
        [TrainingSample.mk "a" [1, 2, 3, 4] [] "", TrainingSample.mk "b" [2, 2, 5, 4] [] ""]
        = some stdDevs ∧
      classifyObject Real.sqrt [1, 2, 3]
        [TrainingSample.mk "a" [1, 2, 3, 4] [] "", TrainingSample.mk "b" [2, 2, 5, 4] [] ""] 2
        = some r :=
  (classifyObject_reads_in_bounds Real.sqrt [1, 2, 3]
    [TrainingSample.mk "a" [1, 2, 3, 4] [] "", TrainingSample.mk "b" [2, 2, 5, 4] [] ""] 2
    (by simp) (by simp) (by simp) (by simp)).imp
    (fun _ h => h.imp (fun _ h2 => ⟨h2.1, h2.2.1⟩))

/-! ## IEEE arithmetic: order, signs and exact cases -/

namespace Fl

variable {p emax : ℕ}

theorem lt_iff (a b : Fl p emax) : a < b ↔ Fl.lt a b := Iff.rfl

theorem zero_def : (0 : Fl p emax) = fin 0 := rfl

theorem not_nan_lt (x : Fl p emax) : ¬ (nan : Fl p emax) < x := by
  intro h
  cases x <;> exact h

theorem ne_nan_of_lt {x y : Fl p emax} (h : x < y) : x ≠ nan := by
  intro hx
  rw [hx] at h
  exact not_nan_lt y h

theorem ofScaled_nonneg (m : ℕ) (qe : ℤ) : NonNeg (ofScaled p emax m qe) := by
  unfold ofScaled
  split
  · rfl
  · simp only [NonNeg]
    rw [Rat.mkRat_eq_div]
    exact div_nonneg (by exact_mod_cast Nat.zero_le _) (by exact_mod_cast Nat.zero_le _)

theorem round_nonneg {q : ℚ} (h : 0 ≤ q) : NonNeg (round p emax q) := by
  unfold round
  split
  · simp [NonNeg]
  · split
    · exact absurd h (not_le.mpr ‹q < 0›)
    · exact ofScaled_nonneg _ _

/-- A square root is a NaN or it is not negative. -/
theorem sqrt_nan_or_nonneg (x : Fl p emax) : sqrt x = nan ∨ NonNeg (sqrt x) := by
  cases x with
  | nan => exact Or.inl rfl
  | inf s => cases s <;> simp [sqrt, NonNeg]
  | fin q =>
    simp only [sqrt]
    split
    · exact Or.inl rfl
    · split
      · right; simp [NonNeg]
      · right; exact ofScaled_nonneg _ _

theorem not_lt_zero_of_nonneg {x : Fl p emax} (h : NonNeg x) : ¬ x < 0 := by
  cases x with
  | nan => exact fun h' => h'
  | inf s =>
    simp only [NonNeg] at h
    simp [lt_iff, zero_def, Fl.lt, h]
  | fin q =>
    simp only [NonNeg] at h
    simpa [lt_iff, zero_def, Fl.lt] using h

/-- A datum that is not negative, that `0` does not compare below and that
compares below something is `0`. -/
theorem eq_zero_of_nonneg {x y : Fl p emax} (h : NonNeg x) (h0 : ¬ (0 : Fl p emax) < x)
    (hy : x < y) : x = 0 := by
  cases x with
  | nan => exact absurd h id
  | inf s =>
    simp only [NonNeg] at h
    subst h
    cases y <;> simp [lt_iff, Fl.lt] at hy
  | fin q =>
    simp only [NonNeg] at h
    simp only [lt_iff, zero_def, Fl.lt, not_lt] at h0
    rw [zero_def, le_antisymm h0 h]

theorem round_zero : round p emax 0 = fin 0 := by simp [round]

theorem sub_self_of_finite {x : Fl p emax} (h : IsFinite x) : x - x = 0 := by
  cases x with
  | nan => exact absurd h id
  | inf s => exact absurd h id
  | fin q =>
    show add (fin q) (neg (fin q)) = fin 0
    simp [add, neg, round_zero]

theorem zero_div_one : (0 : Fl p emax) / 1 = 0 := by
  show div (fin 0) (fin 1) = fin 0
  simp [div, round_zero]

theorem fin_mul_zero (q : ℚ) : (fin q : Fl p emax) * 0 = 0 := by
  show mul (fin q) (fin 0) = fin 0
  simp [mul, round_zero]

theorem zero_add_zero : (0 : Fl p emax) + 0 = 0 := by
  show add (fin 0) (fin 0) = fin 0
  simp [add, round_zero]

theorem sqrt_zero : sqrt (0 : Fl p emax) = 0 := by
  show sqrt (fin 0) = fin 0
  simp [sqrt]

/-- A sum of zeros, accumulated from the left, is zero. -/
theorem foldl_add_zeros : ∀ l : List (Fl p emax), (∀ x ∈ l, x = 0) →
    l.foldl (fun a x => a + x) 0 = 0
  | [], _ => rfl
  | x :: rest, h => by
    have hx : x = 0 := h x (List.mem_cons_self x rest)
    rw [List.foldl_cons, hx, zero_add_zero]
    exact foldl_add_zeros rest (fun y hy => h y (List.mem_cons_of_mem x hy))

/-- A product with a positive threshold is not negative. -/
theorem mul_nonneg_of_pos {t : Fl p emax} {c : ℚ} (ht : (0 : Fl p emax) < t) (hc : 0 < c) :
    NonNeg (t * fin c) := by
  cases t with
  | nan => exact absurd ht id
  | inf s =>
    have hs : s = false := by simpa [lt_iff, zero_def, Fl.lt] using ht
    subst hs
    show NonNeg (mul (inf false) (fin c))
    simp [mul, hc.ne', NonNeg, not_lt.mpr hc.le]
  | fin q =>
    have hq : 0 < q := by simpa [lt_iff, zero_def, Fl.lt] using ht
    show NonNeg (mul (fin q) (fin c))
    simp only [mul]
    exact round_nonneg (mul_pos hq hc).le

end Fl

theorem bitLength_zero : ∀ fuel : ℕ, bitLength fuel 0 = 0
  | 0 => rfl
  | _ + 1 => by simp [bitLength]

/-- The binary logarithm is a lower bound: `2 ^ natLog2 n ≤ n`. -/
theorem two_pow_bitLength_le : ∀ (fuel n : ℕ), n ≠ 0 → 2 ^ (bitLength fuel n - 1) ≤ n
  | 0, n, hn => by
    simp only [bitLength, Nat.zero_sub, pow_zero]
    omega
  | fuel + 1, n, hn => by
    simp only [bitLength, hn, if_false, Nat.add_sub_cancel]
    by_cases h2 : n / 2 = 0
    · rw [h2, bitLength_zero, pow_zero]; omega
    · have ih := two_pow_bitLength_le fuel (n / 2) h2
      by_cases hb : bitLength fuel (n / 2) = 0
      · rw [hb, pow_zero]; omega
      · have hsucc : bitLength fuel (n / 2) = (bitLength fuel (n / 2) - 1) + 1 := by omega
        rw [hsucc, pow_succ]
        omega

theorem two_pow_natLog2_le (n : ℕ) (hn : n ≠ 0) : 2 ^ natLog2 n ≤ n :=
  two_pow_bitLength_le n n hn

theorem natLog2_one : natLog2 1 = 0 := by decide

namespace Fl

variable {p emax : ℕ}

theorem le_roundHalfEven (num den : ℕ) : num / den ≤ roundHalfEven num den := by
  unfold roundHalfEven
  simp only
  split
  · omega
  · split <;> omega

theorem ofScaled_ne_zero (m : ℕ) (qe : ℤ) (hm : m ≠ 0) : ofScaled p emax m qe ≠ 0 := by
  unfold ofScaled
  split
  · exact fun h => by cases h
  · intro h
    rw [zero_def] at h
    injection h with h
    rw [Rat.mkRat_eq_div] at h
    have h1 : ((2 : ℕ) ^ (-qe).toNat : ℚ) ≠ 0 := by positivity
    have h2 : (((m * 2 ^ qe.toNat : ℕ) : ℤ) : ℚ) ≠ 0 := by
      have : m * 2 ^ qe.toNat ≠ 0 := Nat.mul_ne_zero hm (by positivity)
      exact_mod_cast this
    rcases div_eq_zero_iff.mp h with h | h
    · exact h2 (by exact_mod_cast h)
    · exact h1 (by exact_mod_cast h)

/-- The conversion of a positive integer is not zero (`p ≥ 1`, `emax ≥ 1`). -/
theorem natCast_ne_zero (hp : 1 ≤ p) (he : 1 ≤ emax) (n : ℕ) (hn : n ≠ 0) :
    ((n : ℕ) : Fl p emax) ≠ 0 := by
  show round p emax (n : ℚ) ≠ 0
  have hq : (n : ℚ) ≠ 0 := by exact_mod_cast hn
  have hq' : ¬ (n : ℚ) < 0 := not_lt.mpr (by exact_mod_cast Nat.zero_le n)
  simp only [round, hq, hq', if_false, Rat.num_natCast, Int.natAbs_ofNat, Rat.den_natCast]
  unfold roundPos
  simp only
  apply ofScaled_ne_zero
  have hlog := two_pow_natLog2_le n hn
  have hil : ilog2 n 1 = (natLog2 n : ℤ) := by
    unfold ilog2
    simp only [natLog2_one, Nat.cast_zero, sub_zero, Int.natCast_nonneg, if_true, Int.toNat_ofNat,
      one_mul, hlog]
  rw [hil]
  have hqe : quantum p emax (natLog2 n : ℤ) = (natLog2 n : ℤ) - ((p : ℤ) - 1) := by
    unfold quantum
    rw [max_eq_left]
    omega
  rw [hqe]
  split
  · rename_i h0
    have hle : ((natLog2 n : ℤ) - ((p : ℤ) - 1)).toNat ≤ natLog2 n := by omega
    have hpow : 2 ^ ((natLog2 n : ℤ) - ((p : ℤ) - 1)).toNat ≤ n :=
      le_trans (Nat.pow_le_pow_right (by norm_num) hle) hlog
    have hdiv : 1 ≤ n / (1 * 2 ^ ((natLog2 n : ℤ) - ((p : ℤ) - 1)).toNat) := by
      rw [one_mul]
      exact (Nat.one_le_div_iff (by positivity)).mpr hpow
    have := le_roundHalfEven n (1 * 2 ^ ((natLog2 n : ℤ) - ((p : ℤ) - 1)).toNat)
    omega
  · have hpos : 1 ≤ n * 2 ^ (-((natLog2 n : ℤ) - ((p : ℤ) - 1))).toNat :=
      Nat.one_le_iff_ne_zero.mpr (Nat.mul_ne_zero hn (by positivity))
    have := le_roundHalfEven (n * 2 ^ (-((natLog2 n : ℤ) - ((p : ℤ) - 1))).toNat) 1
    rw [Nat.div_one] at this
    omega

end Fl

/-! ## The classifier in any arithmetic

The lemmas of this section use no law of arithmetic: they hold for exact
numbers and for `Binary64` and `Binary32` alike. -/

/-- An accumulation loop whose reads are all in bounds adds the terms from the
left. -/
theorem accumulate_eq_foldl {α β : Type} [Add α] (term : β → Option α) (g : β → α) :
    ∀ (xs : List β) (acc : α), (∀ x ∈ xs, term x = some (g x)) →
      accumulate term xs acc = some ((xs.map g).foldl (fun a x => a + x) acc)
  | [], acc, _ => by simp [accumulate]
  | x :: rest, acc, h => by
    have hx : term x = some (g x) := h x (List.mem_cons_self x rest)
    have hrest : ∀ y ∈ rest, term y = some (g y) :=
      fun y hy => h y (List.mem_cons_of_mem x hy)
    simp only [accumulate, hx, List.map_cons, List.foldl_cons]
    exact accumulate_eq_foldl term g rest (acc + g x) hrest

/-- The comparison loop with a strict order: either no sample compares below
the initial bound and the state is unchanged, or the state holds the
first sample of least distance, which compares below the bound. -/
theorem nearestLoop_least {α : Type} [LT α] [DecidableRel ((· < ·) : α → α → Prop)]
    [IsStrictOrder α (fun a b => a < b)]
    (dist : TrainingSample α → Option α) (d : TrainingSample α → α) :
    ∀ (data : List (TrainingSample α)) (m0 : α) (l0 : String),
      (∀ s ∈ data, dist s = some (d s)) →
      ∃ m l, nearestLoop dist data (m0, l0) = some (m, l) ∧
        ((m = m0 ∧ l = l0 ∧ ∀ s ∈ data, ¬ d s < m0) ∨
         IsFirstLeast d m0 data l m)
  | [], m0, l0, _ => ⟨m0, l0, by simp [nearestLoop]⟩
  | s :: rest, m0, l0, h => by
    have hs : dist s = some (d s) := h s (List.mem_cons_self s rest)
    have hrest : ∀ y ∈ rest, dist y = some (d y) :=
      fun y hy => h y (List.mem_cons_of_mem s hy)
    have hirr : ∀ a : α, ¬ a < a := fun a => irrefl_of (fun a b : α => a < b) a
    have htr : ∀ {a b c : α}, a < b → b < c → a < c :=
      fun {a b c} h1 h2 => IsTrans.trans (r := fun a b : α => a < b) a b c h1 h2
    by_cases hlt : d s < m0
    · obtain ⟨m, l, hrun, hcase⟩ := nearestLoop_least dist d rest (d s) s.label hrest
      refine ⟨m, l, by simp [nearestLoop, hs, hlt, hrun], Or.inr ?_⟩
      rcases hcase with ⟨hm, hl, hall⟩ | ⟨pre, e, post, hsplit, hl, hm, hlt2, hpre, hpost⟩
      · exact ⟨[], s, rest, rfl, hl, hm, hlt, by simp, hall⟩
      · refine ⟨s :: pre, e, post, by simp [hsplit], hl, hm, htr hlt2 hlt, ?_, hpost⟩
        intro x hx
        rcases List.mem_cons.mp hx with rfl | hx
        · exact ⟨fun h' => hirr _ (htr h' hlt2), fun h' => hirr _ (h' ▸ hlt2)⟩
        · exact hpre x hx
    · obtain ⟨m, l, hrun, hcase⟩ := nearestLoop_least dist d rest m0 l0 hrest
      refine ⟨m, l, by simp [nearestLoop, hs, hlt, hrun], ?_⟩
      rcases hcase with ⟨hm, hl, hall⟩ | ⟨pre, e, post, hsplit, hl, hm, hlt2, hpre, hpost⟩
      · refine Or.inl ⟨hm, hl, ?_⟩
        intro x hx
        rcases List.mem_cons.mp hx with rfl | hx
        · exact hlt
        · exact hall x hx
      · refine Or.inr ⟨s :: pre, e, post, by simp [hsplit], hl, hm, hlt2, ?_, hpost⟩
        intro x hx
        rcases List.mem_cons.mp hx with rfl | hx
        · exact ⟨fun h' => hlt (htr h' hlt2), fun h' => hlt (h' ▸ hlt2)⟩
        · exact hpre x hx

/-- What the final state `(m, l)` of the comparison loop says about `m`: neither
the bound nor a distance compares below it, it is the bound or a distance,
and it is a distance below the bound as soon as there is one. -/
theorem least_of_loop_state {α : Type} [LT α] [IsStrictOrder α (fun a b => a < b)]
    (d : TrainingSample α → α) (bound m : α) (l l0 : String)
    (gallery : List (TrainingSample α))
    (h : (m = bound ∧ l = l0 ∧ ∀ s ∈ gallery, ¬ d s < bound) ∨
      IsFirstLeast d bound gallery l m) :
    ¬ bound < m ∧ (∀ e ∈ gallery, ¬ d e < m) ∧ (m = bound ∨ ∃ e ∈ gallery, m = d e) ∧
      ((∃ e ∈ gallery, d e < bound) → m < bound ∧ ∃ e ∈ gallery, m = d e) := by
  have hirr : ∀ a : α, ¬ a < a := fun a => irrefl_of (fun a b : α => a < b) a
  have htr : ∀ {a b c : α}, a < b → b < c → a < c :=
    fun {a b c} h1 h2 => IsTrans.trans (r := fun a b : α => a < b) a b c h1 h2
  rcases h with ⟨hm, -, hall⟩ | ⟨pre, e, post, hsplit, -, hm, hlt, hpre, hpost⟩
  · subst hm
    refine ⟨hirr _, hall, Or.inl rfl, ?_⟩
    rintro ⟨e, he, hlt⟩
    exact absurd hlt (hall e he)
  · subst hm
    have hmem : e ∈ gallery := by rw [hsplit]; simp
    refine ⟨fun h => hirr _ (htr h hlt), ?_, Or.inr ⟨e, hmem, rfl⟩,
      fun _ => ⟨hlt, e, hmem, rfl⟩⟩
    intro x hx
    rw [hsplit, List.mem_append, List.mem_cons] at hx
    rcases hx with hx | rfl | hx
    · exact (hpre x hx).1
    · exact hirr _
    · exact hpost x hx

section Stepwise

variable {α : Type} [Zero α] [One α] [NatCast α] [Add α] [Sub α] [Mul α] [Div α]
  [Pow α ℕ] [LT α] [DecidableRel ((· < ·) : α → α → Prop)]

set_option linter.unusedSectionVars false

theorem stdDevAt_computed (sqrt : α → α) (gallery : List (TrainingSample α)) (i : Nat)
    (hlen : ∀ e ∈ gallery, i < e.features.length) (hN : gallery.length ≠ 1) :
    stdDevAt sqrt gallery i = some (computedSigma sqrt gallery i) := by
  have h1 : accumulate (fun sample : TrainingSample α => sample.features[i]?) gallery 0
      = some ((gallery.map (fun e => e.features.getD i 0)).foldl (fun a x => a + x) 0) :=
    accumulate_eq_foldl _ _ gallery 0
      (fun e he => getElem?_eq_some_getD e.features i 0 (hlen e he))
  have h2 : ∀ mean : α,
      accumulate (fun sample : TrainingSample α =>
        (sample.features[i]?).map (fun v => (v - mean) ^ 2)) gallery 0
      = some ((gallery.map (fun e => (e.features.getD i 0 - mean) ^ 2)).foldl
          (fun a x => a + x) 0) := by
    intro mean
    refine accumulate_eq_foldl _ _ gallery 0 (fun e he => ?_)
    simp only [getElem?_eq_some_getD e.features i 0 (hlen e he), Option.map_some']
  simp only [stdDevAt, h1, h2, computedSigma, computedStdDev, computedMean, sumLeft, hN,
    if_false]

theorem computeStdDevs_computed (sqrt : α → α) (features : List α)
    (gallery : List (TrainingSample α)) (hg : gallery ≠ [])
    (hlen : ∀ e ∈ gallery, features.length ≤ e.features.length) :
    computeStdDevs sqrt features gallery
      = some ((List.range features.length).map (computedSigma sqrt gallery)) := by
  unfold computeStdDevs
  by_cases hN : gallery.length > 1
  · rw [if_pos hN]
    refine forEachIndex_of_forall _ _ _ (fun i hi => ?_)
    have hi4 : i < features.length := List.mem_range.mp hi
    exact stdDevAt_computed sqrt gallery i (fun e he => lt_of_lt_of_le hi4 (hlen e he))
      (by omega)
  · rw [if_neg hN]
    have hpos : 0 < gallery.length := List.length_pos.mpr hg
    have h1 : gallery.length = 1 := by omega
    congr 1
    apply List.ext_getElem
    · simp
    · intro n hn1 hn2
      simp [computedSigma, h1]

theorem sampleDistance_computed (sqrt : α → α) (features : List α)
    (gallery : List (TrainingSample α)) (e : TrainingSample α)
    (hq : features.length = 4) (he : e.features.length = 4) :
    sampleDistance sqrt features ((List.range features.length).map (computedSigma sqrt gallery))
        e
      = some (computedDistance sqrt features gallery e) := by
  obtain ⟨a, b, c, d, rfl⟩ := list_length_four features hq
  obtain ⟨a', b', c', d', hef⟩ := list_length_four e.features he
  simp only [sampleDistance, computedDistance, sumLeft, hef, List.length_cons,
    List.length_nil]
  simp only [List.range_succ, List.range_zero, List.nil_append, List.cons_append,
    List.map_cons, List.map_nil, accumulate, weightedTerm, weights,
    List.getElem?_cons_zero, List.getElem?_cons_succ, Option.map_some',
    specWeight, List.getD_cons_zero, List.getD_cons_succ, Nat.reduceAdd, Nat.reduceEqDiff,
    if_false, if_true, OfNat.ofNat_ne_zero, OfNat.zero_ne_ofNat, Nat.succ_ne_zero,
    List.foldl_cons, List.foldl_nil]

/-- On 4-feature data `classifyObject` returns the final state of the comparison
loop run on the distances computed operation by operation, started at
`(DBL_MAX, "Unknown")`. -/
theorem classifyObject_run_computed [IsStrictOrder α (fun a b => a < b)] (sqrt : α → α)
    (features : List α) (gallery : List (TrainingSample α)) (t : α) (hg : gallery ≠ [])
    (hlen : ∀ e ∈ gallery, e.features.length = 4) (hq : features.length = 4) :
    ∃ m l, classifyObject sqrt features gallery t
        = some { label := l, distance := m, isUnknown := decide (m > t * (3 / 2)) } ∧
      ((m = DBL_MAX ∧ l = "Unknown" ∧
          ∀ s ∈ gallery, ¬ computedDistance sqrt features gallery s < DBL_MAX) ∨
       IsFirstLeast (computedDistance sqrt features gallery) DBL_MAX gallery l m) := by
  have hsd := computeStdDevs_computed sqrt features gallery hg
    (fun e he => by rw [hlen e he, hq])
  obtain ⟨m, l, hrun, hcase⟩ := nearestLoop_least
    (sampleDistance sqrt features
      ((List.range features.length).map (computedSigma sqrt gallery)))
    (computedDistance sqrt features gallery) gallery DBL_MAX "Unknown"
    (fun e he => sampleDistance_computed sqrt features gallery e hq (hlen e he))
  refine ⟨m, l, ?_, hcase⟩
  have hne : features ≠ [] := by
    intro h; rw [h] at hq; simp at hq
  simp [classifyObject, hg, hne, hsd, hrun]

/-- Whatever result `classifyObject` returns on a non-empty gallery and query,
its `isUnknown` is the comparison of line 79. -/
theorem classifyObject_isUnknown_line79 (sqrt : α → α) (features : List α)
    (gallery : List (TrainingSample α)) (t : α) (hg : gallery ≠ []) (hf : features ≠ [])
    (r : ClassificationResult α) (hr : classifyObject sqrt features gallery t = some r) :
    r.isUnknown = decide (r.distance > t * (3 / 2)) := by
  cases hsd : computeStdDevs sqrt features gallery with
  | none => simp [classifyObject, hg, hf, hsd] at hr
  | some stdDevs =>
    cases hrun : nearestLoop (sampleDistance sqrt features stdDevs) gallery
        (DBL_MAX, "Unknown") with
    | none => simp [classifyObject, hg, hf, hsd, hrun] at hr
    | some best =>
      have hcond : ¬ ((gallery.isEmpty || features.isEmpty) = true) := by
        simp [List.isEmpty_iff, hg, hf]
      simp only [classifyObject, if_neg hcond, hsd, hrun, Option.some.injEq] at hr
      rw [← hr]

theorem weightedTerm_some (features stdDevs sampleFeatures : List α) (i : Nat)
    (h1 : i < features.length) (h2 : i < sampleFeatures.length)
    (h3 : i < stdDevs.length) (h4 : i < 4) :
    ∃ v, weightedTerm features stdDevs sampleFeatures i = some v := by
  have h4' : i < (weights : List α).length := by simpa [weights] using h4
  exact ⟨(weights : List α).getD i 0
      * ((features.getD i 0 - sampleFeatures.getD i 0) / stdDevs.getD i 0)
      * ((features.getD i 0 - sampleFeatures.getD i 0) / stdDevs.getD i 0), by
    simp only [weightedTerm, getElem?_eq_some_getD features i 0 h1,
      getElem?_eq_some_getD sampleFeatures i 0 h2, getElem?_eq_some_getD stdDevs i 0 h3,
      getElem?_eq_some_getD (weights : List α) i 0 h4']⟩

/-- The comparison loop returns a state when every distance is computed. -/
theorem nearestLoop_some (dist : TrainingSample α → Option α) :
    ∀ (data : List (TrainingSample α)) (best : α × String),
      (∀ s ∈ data, ∃ v, dist s = some v) → ∃ b, nearestLoop dist data best = some b
  | [], best, _ => ⟨best, by simp [nearestLoop]⟩
  | s :: rest, (m, l), h => by
    obtain ⟨v, hv⟩ := h s (List.mem_cons_self s rest)
    have hrest : ∀ y ∈ rest, ∃ v, dist y = some v :=
      fun y hy => h y (List.mem_cons_of_mem s hy)
    simp only [nearestLoop, hv]
    split
    · exact nearestLoop_some dist rest _ hrest
    · exact nearestLoop_some dist rest _ hrest

/-- When every index the loops use is within bounds, `classifyObject` returns a
result, whatever the arithmetic. -/
theorem classifyObject_total (sqrt : α → α) (features : List α)
    (gallery : List (TrainingSample α)) (t : α) (hg : gallery ≠ [])
    (hq : features.length ≤ 4)
    (hlen : ∀ e ∈ gallery, features.length ≤ e.features.length) :
    ∃ r, classifyObject sqrt features gallery t = some r := by
  by_cases hf : features = []
  · exact ⟨{ label := "Unknown", distance := DBL_MAX, isUnknown := true },
      by simp [classifyObject, hf]⟩
  · have hsd := computeStdDevs_computed sqrt features gallery hg hlen
    have hdist : ∀ e ∈ gallery, ∃ v,
        sampleDistance sqrt features
          ((List.range features.length).map (computedSigma sqrt gallery)) e = some v := by
      intro e he
      have hterm : ∀ i ∈ List.range features.length,
          weightedTerm features ((List.range features.length).map (computedSigma sqrt gallery))
            e.features i
          = some ((weightedTerm features
              ((List.range features.length).map (computedSigma sqrt gallery))
              e.features i).getD 0) := by
        intro i hi
        have hi' : i < features.length := List.mem_range.mp hi
        obtain ⟨v, hv⟩ := weightedTerm_some features
          ((List.range features.length).map (computedSigma sqrt gallery)) e.features i hi'
          (lt_of_lt_of_le hi' (hlen e he)) (by simpa using hi') (lt_of_lt_of_le hi' hq)
        rw [hv]; rfl
      have hacc := accumulate_eq_foldl _ _ (List.range features.length) (0 : α) hterm
      exact ⟨_, by rw [sampleDistance, hacc, Option.map_some']⟩
    obtain ⟨⟨m, l⟩, hrun⟩ := nearestLoop_some
      (sampleDistance sqrt features
        ((List.range features.length).map (computedSigma sqrt gallery)))
      gallery (DBL_MAX, "Unknown") hdist
    exact ⟨{ label := l, distance := m, isUnknown := decide (m > t * (3 / 2)) },
      by simp [classifyObject, hg, hf, hsd, hrun]⟩

/-- The embedding loop is the classic loop run on the samples that have an
embedding. -/
theorem nearestLoopCNN_filter (sqrt : α → α) (q : List α) :
    ∀ (data : List (TrainingSample α)) (best : α × String),
      nearestLoopCNN sqrt q data best =
        nearestLoop (embeddingDistance sqrt q) (data.filter hasEmbedding) best
  | [], best => by simp [nearestLoopCNN, nearestLoop]
  | s :: rest, (m, l) => by
    by_cases he : s.cnnEmbedding.isEmpty = true
    · simp [nearestLoopCNN, hasEmbedding, he, nearestLoopCNN_filter sqrt q rest]
    · simp only [Bool.not_eq_true] at he
      simp only [nearestLoopCNN, hasEmbedding, he, List.filter_cons, Bool.not_false,
        if_true, nearestLoop, Bool.false_eq_true, if_false]
      cases embeddingDistance sqrt q s with
      | none => rfl
      | some dv =>
        simp only
        split <;> exact nearestLoopCNN_filter sqrt q rest _

theorem embeddingDistance_computed (sqrt : α → α) (q : List α) (e : TrainingSample α)
    (hlen : q.length ≤ e.cnnEmbedding.length) :
    embeddingDistance sqrt q e = some (computedL2 sqrt q e) := by
  have hacc := accumulate_eq_foldl (squaredTerm q e.cnnEmbedding)
    (fun i => (q.getD i 0 - e.cnnEmbedding.getD i 0) * (q.getD i 0 - e.cnnEmbedding.getD i 0))
    (List.range q.length) (0 : α)
    (fun i hi => by
      have hi' : i < q.length := List.mem_range.mp hi
      simp only [squaredTerm, getElem?_eq_some_getD q i 0 hi',
        getElem?_eq_some_getD e.cnnEmbedding i 0 (lt_of_lt_of_le hi' hlen)])
  rw [embeddingDistance, hacc, Option.map_some']
  rfl

/-- On a gallery whose stored embeddings are not shorter than the query,
`classifyObjectCNN` returns the final state of the comparison loop run on
the entries that have an embedding, started at `(FLT_MAX, "Unknown")`. -/
theorem classifyObjectCNN_run_computed [IsStrictOrder α (fun a b => a < b)] (sqrt : α → α)
    (q : List α) (gallery : List (TrainingSample α)) (t : α) (hq : q ≠ [])
    (hg : gallery ≠ [])
    (hlen : ∀ e ∈ gallery, hasEmbedding e = true → q.length ≤ e.cnnEmbedding.length) :
    ∃ m l, classifyObjectCNN sqrt q gallery t
        = some { label := l, distance := m, isUnknown := decide (m > t) } ∧
      ((m = FLT_MAX ∧ l = "Unknown" ∧
          ∀ s ∈ gallery.filter hasEmbedding, ¬ computedL2 sqrt q s < FLT_MAX) ∨
       IsFirstLeast (computedL2 sqrt q) FLT_MAX (gallery.filter hasEmbedding) l m) := by
  obtain ⟨m, l, hrun, hcase⟩ := nearestLoop_least (embeddingDistance sqrt q)
    (computedL2 sqrt q) (gallery.filter hasEmbedding) FLT_MAX "Unknown"
    (fun e he => embeddingDistance_computed sqrt q e
      (hlen e (List.mem_filter.mp he).1 (List.mem_filter.mp he).2))
  refine ⟨m, l, ?_, hcase⟩
  simp [classifyObjectCNN, hg, hq, nearestLoopCNN_filter, hrun]

end Stepwise

section BinaryClaims

/-! ## Claims on `classifyObject`, in binary64 arithmetic -/

set_option maxRecDepth 100000

set_option exponentiation.threshold 1100

/-- The value of `DBL_MAX` in binary64. -/
theorem DBL_MAX_binary64 : (DBL_MAX : Binary64) = Fl.fin (2 ^ 1024 - 2 ^ 971) := by
  decide!

/-- Some values of the arithmetic, as the hardware gives them: the doubles
`0.1` and `0.001`, `sqrt 2`, overflow to `+infinity`, absorption of a small
term, `infinity - infinity`, `0 / 0`, a subnormal tie that rounds to the
even neighbour, underflow to `0`, and the floats `0.1f` and `sqrtf 2`. -/
theorem known_values :
    (1 / 10 : Binary64) = Fl.fin (3602879701896397 / 2 ^ 55) ∧
    (1 / 1000 : Binary64) = Fl.fin (1152921504606847 / 2 ^ 60) ∧
    Fl.sqrt (2 : Binary64) = Fl.fin (6369051672525773 / 2 ^ 52) ∧
    (DBL_MAX : Binary64) + DBL_MAX = Fl.inf false ∧
    (DBL_MAX : Binary64) + 1 = DBL_MAX ∧
    (Fl.inf false : Binary64) - Fl.inf false = Fl.nan ∧
    (0 : Binary64) / 0 = Fl.nan ∧
    (Fl.fin (3 / 2 ^ 1074) : Binary64) / 2 = Fl.fin (2 / 2 ^ 1074) ∧
    (Fl.fin (1 / 2 ^ 1074) : Binary64) / 2 = 0 ∧
    (1 / 10 : Binary32) = Fl.fin (13421773 / 2 ^ 27) ∧
    Fl.sqrt (2 : Binary32) = Fl.fin (11863283 / 2 ^ 23) := by
  decide!

/-- The constant `1.5` of line 75 in binary64. -/
theorem three_halves_binary64 : (3 / 2 : Binary64) = Fl.fin (3 / 2) := by
  decide!

theorem two_binary64 : (2 : Binary64) = Fl.fin 2 := by
  decide!

theorem zero_lt_DBL_MAX : (0 : Binary64) < DBL_MAX := by
  decide!

theorem zero_lt_FLT_MAX : (0 : Binary32) < FLT_MAX := by
  decide!

/-- C1 (counterexample): for the query `[2^600, 0, 0, 0]` and the one-entry
gallery with features `[0, 0, 0, 0]`, all of them doubles, the product
`diff * diff` overflows to `+infinity`, the comparison
`distance < minDistance` fails and `classifyObject` reports the distance
`DBL_MAX = 2^1024 - 2^971` (and the label `Unknown`).  That is not the
minimum over the gallery of the distance of the specification: the only
entry is at distance `2^600`. -/
theorem classifyObject_distance_not_minimum :
    classifyObject Fl.sqrt [(Fl.fin (2 ^ 600) : Binary64), 0, 0, 0]
        [TrainingSample.mk "a" [0, 0, 0, 0] [] ""] 1
      = some { label := "Unknown", distance := DBL_MAX, isUnknown := true } ∧
    specDistance Real.sqrt ([(Fl.fin (2 ^ 600) : Binary64), 0, 0, 0].map Fl.toReal)
        [(TrainingSample.mk "a" [(0 : Binary64), 0, 0, 0] [] "").map Fl.toReal]
        ((TrainingSample.mk "a" [(0 : Binary64), 0, 0, 0] [] "").map Fl.toReal) = 2 ^ 600 ∧
    ¬ IsMinimumOver
        (specDistance Real.sqrt ([(Fl.fin (2 ^ 600) : Binary64), 0, 0, 0].map Fl.toReal)
          [(TrainingSample.mk "a" [(0 : Binary64), 0, 0, 0] [] "").map Fl.toReal])
        [(TrainingSample.mk "a" [(0 : Binary64), 0, 0, 0] [] "").map Fl.toReal]
        (Fl.toReal (DBL_MAX : Binary64)) := by
  have hd : specDistance Real.sqrt ([(Fl.fin (2 ^ 600) : Binary64), 0, 0, 0].map Fl.toReal)
      [(TrainingSample.mk "a" [(0 : Binary64), 0, 0, 0] [] "").map Fl.toReal]
      ((TrainingSample.mk "a" [(0 : Binary64), 0, 0, 0] [] "").map Fl.toReal) = 2 ^ 600 := by
    simp only [TrainingSample.map, List.map_cons, List.map_nil, Fl.toReal, Fl.toRat,
      Fl.zero_def, Rat.cast_zero, Rat.cast_pow, Rat.cast_ofNat]
    rw [specDistance_singleton]
    have h : ((2 : ℝ) ^ 600 - 0) ^ 2 + (0 - 0) ^ 2 + (0 - 0) ^ 2 + 2 * (0 - 0) ^ 2
        = (2 ^ 600) ^ 2 := by ring
    rw [h, Real.sqrt_sq (by positivity)]
  refine ⟨by decide!, hd, ?_⟩
  rintro ⟨⟨e, he, heq⟩, -⟩
  rw [List.mem_singleton] at he
  rw [he, hd, DBL_MAX_binary64] at heq
  simp only [Fl.toReal, Fl.toRat] at heq
  have h1 : (2 : ℝ) ^ 971 + 2 ^ 600 < 2 ^ 1024 := by
    have a1 : (2 : ℝ) ^ 971 ≤ 2 ^ 1022 := pow_le_pow_right₀ (by norm_num) (by norm_num)
    have a2 : (2 : ℝ) ^ 600 ≤ 2 ^ 1022 := pow_le_pow_right₀ (by norm_num) (by norm_num)
    have a3 : (2 : ℝ) ^ 1024 = 4 * 2 ^ 1022 := by rw [show (1024 : ℕ) = 1022 + 2 from rfl, pow_add]; ring
    have a4 : (0 : ℝ) < 2 ^ 1022 := by positivity
    linarith
  push_cast at heq
  linarith

/-- C1 (amended): for every gallery of one or more 4-feature entries and every
4-element query, `classifyObject` run in binary64 returns a result whose
distance is the least, under the comparison `<` of doubles, of `DBL_MAX`
and the distances computed operation by operation
(`computedDistance`): it is not a NaN, it is `DBL_MAX` or the computed
distance of an entry, neither `DBL_MAX` nor the computed distance of any
entry compares below it, and it is the computed distance of an entry as
soon as one of them compares below `DBL_MAX`. -/
theorem classifyObject_distance_least_computed (features : List Binary64)
    (gallery : List (TrainingSample Binary64)) (t : Binary64) (hg : gallery ≠ [])
    (hlen : ∀ e ∈ gallery, e.features.length = 4) (hq : features.length = 4) :
    ∃ r, classifyObject Fl.sqrt features gallery t = some r ∧
      r.distance ≠ Fl.nan ∧
      ¬ (DBL_MAX < r.distance) ∧
      (∀ e ∈ gallery, ¬ computedDistance Fl.sqrt features gallery e < r.distance) ∧
      (r.distance = DBL_MAX ∨
        ∃ e ∈ gallery, r.distance = computedDistance Fl.sqrt features gallery e) ∧
      ((∃ e ∈ gallery, computedDistance Fl.sqrt features gallery e < DBL_MAX) →
        r.distance < DBL_MAX ∧
        ∃ e ∈ gallery, r.distance = computedDistance Fl.sqrt features gallery e) := by
  obtain ⟨m, l, hrun, hcase⟩ :=
    classifyObject_run_computed Fl.sqrt features gallery t hg hlen hq
  have hleast := least_of_loop_state (computedDistance Fl.sqrt features gallery)
    DBL_MAX m l "Unknown" gallery hcase
  refine ⟨_, hrun, ?_, hleast⟩
  show m ≠ Fl.nan
  rcases hleast.2.2.1 with hm | ⟨e, he, hm⟩
  · rw [hm, DBL_MAX_binary64]
    exact fun h => by cases h
  · rcases hcase with ⟨hm', -, -⟩ | ⟨pre, e', post, -, -, hm', hlt, -, -⟩
    · rw [hm', DBL_MAX_binary64]
      exact fun h => by cases h
    · rw [hm']
      exact Fl.ne_nan_of_lt hlt

/-- C1 (witness): the amended statement at the query `[1, 2, 3, 4]` and a
gallery of one entry. -/
theorem classifyObject_distance_least_computed_witness :
    ∃ r : ClassificationResult Binary64,
      classifyObject Fl.sqrt [1, 2, 3, 4]
        [TrainingSample.mk "a" [1, 2, 3, 5] [] ""] 2
        = some r ∧ r.distance ≠ Fl.nan :=
  (classifyObject_distance_least_computed [1, 2, 3, 4]
    [TrainingSample.mk "a" [1, 2, 3, 5] [] ""] 2
    (by simp) (by simp) (by simp)).imp (fun _ h => ⟨h.1, h.2.1⟩)

/-- C2 (counterexample): with the threshold `0.1` (the double
`3602879701896397 / 2^55`) and a query at the computed distance
`d = 5404319552844596 / 2^55` from the only gallery entry,
`classifyObject` reports that distance with `isUnknown = false`, although
`d` is strictly greater than `1.5 * threshold`: the product
`threshold * 1.5` is rounded, to `d` itself. -/
theorem classifyObject_isUnknown_not_exact_product :
    classifyObject Fl.sqrt [(Fl.fin (5404319552844596 / 2 ^ 55) : Binary64), 0, 0, 0]
        [TrainingSample.mk "a" [0, 0, 0, 0] [] ""] (Fl.fin (3602879701896397 / 2 ^ 55))
      = some { label := "a", distance := Fl.fin (5404319552844596 / 2 ^ 55),
               isUnknown := false } ∧
    (3 / 2 : ℚ) * (3602879701896397 / 2 ^ 55) < 5404319552844596 / 2 ^ 55 ∧
    (Fl.fin (3602879701896397 / 2 ^ 55) : Binary64) * (3 / 2)
      = Fl.fin (5404319552844596 / 2 ^ 55) := by
  decide!

/-- C2 (amended): for every non-empty gallery, non-empty query and threshold, the
result `classifyObject` returns in binary64 has `isUnknown = true` exactly
when its distance compares strictly greater than the double
`threshold * 1.5`, the rounded product (`3 / 2` is the double `1.5`), so
`isUnknown` is false at a distance equal to that double; and a result is
returned whenever the query has at most 4 elements and no gallery entry has
fewer features than the query (otherwise a vector is read out of bounds). -/
theorem classifyObject_isUnknown_iff_rounded (features : List Binary64)
    (gallery : List (TrainingSample Binary64)) (t : Binary64) (hg : gallery ≠ [])
    (hf : features ≠ []) :
    (∀ r, classifyObject Fl.sqrt features gallery t = some r →
      ((r.isUnknown = true ↔ r.distance > t * (3 / 2)) ∧
       (r.distance = t * (3 / 2) → r.isUnknown = false))) ∧
    (features.length ≤ 4 → (∀ e ∈ gallery, features.length ≤ e.features.length) →
      ∃ r, classifyObject Fl.sqrt features gallery t = some r) := by
  refine ⟨fun r hr => ?_,
    fun hq hlen => classifyObject_total Fl.sqrt features gallery t hg hq hlen⟩
  have h := classifyObject_isUnknown_line79 Fl.sqrt features gallery t hg hf r hr
  refine ⟨by rw [h]; simp, fun heq => ?_⟩
  rw [h, heq]
  simp only [gt_iff_lt, decide_eq_false_iff_not]
  exact irrefl_of (fun a b : Binary64 => a < b) _

/-- C2 (witness): a query at distance `3 = 1.5 * 2` from the only gallery entry,
with threshold `2`. -/
theorem classifyObject_isUnknown_iff_rounded_witness :
    ∃ r : ClassificationResult Binary64,
      classifyObject Fl.sqrt [3, 0, 0, 0] [TrainingSample.mk "a" [0, 0, 0, 0] [] ""] 2
        = some r ∧
      (r.isUnknown = true ↔ r.distance > 2 * (3 / 2)) := by
  have h := classifyObject_isUnknown_iff_rounded [3, 0, 0, 0]
    [TrainingSample.mk "a" [0, 0, 0, 0] [] ""] 2 (by simp) (by simp)
  obtain ⟨r, hr⟩ := h.2 (by simp) (by simp)
  exact ⟨r, hr, (h.1 r hr).1⟩

/-- C3 (counterexample): for the query `[0, 2^600, 0, 0]` and the one-entry
gallery `a` with features `[0, 0, 0, 0]`, all of them doubles, the entry is
at distance `2^600`, far below `DBL_MAX`, but `diff * diff` overflows and
`classifyObject` reports the label `Unknown` and the distance `DBL_MAX`,
not the label and distance of the lowest-indexed entry of least distance. -/
theorem classifyObject_label_not_first_nearest :
    classifyObject Fl.sqrt [(0 : Binary64), Fl.fin (2 ^ 600), 0, 0]
        [TrainingSample.mk "a" [0, 0, 0, 0] [] ""] 1
      = some { label := "Unknown", distance := DBL_MAX, isUnknown := true } ∧
    ¬ IsFirstNearest
        (specDistance Real.sqrt ([(0 : Binary64), Fl.fin (2 ^ 600), 0, 0].map Fl.toReal)
          [(TrainingSample.mk "a" [(0 : Binary64), 0, 0, 0] [] "").map Fl.toReal])
        [(TrainingSample.mk "a" [(0 : Binary64), 0, 0, 0] [] "").map Fl.toReal]
        "Unknown" (Fl.toReal (DBL_MAX : Binary64)) := by
  refine ⟨by decide!, ?_⟩
  rintro ⟨pre, e, post, hsplit, hlabel, -⟩
  have he : e ∈ [(TrainingSample.mk "a" [(0 : Binary64), 0, 0, 0] [] "").map Fl.toReal] := by
    rw [hsplit]; simp
  rw [List.mem_singleton] at he
  rw [he] at hlabel
  simp only [TrainingSample.map] at hlabel
  exact absurd hlabel (by decide)

/-- C3 (amended): for every gallery of one or more 4-feature entries, every
4-element query and every threshold, `classifyObject` run in binary64
returns a result in which `isUnknown` is the comparison of line 79 and
nothing else depends on the threshold: either no entry has a computed
distance that compares below `DBL_MAX`, and the label is `Unknown` and
the distance `DBL_MAX`; or the label and distance are those of the first
gallery entry of least computed distance (`IsFirstLeast`: no computed
distance compares below its own, no earlier entry has the same computed
distance, and entries at a NaN distance are passed over). -/
theorem classifyObject_label_first_least (features : List Binary64)
    (gallery : List (TrainingSample Binary64)) (t : Binary64) (hg : gallery ≠ [])
    (hlen : ∀ e ∈ gallery, e.features.length = 4) (hq : features.length = 4) :
    ∃ r, classifyObject Fl.sqrt features gallery t = some r ∧
      r.isUnknown = decide (r.distance > t * (3 / 2)) ∧
      ((r.label = "Unknown" ∧ r.distance = DBL_MAX ∧
          ∀ e ∈ gallery, ¬ computedDistance Fl.sqrt features gallery e < DBL_MAX) ∨
       IsFirstLeast (computedDistance Fl.sqrt features gallery) DBL_MAX gallery
         r.label r.distance) := by
  obtain ⟨m, l, hrun, hcase⟩ :=
    classifyObject_run_computed Fl.sqrt features gallery t hg hlen hq
  refine ⟨_, hrun, rfl, ?_⟩
  rcases hcase with ⟨hm, hl, hall⟩ | h
  · exact Or.inl ⟨hl, hm, hall⟩
  · exact Or.inr h

/-- C3 (witness): two entries at the same distance from the query. -/
theorem classifyObject_label_first_least_witness :
    ∃ r : ClassificationResult Binary64,
      classifyObject Fl.sqrt [1, 2, 3, 4]
        [TrainingSample.mk "a" [1, 2, 3, 4] [] "", TrainingSample.mk "b" [1, 2, 3, 4] [] ""] 2
        = some r ∧
      r.isUnknown = decide (r.distance > 2 * (3 / 2)) :=
  (classifyObject_label_first_least [1, 2, 3, 4]
    [TrainingSample.mk "a" [1, 2, 3, 4] [] "", TrainingSample.mk "b" [1, 2, 3, 4] [] ""] 2
    (by simp) (by simp) (by simp)).imp (fun _ h => ⟨h.1, h.2.1⟩)

/-- C8 (counterexample): a gallery of one entry whose first feature is a NaN (the
other three are `0`) and the threshold `1`: every comparison with the NaN
distance fails and `classifyObject`, applied to the entry's own features,
returns the label `Unknown`, the distance `DBL_MAX` and `isUnknown = true`,
not the distance `0` and `isUnknown = false`. -/
theorem classifyObject_own_features_nan :
    classifyObject Fl.sqrt (TrainingSample.mk "a" [(Fl.nan : Binary64), 0, 0, 0] [] "").features
        [TrainingSample.mk "a" [(Fl.nan : Binary64), 0, 0, 0] [] ""] 1
      = some { label := "Unknown", distance := DBL_MAX, isUnknown := true } ∧
    (0 : Binary64) < 1 ∧ (DBL_MAX : Binary64) ≠ 0 := by
  decide!

/-- The computed distance of an entry with four finite features to itself, in a
gallery of one entry, is `0`. -/
theorem computedDistance_self (e : TrainingSample Binary64) (he : e.features.length = 4)
    (hfin : ∀ x ∈ e.features, Fl.IsFinite x) :
    computedDistance Fl.sqrt e.features [e] e = 0 := by
  obtain ⟨a, b, c, d, hef⟩ := list_length_four e.features he
  have ha : a - a = 0 := Fl.sub_self_of_finite (hfin a (by simp [hef]))
  have hb : b - b = 0 := Fl.sub_self_of_finite (hfin b (by simp [hef]))
  have hc : c - c = 0 := Fl.sub_self_of_finite (hfin c (by simp [hef]))
  have hd : d - d = 0 := Fl.sub_self_of_finite (hfin d (by simp [hef]))
  have h1 : (1 : Binary64) * 0 = 0 := Fl.fin_mul_zero 1
  have h2 : (2 : Binary64) * 0 = 0 := by rw [two_binary64]; exact Fl.fin_mul_zero 2
  have h0 : (0 : Binary64) * 0 = 0 := Fl.fin_mul_zero 0
  simp only [computedDistance, computedSigma, sumLeft, hef, List.length_singleton, if_true,
    List.range_succ, List.range_zero, List.nil_append, List.cons_append,
    List.map_cons, List.map_nil, specWeight, List.getD_cons_zero, List.getD_cons_succ,
    Nat.reduceAdd, Nat.reduceEqDiff, if_false, OfNat.ofNat_ne_zero, OfNat.zero_ne_ofNat,
    Nat.succ_ne_zero, List.foldl_cons, List.foldl_nil, ha, hb, hc, hd, Fl.zero_div_one,
    h1, h2, h0, Fl.zero_add_zero, Fl.sqrt_zero]

/-- C8 (amended): for every gallery of exactly one entry that holds 4 classic
features, all of them finite doubles (no NaN, no infinity), and every
threshold `> 0`, `classifyObject` applied in binary64 to that entry's own
feature vector returns the entry's label, the distance `0` and
`isUnknown = false`. -/
theorem classifyObject_own_finite_features (e : TrainingSample Binary64) (t : Binary64)
    (he : e.features.length = 4) (hfin : ∀ x ∈ e.features, Fl.IsFinite x)
    (ht : (0 : Binary64) < t) :
    classifyObject Fl.sqrt e.features [e] t
      = some { label := e.label, distance := 0, isUnknown := false } := by
  have hd := computedDistance_self e he hfin
  obtain ⟨m, l, hrun, hcase⟩ := classifyObject_run_computed Fl.sqrt e.features [e] t
    (by simp) (by simpa using he) he
  have hml : m = 0 ∧ l = e.label := by
    rcases hcase with ⟨-, -, hall⟩ | ⟨pre, e', post, hsplit, hl, hm, -, -, -⟩
    · have h : computedDistance Fl.sqrt e.features [e] e < DBL_MAX := by
        rw [hd]
        exact zero_lt_DBL_MAX
      exact absurd h (hall e (by simp))
    · have he' : e' ∈ [e] := by rw [hsplit]; simp
      rw [List.mem_singleton] at he'
      rw [hm, hl, he', hd]
      exact ⟨rfl, rfl⟩
  have hun : ¬ (m > t * (3 / 2)) := by
    rw [hml.1, three_halves_binary64]
    exact Fl.not_lt_zero_of_nonneg (Fl.mul_nonneg_of_pos ht (by norm_num))
  rw [hrun, hml.1, hml.2]
  rw [hml.1] at hun
  simp [hun]

/-- C8 (witness): the entry with features `[1, 2, 3, 4]` and threshold `2`. -/
theorem classifyObject_own_finite_features_witness :
    classifyObject Fl.sqrt [(1 : Binary64), 2, 3, 4]
        [TrainingSample.mk "a" [1, 2, 3, 4] [] ""] 2
      = some { label := "a", distance := 0, isUnknown := false } :=
  classifyObject_own_finite_features (TrainingSample.mk "a" [1, 2, 3, 4] [] "") 2
    (by simp) (by decide!) (by decide!)

/-! ## Claims on `classifyObjectCNN`, in binary32 arithmetic -/

/-- C6 (counterexample): for the query `[2^70]` and the one-entry gallery `a`
with embedding `[0]`, both floats, the entry is at Euclidean distance
`2^70`, far below `FLT_MAX`, but `diff * diff` overflows to `+infinity`
and `classifyObjectCNN` reports the label `Unknown` and the distance
`FLT_MAX = 2^128 - 2^104`, not the label and distance of the first nearest
entry that has an embedding. -/
theorem classifyObjectCNN_not_first_nearest :
    classifyObjectCNN Fl.sqrt [(Fl.fin (2 ^ 70) : Binary32)]
        [TrainingSample.mk "a" [] [0] ""] 1
      = some { label := "Unknown", distance := FLT_MAX, isUnknown := true } ∧
    specL2 Real.sqrt ([(Fl.fin (2 ^ 70) : Binary32)].map Fl.toReal)
        ((TrainingSample.mk "a" [] [(0 : Binary32)] "").map Fl.toReal) = 2 ^ 70 ∧
    ¬ IsFirstNearest (specL2 Real.sqrt ([(Fl.fin (2 ^ 70) : Binary32)].map Fl.toReal))
        (List.filter hasEmbedding
          [(TrainingSample.mk "a" [] [(0 : Binary32)] "").map Fl.toReal])
        "Unknown" (Fl.toReal (FLT_MAX : Binary32)) := by
  refine ⟨by decide!, ?_, ?_⟩
  · simp only [TrainingSample.map, List.map_cons, List.map_nil, Fl.toReal, Fl.toRat,
      Fl.zero_def, Rat.cast_zero, Rat.cast_pow, Rat.cast_ofNat, specL2, List.length_singleton,
      Finset.sum_range_one, List.getD_cons_zero, sub_zero]
    exact Real.sqrt_sq (by positivity)
  · rintro ⟨pre, e, post, hsplit, hlabel, -⟩
    have he : e ∈ List.filter hasEmbedding
        [(TrainingSample.mk "a" [] [(0 : Binary32)] "").map Fl.toReal] := by
      rw [hsplit]; simp
    have he' := List.mem_of_mem_filter he
    rw [List.mem_singleton] at he'
    rw [he'] at hlabel
    simp only [TrainingSample.map] at hlabel
    exact absurd hlabel (by decide)

/-- C6 (amended): for every non-empty query and every gallery in which some entry
has an embedding and every stored (non-empty) embedding has the query's
length, `classifyObjectCNN` run in binary32 returns a result with
`isUnknown = true` exactly when its distance compares strictly greater
than the threshold itself, and: either no entry with an embedding has a
computed Euclidean distance (`computedL2`: differences, squares, sum from
the left and square root, each rounded) that compares below `FLT_MAX`,
and the label is `Unknown` and the distance `FLT_MAX`; or the label and
distance are those of the first entry of least computed distance among
the entries that have an embedding. -/
theorem classifyObjectCNN_first_least (q : List Binary32)
    (gallery : List (TrainingSample Binary32)) (t : Binary32) (hq : q ≠ [])
    (hex : ∃ e ∈ gallery, hasEmbedding e = true)
    (hlen : ∀ e ∈ gallery, hasEmbedding e = true → e.cnnEmbedding.length = q.length) :
    ∃ r, classifyObjectCNN Fl.sqrt q gallery t = some r ∧
      (r.isUnknown = true ↔ r.distance > t) ∧
      ((r.label = "Unknown" ∧ r.distance = FLT_MAX ∧
          ∀ e ∈ gallery.filter hasEmbedding, ¬ computedL2 Fl.sqrt q e < FLT_MAX) ∨
       IsFirstLeast (computedL2 Fl.sqrt q) FLT_MAX (gallery.filter hasEmbedding)
         r.label r.distance) ∧
      ¬ (FLT_MAX < r.distance) ∧
      (∀ e ∈ gallery.filter hasEmbedding, ¬ computedL2 Fl.sqrt q e < r.distance) := by
  have hg : gallery ≠ [] := by
    obtain ⟨e, he, -⟩ := hex
    exact List.ne_nil_of_mem he
  obtain ⟨m, l, hrun, hcase⟩ := classifyObjectCNN_run_computed Fl.sqrt q gallery t hq hg
    (fun e he hemb => (hlen e he hemb).ge)
  have hleast := least_of_loop_state (computedL2 Fl.sqrt q) FLT_MAX m l "Unknown"
    (gallery.filter hasEmbedding) hcase
  refine ⟨_, hrun, by simp, ?_, hleast.1, hleast.2.1⟩
  rcases hcase with ⟨hm, hl, hall⟩ | h
  · exact Or.inl ⟨hl, hm, hall⟩
  · exact Or.inr h

/-- C6 (witness): a gallery with an entry lacking an embedding and two entries
at the same distance from the query. -/
theorem classifyObjectCNN_first_least_witness :
    ∃ r : ClassificationResult Binary32,
      classifyObjectCNN Fl.sqrt [1, 2]
        [TrainingSample.mk "a" [] [] "", TrainingSample.mk "b" [] [4, 6] "",
         TrainingSample.mk "c" [] [4, 6] ""] 10 = some r ∧
      (r.isUnknown = true ↔ r.distance > 10) :=
  (classifyObjectCNN_first_least [1, 2]
    [TrainingSample.mk "a" [] [] "", TrainingSample.mk "b" [] [4, 6] "",
     TrainingSample.mk "c" [] [4, 6] ""] 10 (by simp)
    ⟨TrainingSample.mk "b" [] [4, 6] "", by simp, by simp [hasEmbedding]⟩
    (by
      intro e he hemb
      simp only [List.mem_cons, List.mem_singleton, List.not_mem_nil, or_false] at he
      rcases he with rfl | rfl | rfl
      · simp [hasEmbedding] at hemb
      · rfl
      · rfl)).imp (fun _ h => ⟨h.1, h.2.1⟩)

/-- C9 (counterexample): the query `[NaN]` and a gallery whose only entry has the
identical embedding `[NaN]`, with threshold `1`: the difference is a NaN,
the comparison `distance < minDistance` fails, and `classifyObjectCNN`
returns the label `Unknown`, the distance `FLT_MAX` and `isUnknown = true`,
not the distance `0` and `isUnknown = false`. -/
theorem classifyObjectCNN_identical_nan :
    classifyObjectCNN Fl.sqrt [(Fl.nan : Binary32)]
        [TrainingSample.mk "a" [] [Fl.nan] ""] 1
      = some { label := "Unknown", distance := FLT_MAX, isUnknown := true } ∧
    (TrainingSample.mk "a" [] [(Fl.nan : Binary32)] "").cnnEmbedding = [Fl.nan] ∧
    (0 : Binary32) < 1 ∧ (FLT_MAX : Binary32) ≠ 0 := by
  decide!

/-- The computed Euclidean distance of a vector of finite numbers to itself is
`0`. -/
theorem computedL2_self (q : List Binary32) (e : TrainingSample Binary32)
    (heq : e.cnnEmbedding = q) (hfin : ∀ x ∈ q, Fl.IsFinite x) :
    computedL2 Fl.sqrt q e = 0 := by
  unfold computedL2 sumLeft
  rw [heq, Fl.foldl_add_zeros, Fl.sqrt_zero]
  intro x hx
  obtain ⟨i, hi, rfl⟩ := List.mem_map.mp hx
  have hi' : i < q.length := List.mem_range.mp hi
  have hmem : q.getD i 0 ∈ q := by
    rw [List.getD_eq_getElem _ _ hi']
    exact List.getElem_mem hi'
  rw [Fl.sub_self_of_finite (hfin _ hmem)]
  exact Fl.fin_mul_zero 0

/-- C9 (amended): for every non-empty query of finite floats (no NaN, no
infinity), every threshold `> 0` and every gallery that contains an entry
whose embedding is identical to the query, all other non-empty embeddings
having the query's length, `classifyObjectCNN` run in binary32 returns
distance `0` and `isUnknown = false`. -/
theorem classifyObjectCNN_identical_finite_embedding (q : List Binary32)
    (gallery : List (TrainingSample Binary32)) (t : Binary32) (hq : q ≠ [])
    (hfin : ∀ x ∈ q, Fl.IsFinite x) (ht : (0 : Binary32) < t)
    (hsame : ∃ e ∈ gallery, e.cnnEmbedding = q)
    (hlen : ∀ e ∈ gallery, e.cnnEmbedding ≠ [] → e.cnnEmbedding.length = q.length) :
    ∃ r, classifyObjectCNN Fl.sqrt q gallery t = some r ∧
      r.distance = 0 ∧ r.isUnknown = false := by
  obtain ⟨e, he, heq⟩ := hsame
  have hemb : hasEmbedding e = true := by
    simp [hasEmbedding, heq, List.isEmpty_iff, hq]
  have hmem : e ∈ gallery.filter hasEmbedding := List.mem_filter.mpr ⟨he, hemb⟩
  have hd : computedL2 Fl.sqrt q e = 0 := computedL2_self q e heq hfin
  obtain ⟨m, l, hrun, hcase⟩ := classifyObjectCNN_run_computed Fl.sqrt q gallery t hq
    (List.ne_nil_of_mem he)
    (fun x hx hxe => (hlen x hx (by
      intro h
      simp [hasEmbedding, h] at hxe)).ge)
  have hleast := (least_of_loop_state (computedL2 Fl.sqrt q) FLT_MAX m l "Unknown"
    (gallery.filter hasEmbedding) hcase).2.1 e hmem
  rw [hd] at hleast
  have hm : m = 0 := by
    rcases hcase with ⟨-, -, hall⟩ | ⟨pre, e', post, -, -, hm, hlt, -, -⟩
    · have h := hall e hmem
      rw [hd] at h
      exact absurd zero_lt_FLT_MAX h
    · have hnn : Fl.NonNeg m := by
        rw [hm]
        rcases Fl.sqrt_nan_or_nonneg
          (sumLeft ((List.range q.length).map (fun i =>
            (q.getD i 0 - e'.cnnEmbedding.getD i 0)
              * (q.getD i 0 - e'.cnnEmbedding.getD i 0)))) with h | h
        · exact absurd h (Fl.ne_nan_of_lt hlt)
        · exact h
      exact Fl.eq_zero_of_nonneg hnn hleast (hm ▸ hlt)
  refine ⟨_, hrun, hm, ?_⟩
  have hun : ¬ (m > t) := by
    rw [hm]
    exact fun h => irrefl_of (fun a b : Binary32 => a < b) _
      (IsTrans.trans (r := fun a b : Binary32 => a < b) _ _ _ ht h)
  simp [hun]

/-- C9 (witness): the query `[1, 2]` and a gallery whose second entry stores the
same embedding. -/
theorem classifyObjectCNN_identical_finite_embedding_witness :
    ∃ r : ClassificationResult Binary32,
      classifyObjectCNN Fl.sqrt [1, 2]
        [TrainingSample.mk "a" [] [4, 6] "", TrainingSample.mk "b" [] [1, 2] ""] 10 = some r ∧
      r.distance = 0 ∧ r.isUnknown = false :=
  classifyObjectCNN_identical_finite_embedding [1, 2]
    [TrainingSample.mk "a" [] [4, 6] "", TrainingSample.mk "b" [] [1, 2] ""] 10
    (by simp) (by decide!) (by decide!)
    ⟨TrainingSample.mk "b" [] [1, 2] "", by simp, rfl⟩
    (by
      intro e he _
      simp only [List.mem_cons, List.mem_singleton, List.not_mem_nil, or_false] at he
      rcases he with rfl | rfl <;> rfl)

/-! ## Claims on the eigenvalue formula, the region loop and the tie order -/

/-- C18 (the code at the failing input): the mask of the three pixels `(0, 0)`,
`(1, 2)`, `(2, 4)` has `m00 = 3`, `mu20 = 2`, `mu11 = 4`, `mu02 = 8`.  On
the doubles `mu20 / m00`, `mu11 / m00`, `mu02 / m00` the hypotheses of the
claim hold (`m00 > 0`, neither normalised moment is negative, and
`mu11^2 <= mu20 * mu02` as numbers), and in exact arithmetic `lambda2 = 0`
and the elongation is `1`.  In binary64 `common` is rounded up,
`lambda2` comes out negative, `sqrt (lambda2 / lambda1)` is a NaN, and
`computeRegionFeatures` returns the elongation NaN, which is not in
`[0, 1]`. -/
theorem computeRegionFeatures_elongation_nan :
    (∀ (u : Uninitialized Binary64) (hu : List Binary64)
        (minAreaRect : List Point → RotatedRect Binary64) (regionId : Int),
      (computeRegionFeatures Fl.sqrt u
        { countNonZero := 3, moments := ⟨3, 3, 6, 2, 4, 8⟩, huMoments := hu,
          contours := [[⟨0, 0⟩], [⟨1, 2⟩], [⟨2, 4⟩]],
          minAreaRect := minAreaRect } regionId).elongation = Fl.nan) ∧
    ((0 : Binary64) < 3 ∧ ¬ ((2 : Binary64) / 3 < 0) ∧ ¬ ((8 : Binary64) / 3 < 0) ∧
      ((4 : Binary64) / 3).toRat ^ 2 ≤ ((2 : Binary64) / 3).toRat * ((8 : Binary64) / 3).toRat) ∧
    (1 / 2 : Binary64) * (((2 : Binary64) / 3 + 8 / 3)
        - Fl.sqrt (4 * (4 / 3) * (4 / 3) + (2 / 3 - 8 / 3) * (2 / 3 - 8 / 3)))
      = Fl.fin (-(1 / 2 ^ 52)) ∧
    specLambda2 Real.sqrt (2 / 3) (8 / 3) (4 / 3) = 0 ∧
    specElongation Real.sqrt (2 / 3) (8 / 3) (4 / 3) = 1 := by
  have hs : Real.sqrt (4 * (4 / 3 : ℝ) ^ 2 + (2 / 3 - 8 / 3) ^ 2) = 10 / 3 := by
    rw [show (4 * (4 / 3 : ℝ) ^ 2 + (2 / 3 - 8 / 3) ^ 2) = (10 / 3) ^ 2 by norm_num]
    exact Real.sqrt_sq (by norm_num)
  have h2 : specLambda2 Real.sqrt (2 / 3) (8 / 3) (4 / 3) = 0 := by
    unfold specLambda2
    rw [hs]
    norm_num
  have h1 : specLambda1 Real.sqrt (2 / 3) (8 / 3) (4 / 3) = 10 / 3 := by
    unfold specLambda1
    rw [hs]
    norm_num
  have h3 : ((3 : Binary64) ≠ 0) = True := by decide!
  refine ⟨fun u hu minAreaRect regionId => ?_, by decide!, by decide!, h2, ?_⟩
  · simp only [computeRegionFeatures, h3, if_true]
    decide!
  unfold specElongation
  rw [h1, h2]
  norm_num

section RegionLoop

variable {α : Type} [Zero α] [One α] [NatCast α] [Add α] [Sub α] [Mul α] [Div α]
  [Pow α ℕ] [LT α] [DecidableRel ((· < ·) : α → α → Prop)] [Max α] [Min α] [DecidableEq α]

set_option linter.unusedSectionVars false

/-- The area `computeRegionFeatures` returns is `countNonZero(regionMask)`. -/
theorem computeRegionFeatures_area (sqrt : α → α) (u : Uninitialized α)
    (mask : MaskAnalysis α) (regionId : Int) :
    (computeRegionFeatures sqrt u mask regionId).area = (mask.countNonZero : α) := by
  unfold computeRegionFeatures
  cases hc : mask.contours with
  | nil =>
    by_cases hm : mask.moments.m00 = 0
    · simp only [hm, ne_eq, not_true_eq_false, if_false]
    · simp only [hm, ne_eq, not_false_eq_true, if_true]
  | cons c rest =>
    by_cases hm : mask.moments.m00 = 0
    · simp only [hm, ne_eq, not_true_eq_false, if_false]
    · simp only [hm, ne_eq, not_false_eq_true, if_true]

/-- Whatever `processRegion` returns, its feature record is the one computed
from `regionMask`. -/
theorem processRegion_features (sqrt : α → α) (u : Uninitialized α) (cv : OpenCV α)
    (labels : LabelImage) (region : Region) (trainingMode : Bool)
    (trainingSamples : List (TrainingSample α)) (t : α) (regionMap : List Drawing)
    (o : RegionOutcome α)
    (h : processRegion sqrt u cv labels region trainingMode trainingSamples t regionMap
      = some o) :
    o.features = computeRegionFeatures sqrt u
      (analyseMask cv (regionMaskOf labels region.centroid)) region.id := by
  unfold processRegion at h
  simp only at h
  split at h
  · split at h
    · cases h
    · split at h
      · cases h
      · injection h with h
        rw [← h]
  · injection h with h
    rw [← h]

end RegionLoop

/-- The mask of the label found at a pixel of `labels` has a non-zero pixel:
that pixel. -/
theorem countNonZero_labelsEqual_pos (labels : LabelImage) (y x : Nat)
    (hy : y < labels.rows) (hx : x < labels.cols) :
    0 < countNonZero (labelsEqual labels (labels.label y x)) := by
  unfold countNonZero
  have hrow : 0 < ((List.range (labelsEqual labels (labels.label y x)).cols).filter
      (fun c => (labelsEqual labels (labels.label y x)).pixel y c ≠ 0)).length := by
    apply List.length_pos_of_mem (a := x)
    rw [List.mem_filter]
    exact ⟨List.mem_range.mpr hx, by simp [labelsEqual]⟩
  have hmem : ((List.range (labelsEqual labels (labels.label y x)).cols).filter
      (fun c => (labelsEqual labels (labels.label y x)).pixel y c ≠ 0)).length
      ∈ (List.range (labelsEqual labels (labels.label y x)).rows).map (fun r =>
          ((List.range (labelsEqual labels (labels.label y x)).cols).filter
            (fun c => (labelsEqual labels (labels.label y x)).pixel r c ≠ 0)).length) :=
    List.mem_map.mpr ⟨y, List.mem_range.mpr hy, rfl⟩
  exact lt_of_lt_of_le hrow (List.le_sum_of_mem hmem)

/-- For a region whose centroid lies inside `labels`, `regionMask` has a non-zero
pixel and the feature record computed from it has an area that is not `0`. -/
theorem processRegion_area_of_centroid (u : Uninitialized Binary64) (cv : OpenCV Binary64)
    (labels : LabelImage) (region : Region) (trainingMode : Bool)
    (trainingSamples : List (TrainingSample Binary64)) (t : Binary64)
    (regionMap : List Drawing)
    (hx : region.centroid.x ≥ 0 ∧ region.centroid.x < (labels.cols : Int))
    (hy : region.centroid.y ≥ 0 ∧ region.centroid.y < (labels.rows : Int)) :
    0 < countNonZero (regionMaskOf labels region.centroid) ∧
    (computeRegionFeatures Fl.sqrt u (analyseMask cv (regionMaskOf labels region.centroid))
        region.id).area ≠ 0 ∧
    ∀ o, processRegion Fl.sqrt u cv labels region trainingMode trainingSamples t regionMap
        = some o →
      o.features.area ≠ 0 ∧
      (o.features.area = 0 → o.regionMap = regionMap ∧ o.classified = none) := by
  have hpos : 0 < countNonZero (regionMaskOf labels region.centroid) := by
    unfold regionMaskOf
    rw [if_pos ⟨hx.1, hx.2, hy.1, hy.2⟩]
    exact countNonZero_labelsEqual_pos labels _ _ (by omega) (by omega)
  have harea : (computeRegionFeatures Fl.sqrt u
      (analyseMask cv (regionMaskOf labels region.centroid)) region.id).area ≠ 0 := by
    rw [computeRegionFeatures_area]
    exact Fl.natCast_ne_zero (by norm_num) (by norm_num) _ (Nat.pos_iff_ne_zero.mp hpos)
  refine ⟨hpos, harea, fun o ho => ?_⟩
  have hne : o.features.area ≠ 0 := by
    rw [processRegion_features Fl.sqrt u cv labels region trainingMode trainingSamples t
      regionMap o ho]
    exact harea
  exact ⟨hne, fun h => absurd h hne⟩

theorem collectRegions_centroid : ∀ (rows : List ComponentStats) (i : Int) (r : Region),
    r ∈ collectRegions rows i → ∃ c ∈ rows, r.centroid = c.centroid
  | [], _, r, h => by simp [collectRegions] at h
  | row :: rest, i, r, h => by
    simp only [collectRegions, List.mem_cons] at h
    rcases h with rfl | h
    · exact ⟨row, by simp, rfl⟩
    · obtain ⟨c, hc, hrc⟩ := collectRegions_centroid rest (i + 1) r h
      exact ⟨c, by simp [hc], hrc⟩

theorem reassignIds_centroid : ∀ (l : List Region) (i : Int) (r : Region),
    r ∈ reassignIds l i → ∃ r0 ∈ l, r.centroid = r0.centroid
  | [], _, r, h => by simp [reassignIds] at h
  | x :: rest, i, r, h => by
    simp only [reassignIds, List.mem_cons] at h
    rcases h with rfl | h
    · exact ⟨x, by simp, rfl⟩
    · obtain ⟨r0, hr0, hh⟩ := reassignIds_centroid rest (i + 1) r h
      exact ⟨r0, by simp [hr0], hh⟩

/-- The centroid of a region `analyzeRegions` returns is the centroid of one of
the labelled components. -/
theorem analyzeRegions_centroid (S : AreaSort) (stats : List ComponentStats)
    (cols rows minArea maxRegions : Int) (ignoreBoundaryRegions : Bool) (r : Region)
    (h : r ∈ analyzeRegions S stats cols rows minArea maxRegions ignoreBoundaryRegions) :
    ∃ c ∈ stats, r.centroid = c.centroid := by
  rw [analyzeRegions_eq_reassign] at h
  obtain ⟨r0, hr0, hc⟩ := reassignIds_centroid _ _ r h
  have hall := (mem_selectRegions S stats cols rows minArea maxRegions
    ignoreBoundaryRegions r0 hr0).1
  obtain ⟨c, hmem, hc0⟩ := collectRegions_centroid _ _ r0 hall
  exact ⟨c, List.mem_of_mem_drop hmem, hc.trans hc0⟩

/-- C19: in the per-frame pipeline of `main`, where the regions are those
`analyzeRegions` returns for the components of the matrix `labels` and the
centroid of every component lies inside that matrix (it is the mean of
the component's pixel positions), the test of line 123 passes for every
region and `regionMask` holds the pixels that carry the label found at the
centroid, the centroid pixel among them.  So the feature record computed
in the loop has an area that is not `0`: no record of area `0` arises,
and none is drawn by `drawRegionFeatures` or turned into a query for
`classifyObject`. -/
theorem processRegion_area_ne_zero (S : AreaSort) (stats : List ComponentStats)
    (labels : LabelImage) (minArea maxRegions : Int) (ignoreBoundaryRegions : Bool)
    (cv : OpenCV Binary64) (trainingMode : Bool)
    (trainingSamples : List (TrainingSample Binary64)) (t : Binary64)
    (hcentroids : ∀ c ∈ stats,
      c.centroid.x ≥ 0 ∧ c.centroid.x < (labels.cols : Int) ∧
      c.centroid.y ≥ 0 ∧ c.centroid.y < (labels.rows : Int)) :
    ∀ region ∈ analyzeRegions S stats labels.cols labels.rows minArea maxRegions
        ignoreBoundaryRegions,
      ∀ (u : Uninitialized Binary64) (regionMap : List Drawing),
        0 < countNonZero (regionMaskOf labels region.centroid) ∧
        (computeRegionFeatures Fl.sqrt u
          (analyseMask cv (regionMaskOf labels region.centroid)) region.id).area ≠ 0 ∧
        ∀ o, processRegion Fl.sqrt u cv labels region trainingMode trainingSamples t regionMap
            = some o →
          o.features.area ≠ 0 ∧
          (o.features.area = 0 → o.regionMap = regionMap ∧ o.classified = none) := by
  intro region hregion u regionMap
  obtain ⟨c, hc, hrc⟩ := analyzeRegions_centroid S stats _ _ _ _ _ region hregion
  have h := hcentroids c hc
  rw [← hrc] at h
  exact processRegion_area_of_centroid u cv labels region trainingMode trainingSamples t
    regionMap ⟨h.1, h.2.1⟩ ⟨h.2.2.1, h.2.2.2⟩

/-- C19 (witness): a 3 x 3 label matrix whose middle row is the component of
label 1, and the region `analyzeRegions` returns for it. -/
theorem processRegion_area_ne_zero_witness :
    0 < countNonZero (regionMaskOf ⟨3, 3, fun y _ => if y = 1 then 1 else 0⟩
      (Region.mk 1 3 ⟨1, 1⟩ ⟨0, 1, 3, 1⟩ ⟨1, 1, 1⟩).centroid) ∧
    (computeRegionFeatures Fl.sqrt (⟨0, 0, 0, 0, 0, 0, 0⟩ : Uninitialized Binary64)
        (analyseMask
          ⟨fun _ => ⟨3, 3, 3, 2, 0, 0⟩, fun _ => [0, 0, 0, 0, 0, 0, 0],
            fun _ => [[⟨0, 1⟩, ⟨2, 1⟩]], fun _ => ⟨⟨1, 1⟩, ⟨2, 0⟩, 0⟩⟩
          (regionMaskOf ⟨3, 3, fun y _ => if y = 1 then 1 else 0⟩
            (Region.mk 1 3 ⟨1, 1⟩ ⟨0, 1, 3, 1⟩ ⟨1, 1, 1⟩).centroid))
        (Region.mk 1 3 ⟨1, 1⟩ ⟨0, 1, 3, 1⟩ ⟨1, 1, 1⟩).id).area ≠ 0 :=
  have h := processRegion_area_ne_zero insertionAreaSort
    [⟨6, 0, 0, 3, 3, ⟨1, 1⟩, ⟨0, 0, 0⟩⟩, ⟨3, 0, 1, 3, 1, ⟨1, 1⟩, ⟨1, 1, 1⟩⟩]
    ⟨3, 3, fun y _ => if y = 1 then 1 else 0⟩ 1 5 false
    ⟨fun _ => ⟨3, 3, 3, 2, 0, 0⟩, fun _ => [0, 0, 0, 0, 0, 0, 0],
      fun _ => [[⟨0, 1⟩, ⟨2, 1⟩]], fun _ => ⟨⟨1, 1⟩, ⟨2, 0⟩, 0⟩⟩
    true [] 2 (by decide)
    (Region.mk 1 3 ⟨1, 1⟩ ⟨0, 1, 3, 1⟩ ⟨1, 1, 1⟩) (by decide)
    ⟨0, 0, 0, 0, 0, 0, 0⟩ []
  ⟨h.1, h.2.1⟩

/-- C11 (counterexample): a 1000 x 1000 mask with 17 components of the same area
1000, labels 1 to 17 from left to right (`seventeenComponents`), with
`minArea = 1000` and `maxRegions = 5`.  `std::sort` as GNU libstdc++ runs it
(more than 16 elements: median-of-three partition, then insertion sort)
leaves the components in the order of labels 9, 17, 16, 15, 14, ..., and
`analyzeRegions` returns the components of labels 9, 17, 16, 15, 14 (at
columns 450, 850, 800, 750, 700) as regions 1 to 5: regions of equal area
do not appear in ascending order of their original label.  On this input
the sort meets its contract: its result is a rearrangement of the input in
non-increasing order of area. -/
theorem analyzeRegions_ties_not_by_label :
    (selectRegionsWith libstdcxxSort seventeenComponents 1000 1000 1000 5 true).map
        (fun r => (r.id, r.area))
      = [(9, 1000), (17, 1000), (16, 1000), (15, 1000), (14, 1000)] ∧
    (analyzeRegionsWith libstdcxxSort seventeenComponents 1000 1000 1000 5 true).map
        (fun r => (r.id, r.area, r.boundingBox.x))
      = [(1, 1000, 450), (2, 1000, 850), (3, 1000, 800), (4, 1000, 750), (5, 1000, 700)] ∧
    ¬ (selectRegionsWith libstdcxxSort seventeenComponents 1000 1000 1000 5 true).Pairwise
        (fun a b => a.area = b.area → a.id < b.id) ∧
    (libstdcxxSort (allRegions seventeenComponents)).map Region.id
      = [9, 17, 16, 15, 14, 13, 12, 11, 10, 1, 8, 7, 6, 5, 4, 3, 2] ∧
    (libstdcxxSort (allRegions seventeenComponents)).Pairwise
        (fun a b => ¬ areaGreater b a) := by
  decide

end BinaryClaims

end ObjectRecognition
